import Mathlib

/-!
# Seat allocation page (`Frontend/src/pages/Allocation.jsx`)

A shallow embedding of the allocation page: the JavaScript values it handles
(strings, numbers, objects keyed by property name), the helpers `parseKVList`
and `buildPayload`, the change handlers of the form, the effect that keeps the
start-roll inputs in step with the number of batches, `renderSeat`, the
requests `generate` and `showConstraints`, the three PDF downloads and the
chart section.

Numbers follow ECMAScript: a number is NaN, an infinity or a finite value, and
an integer that is read from text is rounded to the nearest IEEE-754 double
(`roundNat`), so integers above `2^53` are not all representable.
-/

namespace Allocation

/-! ## Strings -/

/-- A JavaScript string, as the list of its characters. -/
abbrev JSString := List Char

/-- The characters `String.prototype.trim` and `parseInt` strip: ECMAScript
`WhiteSpace` and `LineTerminator`. -/
def isJSWhitespace (c : Char) : Bool :=
  let n := c.toNat
  n == 0x09 || n == 0x0A || n == 0x0B || n == 0x0C || n == 0x0D || n == 0x20 ||
  n == 0xA0 || n == 0x1680 || (0x2000 ≤ n && n ≤ 0x200A) || n == 0x2028 ||
  n == 0x2029 || n == 0x202F || n == 0x205F || n == 0x3000 || n == 0xFEFF

/-- Leading white space removed (`trimStart`). -/
def trimStart (s : JSString) : JSString := s.dropWhile isJSWhitespace

/-- Trailing white space removed (`trimEnd`). -/
def trimEnd (s : JSString) : JSString := (s.reverse.dropWhile isJSWhitespace).reverse

/-- The method `String.prototype.trim`. -/
def trim (s : JSString) : JSString := trimEnd (trimStart s)

/-- The method `String.prototype.includes` for a one-character search string. -/
def includes (s : JSString) (c : Char) : Bool := s.contains c

/-- The pieces of `s` between the occurrences of `sep`, the piece being read held
in `cur`: `s.split(sep)` is `splitAux sep s []`. -/
def splitAux (sep : Char) : JSString → JSString → List JSString
  | [], cur => [cur.reverse]
  | c :: cs, cur => if c = sep then cur.reverse :: splitAux sep cs [] else splitAux sep cs (c :: cur)

/-- The method `String.prototype.split` for a one-character separator. -/
def split (s : JSString) (sep : Char) : List JSString := splitAux sep s []

/-- The two-argument `split(sep, limit)`: the first `limit` pieces. -/
def splitLimit (s : JSString) (sep : Char) (limit : Nat) : List JSString := (split s sep).take limit

/-- The method `Array.prototype.join` with a one-character separator. -/
def join (sep : Char) : List JSString → JSString
  | [] => []
  | [x] => x
  | x :: y :: rest => x ++ sep :: join sep (y :: rest)

/-! ## Numbers -/

/-- The numbers the page computes with: NaN, the two infinities and the finite
integers (the sign of zero is not kept: the page only passes zero through
`Math.max(1, ·)`, truthiness tests and `String`, which do not see it). -/
inductive JSNum where
  | nan
  | fin (v : Int)
  | posInf
  | negInf
  deriving DecidableEq, Repr

namespace JSNum

/-- Unary minus. -/
def neg : JSNum → JSNum
  | nan => nan
  | fin v => fin (-v)
  | posInf => negInf
  | negInf => posInf

/-- The global `isNaN` on a number. -/
def isNaN : JSNum → Bool
  | nan => true
  | _ => false

/-- The relation `a <= b` of JavaScript: false as soon as one side is NaN. -/
def le : JSNum → JSNum → Bool
  | nan, _ => false
  | _, nan => false
  | negInf, _ => true
  | _, posInf => true
  | fin a, fin b => decide (a ≤ b)
  | fin _, negInf => false
  | posInf, _ => false

/-- The relation `a > b` of JavaScript: false as soon as one side is NaN. -/
def gt : JSNum → JSNum → Bool
  | nan, _ => false
  | _, nan => false
  | negInf, _ => false
  | posInf, posInf => false
  | posInf, _ => true
  | fin a, fin b => decide (a > b)
  | fin _, negInf => true
  | fin _, posInf => false

/-- Truthiness of a number: `0` and NaN are falsy. -/
def truthy : JSNum → Bool
  | nan => false
  | fin v => v != 0
  | _ => true

end JSNum

/-- The function `Math.max` on two numbers: NaN when one of them is NaN. -/
def mathMax : JSNum → JSNum → JSNum
  | .nan, _ => .nan
  | _, .nan => .nan
  | .posInf, _ => .posInf
  | _, .posInf => .posInf
  | .negInf, b => b
  | a, .negInf => a
  | .fin a, .fin b => .fin (max a b)

/-- The function `Math.min` on two numbers: NaN when one of them is NaN. -/
def mathMin : JSNum → JSNum → JSNum
  | .nan, _ => .nan
  | _, .nan => .nan
  | .negInf, _ => .negInf
  | _, .negInf => .negInf
  | .posInf, b => b
  | a, .posInf => a
  | .fin a, .fin b => .fin (min a b)

/-- The number of low bits a natural number loses when it is stored in the 53-bit
significand of a double: the least `e` with `n / 2 ^ e < 2 ^ 53`, found by
halving (`fuel` bounds the halvings; `n` itself is always enough). -/
def lostBits : Nat → Nat → Nat
  | 0, _ => 0
  | fuel + 1, n => if n < 2 ^ 53 then 0 else lostBits fuel (n / 2) + 1

/-- The Number value of a natural number: the nearest double, ties to the even
significand, and `Infinity` from `2^1024 - 2^970` on (the largest exponent of a
53-bit significand is 971). Below `2^53` every integer is a double. -/
def roundNat (n : Nat) : JSNum :=
  if n < 2 ^ 53 then .fin n
  else
    let e := lostBits n n
    let q := n / 2 ^ e
    let r := n % 2 ^ e
    let half := 2 ^ (e - 1)
    let q' := if half < r ∨ (r = half ∧ q % 2 = 1) then q + 1 else q
    if e < 971 ∨ (e = 971 ∧ q' < 2 ^ 53) then .fin (q' * 2 ^ e : Nat) else .posInf

/-- The value of a character as a digit, letters counting from ten. -/
def digitValue (c : Char) : Option Nat :=
  let n := c.toNat
  if 48 ≤ n ∧ n ≤ 57 then some (n - 48)
  else if 97 ≤ n ∧ n ≤ 122 then some (n - 87)
  else if 65 ≤ n ∧ n ≤ 90 then some (n - 55)
  else none

/-- Whether `c` is a digit of radix `R`. -/
def isRadixDigit (R : Nat) (c : Char) : Bool :=
  match digitValue c with
  | some d => decide (d < R)
  | none => false

/-- The integer a string of radix-`R` digits denotes. -/
def digitsValue (R : Nat) (z : JSString) : Nat :=
  z.foldl (fun acc c => acc * R + (digitValue c).getD 0) 0

/-- The steps of `parseInt` after the sign: a radix outside `2..36` gives NaN, a
`0x` prefix selects radix 16 when no radix or radix 16 was given, then the
longest prefix of digits of `s` is read; when there is none the result is NaN. -/
def parseIntDigits (negative : Bool) (s : JSString) (radix : Nat) : JSNum :=
  if radix ≠ 0 ∧ (radix < 2 ∨ 36 < radix) then .nan
  else
    let hex := (radix == 0 || radix == 16) && (s.take 2 == ['0', 'x'] || s.take 2 == ['0', 'X'])
    let R := if hex then 16 else if radix = 0 then 10 else radix
    let z := (if hex then s.drop 2 else s).takeWhile (isRadixDigit R)
    if z.isEmpty then .nan
    else if negative then (roundNat (digitsValue R z)).neg
    else roundNat (digitsValue R z)

/-- The global `parseInt(string, radix)` on a string; `radix = 0` stands for a
call without radix. Leading white space is skipped and a sign is read, then
`parseIntDigits` reads the number. -/
def parseInt (input : JSString) (radix : Nat) : JSNum :=
  let s := trimStart input
  parseIntDigits (s.head? == some '-')
    (if s.head? == some '+' || s.head? == some '-' then s.tail else s) radix

/-- The decimal numeral of a natural number. -/
def natToDecimal (n : Nat) : JSString := Nat.toDigits 10 n

/-- The search of `Number::toString` for the shortest digits: with `k` digits
kept of a number `x` of `len` digits, the two neighbours of `x` that end in
`len - k` zeros are tried, and the first that reads back as `x` is taken (the
nearer one when both do); when none does, one more digit is kept. -/
def shortestFrom (x len : Nat) : Nat → Nat → Nat
  | 0, _ => x
  | fuel + 1, k =>
    if len ≤ k then x
    else
      let p := 10 ^ (len - k)
      let lo := x / p * p
      let hi := lo + p
      let okLo := roundNat lo == .fin x
      let okHi := roundNat hi == .fin x
      if okLo && okHi then (if x - lo ≤ hi - x then lo else hi)
      else if okLo then lo
      else if okHi then hi
      else shortestFrom x len fuel (k + 1)

/-- The integer with the fewest significant digits whose Number value is `x`. -/
def shortestDecimal (x : Nat) : Nat :=
  shortestFrom x (natToDecimal x).length (natToDecimal x).length 1

/-- The text `Number::toString` gives a positive integer-valued number: its
shortest digits, written out in full up to 21 digits and with an exponent
beyond. -/
def posToString (x : Nat) : JSString :=
  let ds := natToDecimal (shortestDecimal x)
  if ds.length ≤ 21 then ds
  else
    let expo := natToDecimal (ds.length - 1)
    match (ds.reverse.dropWhile (· == '0')).reverse with
    | [] => ds
    | [d] => d :: 'e' :: '+' :: expo
    | d :: rest => d :: '.' :: (rest ++ 'e' :: '+' :: expo)

/-- The conversion `String(x)` of a number, which is also the property name
under which `obj[x]` is stored. -/
def numberToString : JSNum → JSString
  | .nan => "NaN".toList
  | .posInf => "Infinity".toList
  | .negInf => "-Infinity".toList
  | .fin v =>
    if v = 0 then "0".toList
    else if v < 0 then '-' :: posToString v.natAbs
    else posToString v.natAbs

/-! ## Objects -/

/-- An ordinary object with string-named own properties, listed in the order
`Object.keys` and `Object.entries` enumerate them: array indices in ascending
order first, then the other names in the order they were added. -/
abbrev JSObj (α : Type) := List (JSString × α)

/-- The array index a property name stands for: the name is the numeral of a
number below `2^32 - 1`. -/
def arrayIndex (k : JSString) : Option Nat :=
  if k = natToDecimal (digitsValue 10 k) ∧ digitsValue 10 k < 4294967295 then
    some (digitsValue 10 k)
  else none

namespace JSObj

variable {α : Type}

/-- Whether the object has an own property `k`. -/
def has (o : JSObj α) (k : JSString) : Bool := o.any (fun e => e.1 == k)

/-- The value of the own property `k`, if there is one. -/
def get? (o : JSObj α) (k : JSString) : Option α := (o.find? (fun e => e.1 == k)).map (·.2)

/-- The own property names, as `Object.keys` lists them. -/
def keys (o : JSObj α) : List JSString := o.map (·.1)

/-- A new array-index property `k` (index `n`) takes its place among the array
indices. -/
def insertIndex (n : Nat) (k : JSString) (v : α) : JSObj α → JSObj α
  | [] => [(k, v)]
  | e :: rest =>
    match arrayIndex e.1 with
    | some m => if m < n then e :: insertIndex n k v rest else (k, v) :: e :: rest
    | none => (k, v) :: e :: rest

/-- The own property `k` created or overwritten with `v` (`CreateDataProperty`):
an existing property keeps its place. -/
def define (o : JSObj α) (k : JSString) (v : α) : JSObj α :=
  if o.has k then o.map (fun e => if e.1 == k then (k, v) else e)
  else
    match arrayIndex k with
    | some n => insertIndex n k v o
    | none => o ++ [(k, v)]

/-- The assignment `o[k] = v` of a string `v` on an object made by `{}`: the name
`__proto__` reaches the setter of `Object.prototype`, which ignores a value that
is not an object, so no own property is made; any other name is defined. -/
def assign (o : JSObj α) (k : JSString) (v : α) : JSObj α :=
  if k = "__proto__".toList then o else o.define k v

/-- The function `Object.fromEntries` on a list of pairs. -/
def fromEntries (es : List (JSString × α)) : JSObj α :=
  es.foldl (fun o e => o.define e.1 e.2) []

end JSObj

/-! ## `parseKVList` -/

/-- The body of the `forEach` of `parseKVList` on one trimmed, non-empty part. -/
def parseKVPart (out : JSObj JSString) (part : JSString) : JSObj JSString :=
  let sep : Option Char :=
    if includes part ':' then some ':' else if includes part '=' then some '=' else none
  match sep with
  | none => out
  | some sep =>
    match (splitLimit part sep 2).map trim with
    | k :: v :: _ =>
      if k.isEmpty then out
      else
        let ik := parseInt k 10
        out.assign (if ik.isNaN then k else numberToString ik) v
    | _ => out

/-- The function `parseKVList(str)`: the empty object for the empty string,
otherwise the parts between commas, trimmed, the empty ones dropped, each
read by `parseKVPart`. -/
def parseKVList (str : JSString) : JSObj JSString :=
  if str.isEmpty then []
  else (((split str ',').map trim).filter (fun s => !s.isEmpty)).foldl parseKVPart []

/-! ## The start-roll object -/

/-- The state `batchStartRolls`: an object whose property names are decimal
numerals (the page writes them as `next[i]` and `[idx]` with integer counters).
An entry `(k, v)` is the property named by the numeral of `k`; the list is in
enumeration order, array indices ascending first. -/
abbrev StartRolls := List (Nat × JSString)

namespace StartRolls

/-- Whether the property named by the numeral of `k` is present (`k in obj`). -/
def has (m : StartRolls) (k : Nat) : Bool := m.any (fun e => e.1 == k)

/-- The value of the property named by the numeral of `k`, if present. -/
def get? (m : StartRolls) (k : Nat) : Option JSString := (m.find? (fun e => e.1 == k)).map (·.2)

/-- The numbers whose numerals name the properties. -/
def keys (m : StartRolls) : List Nat := m.map (·.1)

/-- A new array index takes its place among the array indices. -/
def insertIndex (k : Nat) (v : JSString) : StartRolls → StartRolls
  | [] => [(k, v)]
  | e :: rest =>
    if e.1 < 4294967295 ∧ e.1 < k then e :: insertIndex k v rest else (k, v) :: e :: rest

/-- The property named by the numeral of `k` created or overwritten: an
existing one keeps its place, a new array index (below `2^32 - 1`) is placed
among the array indices, any other new name goes last. -/
def set (m : StartRolls) (k : Nat) (v : JSString) : StartRolls :=
  if m.has k then m.map (fun e => if e.1 == k then (k, v) else e)
  else if k < 4294967295 then insertIndex k v m
  else m ++ [(k, v)]

/-- The operation `delete obj[name]` for a property name given as text. -/
def deleteNamed (m : StartRolls) (name : JSString) : StartRolls :=
  m.filter (fun e => natToDecimal e.1 != name)

/-- The entries as `Object.entries` gives them: property name and value. -/
def entries (m : StartRolls) : List (JSString × JSString) :=
  m.map (fun e => (natToDecimal e.1, e.2))

end StartRolls

/-- The loop `for (let i = 1; i <= numBatches; i++) if (!(i in next)) next[i] = ""`
from counter `i` on; `none` when `fuel` tests of the condition do not end it.
The counter is incremented in double arithmetic (`roundNat`), so it never
passes `2^53`, and up to there `String(i)` is the numeral of `i`. -/
def syncFill : Nat → Nat → JSNum → StartRolls → Option StartRolls
  | 0, _, _, _ => none
  | fuel + 1, i, numBatches, next =>
    if (JSNum.fin i).le numBatches then
      match roundNat (i + 1) with
      | .fin j => syncFill fuel j.toNat numBatches (if next.has i then next else next.set i [])
      | _ => none
    else some next

/-- The tests of the loop condition that suffice when the loop ends at all. -/
def syncFuel : JSNum → Nat
  | .fin n => n.toNat + 1
  | _ => 1

/-- The second half of the effect:
`Object.keys(next).map(Number).forEach(k => if (k > numBatches) delete next[k])`.
`Number` of a numeral is its Number value and `delete next[k]` removes the
property named `String(k)`. -/
def syncPrune (numBatches : JSNum) (next : StartRolls) : StartRolls :=
  (next.keys.map roundNat).foldl
    (fun m k => if k.gt numBatches then m.deleteNamed (numberToString k) else m) next

/-- The effect that keeps `batchStartRolls` in step with `numBatches`; `none`
when its loop does not end. -/
def syncStartRolls (numBatches : JSNum) (batchStartRolls : StartRolls) : Option StartRolls :=
  (syncFill (syncFuel numBatches) 1 numBatches batchStartRolls).map (syncPrune numBatches)

/-! ## JSON values -/

/-- A JSON value, as `res.json()` returns it and `JSON.stringify` writes it.
Numbers are the integer-valued ones of `JSNum`; fractional numbers are left
out of the embedding. -/
inductive Json where
  | null
  | bool (b : Bool)
  | num (x : JSNum)
  | str (s : JSString)
  | arr (items : List Json)
  | obj (members : List (JSString × Json))

/-- How `JSON.stringify` writes a number: NaN and the infinities as `null`. -/
def jsonNum : JSNum → Json
  | .fin v => .num (.fin v)
  | _ => .null

/-- An object of strings as a JSON object. -/
def jsonObj (o : JSObj JSString) : Json := .obj (o.map (fun e => (e.1, Json.str e.2)))

/-! ## The form -/

/-- The `useState` values of `AllocationPage` that make up the form. -/
structure FormState where
  rows : JSNum
  cols : JSNum
  numBatches : JSNum
  blockWidth : JSNum
  brokenSeats : JSString
  batchStudentCounts : JSString
  batchLabelsInput : JSString
  useDemoDb : Bool
  batchStartRolls : StartRolls
  batchRollNumbers : JSObj (List JSString)
  batchColorsInput : JSString
  serialMode : JSString
  /-- The serial width; `none` is an unset (`undefined`) value. -/
  serialWidth : Option JSNum
  batchByColumn : Bool
  enforceNoAdjacentBatches : Bool

/-- The initial `useState` values. -/
def initialState : FormState where
  rows := .fin 8
  cols := .fin 10
  numBatches := .fin 3
  blockWidth := .fin 3
  brokenSeats := []
  batchStudentCounts := []
  batchLabelsInput := []
  useDemoDb := true
  batchStartRolls := []
  batchRollNumbers := []
  batchColorsInput := []
  serialMode := "per_batch".toList
  serialWidth := some (.fin 0)
  batchByColumn := true
  enforceNoAdjacentBatches := false

/-- The expression `parseInt(e.target.value || 1)`: the empty text is falsy, so
the number `1` is parsed in its place (as the string `String(1)`). -/
def parseIntOrOne (text : JSString) : JSNum :=
  parseInt (if text.isEmpty then numberToString (.fin 1) else text) 0

/-- The value the Rows, Columns and Block Width handlers store:
`Math.max(1, parseInt(e.target.value || 1))`. -/
def clampDimension (text : JSString) : JSNum := mathMax (.fin 1) (parseIntOrOne text)

/-- The value the Number of Batches handler stores:
`Math.max(1, Math.min(50, parseInt(e.target.value || 1)))`. -/
def clampNumBatches (text : JSString) : JSNum :=
  mathMax (.fin 1) (mathMin (.fin 50) (parseIntOrOne text))

/-- The `onChange` handler of the Rows input. -/
def onRowsChange (text : JSString) (s : FormState) : FormState :=
  { s with rows := clampDimension text }

/-- The `onChange` handler of the Columns input. -/
def onColsChange (text : JSString) (s : FormState) : FormState :=
  { s with cols := clampDimension text }

/-- The `onChange` handler of the Number of Batches input. -/
def onNumBatchesChange (text : JSString) (s : FormState) : FormState :=
  { s with numBatches := clampNumBatches text }

/-- The `onChange` handler of the Block Width input. -/
def onBlockWidthChange (text : JSString) (s : FormState) : FormState :=
  { s with blockWidth := clampDimension text }

/-- The `onChange` handler of the start-roll input of batch `idx`:
`setBatchStartRolls(prev => ({ ...prev, [idx]: e.target.value }))`. -/
def onStartRollChange (idx : Nat) (text : JSString) (s : FormState) : FormState :=
  { s with batchStartRolls := s.batchStartRolls.set idx text }

/-- The "Reset to defaults" button. -/
def onReset (s : FormState) : FormState :=
  { s with rows := .fin 8, cols := .fin 10, numBatches := .fin 3, blockWidth := .fin 3 }

/-- The number of start-roll inputs rendered, the length of
`Array.from({ length: numBatches })`: the integer `numBatches` when it is at
most `2^32 - 1`, and none for NaN, for a number below one and for a length
beyond `2^32 - 1` (for which `Array.from` throws a RangeError). -/
def startRollInputs : JSNum → Nat
  | .fin n => if n.toNat ≤ 4294967295 then n.toNat else 0
  | _ => 0

/-- What the user can do to the form. -/
inductive Event where
  | rows (text : JSString)
  | cols (text : JSString)
  | numBatches (text : JSString)
  | blockWidth (text : JSString)
  | brokenSeats (text : JSString)
  | batchStudentCounts (text : JSString)
  | startRoll (idx : Nat) (text : JSString)
  | batchColors (text : JSString)
  | batchLabels (text : JSString)
  | batchByColumn (checked : Bool)
  | enforceNoAdjacentBatches (checked : Bool)
  | useDemoDb (checked : Bool)
  | reset

/-- The handler an event runs; `none` for a start-roll input that is not
rendered. -/
def handle (s : FormState) : Event → Option FormState
  | .rows t => some (onRowsChange t s)
  | .cols t => some (onColsChange t s)
  | .numBatches t => some (onNumBatchesChange t s)
  | .blockWidth t => some (onBlockWidthChange t s)
  | .brokenSeats t => some { s with brokenSeats := t }
  | .batchStudentCounts t => some { s with batchStudentCounts := t }
  | .startRoll idx t =>
    if 1 ≤ idx ∧ idx ≤ startRollInputs s.numBatches then some (onStartRollChange idx t s) else none
  | .batchColors t => some { s with batchColorsInput := t }
  | .batchLabels t => some { s with batchLabelsInput := t }
  | .batchByColumn b => some { s with batchByColumn := b }
  | .enforceNoAdjacentBatches b => some { s with enforceNoAdjacentBatches := b }
  | .useDemoDb b => some { s with useDemoDb := b }
  | .reset => some (onReset s)

/-- The sync effect run on a state; `none` when it does not end. -/
def runSync (s : FormState) : Option FormState :=
  (syncStartRolls s.numBatches s.batchStartRolls).map (fun m => { s with batchStartRolls := m })

/-- One event: its handler, then the sync effect when `numBatches` changed (the
effect depends on `numBatches` only). -/
def step (s : FormState) (e : Event) : Option FormState :=
  match handle s e with
  | none => none
  | some s' => if s'.numBatches = s.numBatches then some s' else runSync s'

/-- The form states the page can be in: the initial values, the state after the
sync effect has run (it runs once when the page is mounted), and what events
lead to. -/
inductive Reachable : FormState → Prop where
  | init : Reachable initialState
  | sync {s s' : FormState} : Reachable s → runSync s = some s' → Reachable s'
  | step {s s' : FormState} (e : Event) : Reachable s → step s e = some s' → Reachable s'

/-- The form states reached through the Rows, Columns, Number of Batches and
Block Width handlers alone (the sync effect included). -/
inductive ReachableByDimensions : FormState → Prop where
  | init : ReachableByDimensions initialState
  | sync {s s' : FormState} : ReachableByDimensions s → runSync s = some s' →
      ReachableByDimensions s'
  | rows {s s' : FormState} (text : JSString) : ReachableByDimensions s →
      step s (.rows text) = some s' → ReachableByDimensions s'
  | cols {s s' : FormState} (text : JSString) : ReachableByDimensions s →
      step s (.cols text) = some s' → ReachableByDimensions s'
  | numBatches {s s' : FormState} (text : JSString) : ReachableByDimensions s →
      step s (.numBatches text) = some s' → ReachableByDimensions s'
  | blockWidth {s s' : FormState} (text : JSString) : ReachableByDimensions s →
      step s (.blockWidth text) = some s' → ReachableByDimensions s'

/-! ## `buildPayload` -/

/-- The object `buildPayload` returns; `none` is a member that is `undefined`. -/
structure Payload where
  rows : JSNum
  cols : JSNum
  num_batches : JSNum
  block_width : JSNum
  batch_by_column : Bool
  enforce_no_adjacent_batches : Bool
  broken_seats : JSString
  batch_student_counts : JSString
  batch_colors : JSString
  start_rolls : Option (JSObj JSString)
  serial_mode : JSString
  serial_width : JSNum
  use_demo_db : Bool
  batch_roll_numbers : Option (JSObj (List JSString))
  batch_labels : Option (JSObj JSString)

/-- The filter `([, v]) => v && String(v).trim() !== ""` on an entry's value. -/
def notBlank (v : JSString) : Bool := !v.isEmpty && !(trim v).isEmpty

/-- The local `start_rolls_entries` of `buildPayload`: the non-blank entries as
`key:value`, joined by commas. -/
def startRollsEntries (s : FormState) : JSString :=
  join ',' (((s.batchStartRolls.entries).filter (fun e => notBlank e.2)).map
    (fun e => e.1 ++ ':' :: e.2))

/-- The member `start_rolls`: `undefined` for an object without keys, otherwise
the non-blank entries under `parseInt(k, 10)`, values trimmed. -/
def startRollsPayload (m : StartRolls) : Option (JSObj JSString) :=
  if m.keys.length = 0 then none
  else some (JSObj.fromEntries (((m.entries).filter (fun e => notBlank e.2)).map
    (fun e => (numberToString (parseInt e.1 10), trim e.2))))

/-- The operand `serialWidth || 0`. -/
def serialWidthOrZero : Option JSNum → JSNum
  | some w => if w.truthy then w else .fin 0
  | none => .fin 0

/-- The function `buildPayload()`. -/
def buildPayload (s : FormState) : Payload where
  rows := s.rows
  cols := s.cols
  num_batches := s.numBatches
  block_width := s.blockWidth
  batch_by_column := s.batchByColumn
  enforce_no_adjacent_batches := s.enforceNoAdjacentBatches
  broken_seats := s.brokenSeats
  batch_student_counts := s.batchStudentCounts
  batch_colors := s.batchColorsInput
  start_rolls := startRollsPayload s.batchStartRolls
  serial_mode := s.serialMode
  serial_width := serialWidthOrZero s.serialWidth
  use_demo_db := s.useDemoDb
  batch_roll_numbers :=
    if (JSObj.keys s.batchRollNumbers).length = 0 then none else some s.batchRollNumbers
  batch_labels :=
    if (JSObj.keys (parseKVList s.batchLabelsInput)).length = 0 then none
    else some (parseKVList s.batchLabelsInput)

/-! ## The two requests -/

/-- The JSON value `JSON.stringify(payload)` writes: the members in the order
of the object literal, a member that is `undefined` left out. -/
def jsonOfPayload (p : Payload) : Json :=
  .obj ([
    ("rows".toList, some (jsonNum p.rows)),
    ("cols".toList, some (jsonNum p.cols)),
    ("num_batches".toList, some (jsonNum p.num_batches)),
    ("block_width".toList, some (jsonNum p.block_width)),
    ("batch_by_column".toList, some (Json.bool p.batch_by_column)),
    ("enforce_no_adjacent_batches".toList, some (Json.bool p.enforce_no_adjacent_batches)),
    ("broken_seats".toList, some (Json.str p.broken_seats)),
    ("batch_student_counts".toList, some (Json.str p.batch_student_counts)),
    ("batch_colors".toList, some (Json.str p.batch_colors)),
    ("start_rolls".toList, p.start_rolls.map jsonObj),
    ("serial_mode".toList, some (Json.str p.serial_mode)),
    ("serial_width".toList, some (jsonNum p.serial_width)),
    ("use_demo_db".toList, some (Json.bool p.use_demo_db)),
    ("batch_roll_numbers".toList, p.batch_roll_numbers.map (fun o =>
      Json.obj (o.map (fun e => (e.1, Json.arr (e.2.map Json.str)))))),
    ("batch_labels".toList, p.batch_labels.map jsonObj)
  ].filterMap (fun m => m.2.map (fun v => (m.1, v))))

/-- A call of `fetch`: the address and the options. The body is held as the
JSON value that `JSON.stringify` writes out. -/
structure Request where
  url : JSString
  method : JSString
  headers : List (JSString × JSString)
  body : Json

/-- The request `generate` sends:
`fetch("/api/generate-seating", { method: "POST", ..., body: JSON.stringify(buildPayload()) })`. -/
def generateRequest (s : FormState) : Request where
  url := "/api/generate-seating".toList
  method := "POST".toList
  headers := [("Content-Type".toList, "application/json".toList)]
  body := jsonOfPayload (buildPayload s)

/-- The request `showConstraints` sends:
`fetch("/api/constraints-status", { method: "POST", ..., body: JSON.stringify(buildPayload()) })`. -/
def showConstraintsRequest (s : FormState) : Request where
  url := "/api/constraints-status".toList
  method := "POST".toList
  headers := [("Content-Type".toList, "application/json".toList)]
  body := jsonOfPayload (buildPayload s)

/-! ## `renderSeat` -/

namespace Json

/-- Truthiness of a JSON value. -/
def truthy : Json → Bool
  | null => false
  | bool b => b
  | num x => x.truthy
  | str s => !s.isEmpty
  | arr _ => true
  | obj _ => true

/-- Whether the value is an object, as every seat the service sends is. -/
def isObject : Json → Bool
  | obj _ => true
  | _ => false

/-- The member access `v.name`; `none` is `undefined`. -/
def field (v : Json) (name : JSString) : Option Json :=
  match v with
  | obj members => (members.find? (fun m => m.1 == name)).map (·.2)
  | _ => none

mutual

/-- The conversion `String(v)`, as a template literal applies it. -/
def toJSString : Json → JSString
  | null => "null".toList
  | bool b => if b then "true".toList else "false".toList
  | num x => numberToString x
  | str s => s
  | arr items => join ',' (itemsToJSStrings items)
  | obj _ => "[object Object]".toList

/-- The texts `Array.prototype.join` joins: the empty text for `null`. -/
def itemsToJSStrings : List Json → List JSString
  | [] => []
  | null :: rest => [] :: itemsToJSStrings rest
  | v :: rest => toJSString v :: itemsToJSStrings rest

end

end Json

/-- Truthiness of a value that may be `undefined`. -/
def truthy? : Option Json → Bool
  | some v => v.truthy
  | none => false

/-- The expression `a || b` with `b` a present value. -/
def orElse (a : Option Json) (b : Json) : Json :=
  match a with
  | some v => if v.truthy then v else b
  | none => b

/-- The element `renderSeat` returns, by its kind and the values it shows. -/
inductive SeatCell where
  /-- The empty cell of a falsy seat. -/
  | blank (key : JSString)
  /-- The cell that reads BROKEN. -/
  | broken (key : JSString) (position : Option Json)
  /-- The cell that reads UNALLOCATED. -/
  | unallocated (key : JSString) (batch position : Option Json)
  /-- The cell of an occupied seat; `paperSet` is the "Set:" line, shown for a
  truthy paper set only. -/
  | occupied (key : JSString) (background label rollNumber : Json) (paperSet : Option Json)
      (position : Option Json)

/-- The three statuses of a seat. -/
inductive SeatStatus where
  | broken
  | unallocated
  | occupied
  deriving DecidableEq, Repr

/-- The status a cell shows; the blank cell shows none. -/
def SeatCell.status : SeatCell → Option SeatStatus
  | .blank _ => none
  | .broken _ _ => some .broken
  | .unallocated _ _ _ => some .unallocated
  | .occupied _ _ _ _ _ _ => some .occupied

/-- The function `renderSeat(seat, rIdx, cIdx)`. -/
def renderSeat (seat : Json) (rIdx cIdx : Nat) : SeatCell :=
  let key := numberToString (.fin rIdx) ++ '-' :: numberToString (.fin cIdx)
  if !seat.truthy then .blank key
  else if truthy? (seat.field "is_broken".toList) then .broken key (seat.field "position".toList)
  else if truthy? (seat.field "is_unallocated".toList) then
    .unallocated key (seat.field "batch".toList) (seat.field "position".toList)
  else
    let color := orElse (seat.field "color".toList) (.str "#ffffff".toList)
    let label := orElse (seat.field "batch_label".toList)
      (match seat.field "batch".toList with
       | some b => if b.truthy then .str ("Batch ".toList ++ b.toJSString) else .str []
       | none => .str [])
    let rn := orElse (seat.field "roll_number".toList) (.str [])
    let set := orElse (seat.field "paper_set".toList) (.str [])
    .occupied key color label rn (if set.truthy then some set else none)
      (seat.field "position".toList)

/-- The cells of the chart:
`seating.map((row, rIdx) => row.map((seat, cIdx) => renderSeat(seat, rIdx, cIdx)))`. -/
def renderGrid (seating : List (List Json)) : List (List SeatCell) :=
  seating.enum.map (fun row => row.2.enum.map (fun cell => renderSeat cell.2 row.1 cell.1))

/-- The number of cells of a rendered grid that show the status `st`. -/
def countStatus (st : SeatStatus) (cells : List (List SeatCell)) : Nat :=
  (cells.map (fun row => row.countP (fun c => c.status == some st))).sum

/-! ## Vocabulary of the statements -/

/-- The sign written in front of a decimal integer literal. -/
inductive Sign where
  | none
  | plus
  | minus
  deriving DecidableEq, Repr

/-- A decimal integer literal: an optional sign and its decimal digits, most
significant first. -/
structure DecimalLiteral where
  sign : Sign
  digits : List (Fin 10)

namespace DecimalLiteral

/-- The text of the literal. -/
def text (l : DecimalLiteral) : JSString :=
  (match l.sign with
   | .none => []
   | .plus => ['+']
   | .minus => ['-']) ++ l.digits.map (fun d => Char.ofNat (48 + d.val))

/-- The natural number the digits denote. -/
def magnitude (l : DecimalLiteral) : Nat := l.digits.foldl (fun a d => 10 * a + d.val) 0

/-- The integer the literal denotes. -/
def value (l : DecimalLiteral) : Int :=
  match l.sign with
  | .minus => -(l.magnitude : Int)
  | _ => (l.magnitude : Int)

end DecimalLiteral

/-- The decimal numeral of an integer, the property name an integer key has. -/
def intToDecimal (k : Int) : JSString :=
  if k < 0 then '-' :: natToDecimal k.natAbs else natToDecimal k.natAbs

/-- A text of white space only. -/
def isBlank (s : JSString) : Bool := s.all isJSWhitespace

/-- A value as the claims on `parseKVList` take it: not empty, no white space
at either end, and none of `,`, `:` and `=` in it. -/
def IsPlainValue (v : JSString) : Prop :=
  v ≠ [] ∧ trim v = v ∧ ',' ∉ v ∧ ':' ∉ v ∧ '=' ∉ v

/-- One `key:value` or `key=value` entry with an integer key, and the white
space written around the entry, the key and the value. -/
structure KVEntry where
  before : JSString
  key : DecimalLiteral
  afterKey : JSString
  /-- Whether the separator is `=` rather than `:`. -/
  equals : Bool
  beforeValue : JSString
  value : JSString
  after : JSString

namespace KVEntry

/-- The text of the entry. -/
def text (e : KVEntry) : JSString :=
  e.before ++ e.key.text ++ e.afterKey ++ (if e.equals then '=' else ':') ::
    (e.beforeValue ++ e.value ++ e.after)

/-- The entry is written as the claim asks: white space where white space is
meant, a key with at least one digit, a plain value. -/
def WellFormed (e : KVEntry) : Prop :=
  isBlank e.before = true ∧ isBlank e.afterKey = true ∧ isBlank e.beforeValue = true ∧
  isBlank e.after = true ∧ e.key.digits ≠ [] ∧ IsPlainValue e.value

end KVEntry

/-- The text the start-roll input of batch `idx` shows: `batchStartRolls[idx] || ""`. -/
def startRollInput (s : FormState) (idx : Nat) : JSString := (s.batchStartRolls.get? idx).getD []

/-- The start-roll object has been synced to `numBatches = n`: `n` is an integer
from one on, the object holds no name twice, its names are the numerals of
`1..n`, and the sync effect has nothing left to do on it (its loop ends and it
returns the object as it is). -/
structure Synced (s : FormState) (n : Nat) : Prop where
  numBatches_eq : s.numBatches = .fin n
  one_le : 1 ≤ n
  nodup : s.batchStartRolls.keys.Nodup
  keys_iff : ∀ k, s.batchStartRolls.has k = true ↔ (1 ≤ k ∧ k ≤ n)
  settled : syncStartRolls s.numBatches s.batchStartRolls = some s.batchStartRolls

/-! ## The page state and what the handlers do to the outside -/

/-- The method `Array.prototype.join` with a separator of any length. -/
def joinStr (sep : JSString) : List JSString → JSString
  | [] => []
  | [x] => x
  | x :: y :: rest => x ++ sep ++ joinStr sep (y :: rest)

/-- The text a template literal gives a member that may be `undefined`. -/
def templateText : Option Json → JSString
  | some v => v.toJSString
  | none => "undefined".toList

/-- An `Error` object, as `fetch`, `res.json()` and the engine throw it, by its
`name` and `message`. -/
structure JSError where
  name : JSString
  message : JSString

namespace JSError

/-- The method `Error.prototype.toString`. -/
def toJSString (e : JSError) : JSString :=
  if e.name.isEmpty then e.message
  else if e.message.isEmpty then e.name
  else e.name ++ ": ".toList ++ e.message

/-- The expression `err.message || fallback`. -/
def messageOr (e : JSError) (fallback : JSString) : JSString :=
  if e.message.isEmpty then fallback else e.message

end JSError

/-- What the host decides and the page only passes on: the message of the
TypeError the engine throws for a failing expression of the source (given
here by its text), and the clock. -/
structure Host where
  typeErrorMessage : JSString → JSString
  /-- The text of `new Date().toLocaleString()`. -/
  localeDate : JSString
  /-- The number `new Date().getTime()`. -/
  time : JSNum

/-- The TypeError thrown for the failing expression `expr`. -/
def Host.typeError (host : Host) (expr : String) : JSError :=
  { name := "TypeError".toList, message := host.typeErrorMessage expr.toList }

/-- What `await fetch(...)` followed by `await res.json()` comes to. -/
inductive FetchResult where
  /-- The promise of `fetch` rejects. -/
  | rejected (err : JSError)
  /-- A response arrives, with `res.ok = ok`, and `res.json()` rejects. -/
  | undecodable (ok : Bool) (err : JSError)
  /-- A response arrives, with `res.ok = ok`, and its body decodes to `data`. -/
  | decoded (ok : Bool) (data : Json)

/-- The `useState` values of `AllocationPage`: the form and the four values
around the requests. For `webData` and `error` the value `null` is
`Json.null`. -/
structure PageState where
  form : FormState
  loading : Bool
  webData : Json
  error : Json
  pdfLoading : Bool

/-- The state of the page when it is first rendered. -/
def initialPage : PageState where
  form := initialState
  loading := false
  webData := .null
  error := .null
  pdfLoading := false

/-- One cell of the document `downloadPdfClientSide` builds, by what its
`innerHTML` shows: the texts put into the template. -/
inductive PdfCellContent where
  | broken (position : JSString)
  | unallocated (batch : JSString)
  | occupied (label identifier position : JSString)

/-- A cell of the document: its background and its content. -/
structure PdfCell where
  background : Json
  content : PdfCellContent

/-- The element `downloadPdfClientSide` hands to `html2pdf`: the heading, the
line of information, the columns of the grid and the cells (the fixed styles
are left out). -/
structure PdfDocument where
  heading : JSString
  info : JSString
  gridTemplateColumns : JSString
  cells : List PdfCell

/-- What a handler does to the outside, in the order it does it. -/
inductive Effect where
  | alert (text : JSString)
  /-- A call of `console.log` or `console.error`, by its first argument. -/
  | console (text : JSString)
  | fetch (request : Request)
  /-- The timer that scrolls the chart into view. -/
  | scrollToChart
  /-- The call `window.html2pdf().set(opt).from(container).save()`. -/
  | html2pdf (document : PdfDocument) (filename : JSString)
  /-- The click on the download link made for the received file. -/
  | download (filename : JSString)

/-- A run of a handler: the state it leaves and what it did to the outside. -/
structure Run where
  state : PageState
  effects : List Effect

/-! ## `generate` -/

/-- What `generate` stores for the response: after `setLoading(true)`,
`setError(null)` and `setWebData(null)`, a thrown error is caught and its
message stored (`err.message || "Network error"`), a response that is not OK
stores `data.error || "Server error"` (a member access on `null` throws a
TypeError, which is caught like the others), an OK response is stored whole;
`finally` sets `loading` to `false`. -/
def generate (host : Host) (p : PageState) (r : FetchResult) : Run :=
  let request := Effect.fetch (generateRequest p.form)
  let failed (err : JSError) : Run :=
    { state := { p with loading := false, webData := .null,
                        error := .str (err.messageOr "Network error".toList) },
      effects := [request] }
  match r with
  | .rejected err => failed err
  | .undecodable _ err => failed err
  | .decoded false .null => failed (host.typeError "data.error")
  | .decoded false data =>
    { state := { p with loading := false, webData := .null,
                        error := orElse (data.field "error".toList) (.str "Server error".toList) },
      effects := [request] }
  | .decoded true data =>
    { state := { p with loading := false, error := .null, webData := data },
      effects := [request, .scrollToChart] }

/-! ## `showConstraints` -/

/-- The text `showConstraints` makes of one constraint; `none` when the
constraint is `null` (the member access throws). -/
def constraintBlock (c : Json) : Option JSString :=
  match c with
  | .null => none
  | _ => some (
      (if truthy? (c.field "applied".toList) then "Applied".toList else "Not applied".toList) ++
      " — ".toList ++ templateText (c.field "name".toList) ++ "\n  ".toList ++
      templateText (c.field "description".toList) ++ "\n  Status: ".toList ++
      (if truthy? (c.field "satisfied".toList) then "SATISFIED".toList
       else "NOT SATISFIED".toList) ++ "\n".toList)

/-- The blocks of a list of constraints, `none` as soon as one throws. -/
def constraintBlocks : List Json → Option (List JSString)
  | [] => some []
  | c :: rest =>
    match constraintBlock c, constraintBlocks rest with
    | some b, some bs => some (b :: bs)
    | _, _ => none

/-- The text `showConstraints` alerts for the decoded body `data`:
`data.constraints.map(...).join("\n\n")` after the heading; the TypeError when
`data` is `null`, `data.constraints` is not an array or a constraint is `null`. -/
def constraintsText (host : Host) (data : Json) : Except JSError JSString :=
  match data with
  | .null => .error (host.typeError "data.constraints")
  | _ =>
    match data.field "constraints".toList with
    | some (.arr cs) =>
      match constraintBlocks cs with
      | some blocks => .ok ("Constraints status:\n\n".toList ++ joinStr "\n\n".toList blocks)
      | none => .error (host.typeError "c.applied")
    | _ => .error (host.typeError "data.constraints.map")

/-- The function `showConstraints`: a response that is not OK stores
`data.error || "Failed to fetch constraints"`, an OK response is shown in an
alert, and a thrown error is caught and shown as
`"Error fetching constraints: " + (err.message || err)`. -/
def showConstraints (host : Host) (p : PageState) (r : FetchResult) : Run :=
  let request := Effect.fetch (showConstraintsRequest p.form)
  let failed (err : JSError) : Run :=
    { state := p,
      effects := [request, .alert ("Error fetching constraints: ".toList ++
        (if err.message.isEmpty then err.toJSString else err.message))] }
  match r with
  | .rejected err => failed err
  | .undecodable _ err => failed err
  | .decoded false .null => failed (host.typeError "data.error")
  | .decoded false data =>
    { state := { p with
        error := orElse (data.field "error".toList) (.str "Failed to fetch constraints".toList) },
      effects := [request] }
  | .decoded true data =>
    match constraintsText host data with
    | .ok text => { state := p, effects := [request, .alert text] }
    | .error err => failed err

/-! ## The PDF downloads -/

/-- The array `webData.seating.flat()`: the rows laid end to end, a member that
is not an array kept as it is; `none` when `seating` is not an array (the
call throws). -/
def flatSeats : Option Json → Option (List Json)
  | some (.arr rows) => some (rows.flatMap (fun row =>
      match row with
      | .arr items => items
      | v => [v]))
  | _ => none

/-- The cell `downloadPdfClientSide` builds for the seat `s`; `none` when `s` is
`null` (the member access throws). -/
def pdfCell (s : Json) : Option PdfCell :=
  match s with
  | .null => none
  | _ => some
    { background := orElse (s.field "color".toList) (.str "#fff".toList),
      content :=
        if truthy? (s.field "is_broken".toList) then
          .broken (templateText (s.field "position".toList))
        else if truthy? (s.field "is_unallocated".toList) then
          .unallocated (orElse (s.field "batch".toList) (.str [])).toJSString
        else
          let setVal := orElse (s.field "paper_set".toList) (.str [])
          let roll := orElse (s.field "roll_number".toList) (.str [])
          let bLabel := orElse (s.field "batch_label".toList)
            (.str ('B' :: (orElse (s.field "batch".toList) (.str [])).toJSString))
          .occupied bLabel.toJSString (roll.toJSString ++ setVal.toJSString)
            (templateText (s.field "position".toList)) }

/-- The cells of a list of seats, `none` as soon as one throws. -/
def pdfCells : List Json → Option (List PdfCell)
  | [] => some []
  | s :: rest =>
    match pdfCell s, pdfCells rest with
    | some c, some cs => some (c :: cs)
    | _, _ => none

/-- The document `downloadPdfClientSide` builds from the state; `none` when the
building throws. -/
def pdfDocument (host : Host) (p : PageState) : Option PdfDocument :=
  match flatSeats (p.webData.field "seating".toList) with
  | none => none
  | some seats =>
    match pdfCells seats with
    | none => none
    | some cells => some
      { heading := "Seating Arrangement".toList,
        info := "Rows: ".toList ++ numberToString p.form.rows ++ " | Cols: ".toList ++
          numberToString p.form.cols ++ " | Batches: ".toList ++
          numberToString p.form.numBatches ++ " | Generated: ".toList ++ host.localeDate,
        gridTemplateColumns := "repeat(".toList ++ numberToString p.form.cols ++ ", 68px)".toList,
        cells := cells }

/-- How the promise of `html2pdf().set(opt).from(container).save()` ends. -/
inductive SaveResult where
  | saved
  | failed (err : JSError)

/-- What the request to `/api/generate-pdf` comes to. -/
inductive PdfResponse where
  /-- The promise of `fetch` rejects. -/
  | rejected (err : JSError)
  /-- A response that is not OK, whose body decodes to `errorData`. -/
  | notOk (errorData : Json)
  /-- A response that is not OK, whose `response.json()` rejects. -/
  | notOkUndecodable (err : JSError)
  /-- An OK response whose `response.blob()` rejects. -/
  | blobFailed (err : JSError)
  /-- An OK response with a file of `size` bytes. -/
  | blob (size : Nat)

/-- The surroundings of a PDF download: whether `window.html2pdf` is there, how
its promise ends, and what the server answers. -/
structure PdfEnv where
  html2pdf : Bool
  save : SaveResult
  response : PdfResponse

/-- The alert of the three PDF functions when nothing is stored. -/
def noSeatingData : JSString := "No seating data available. Generate chart first.".toList

/-- What `downloadPdfServerSide` gets from the response: the size of the file
it downloads, or the error it throws or catches on the way. -/
def pdfServerFile (host : Host) : PdfResponse → Except JSError Nat
  | .rejected err => .error err
  | .notOkUndecodable err => .error err
  | .blobFailed err => .error err
  | .notOk .null => .error (host.typeError "errorData.error")
  | .notOk errorData => .error
    { name := "Error".toList,
      message := (orElse (errorData.field "error".toList)
        (.str "PDF generation failed".toList)).toJSString }
  | .blob size =>
    if size = 0 then .error { name := "Error".toList, message := "PDF file is empty".toList }
    else .ok size

/-- The function `downloadPdfServerSide`. -/
def downloadPdfServerSide (host : Host) (env : PdfEnv) (p : PageState) : Run :=
  if !p.webData.truthy then { state := p, effects := [.alert noSeatingData] }
  else
    let request : Request :=
      { url := "/api/generate-pdf".toList, method := "POST".toList,
        headers := [("Content-Type".toList, "application/json".toList)], body := p.webData }
    { state := { p with pdfLoading := false },
      effects := [.console "📄 Requesting server-side PDF...".toList, .fetch request] ++
        (match pdfServerFile host env.response with
         | .error err =>
           [.console "❌ Server PDF Error:".toList,
            .alert ("Server-side PDF generation failed: ".toList ++ err.message)]
         | .ok size =>
           [.console ("✅ PDF received: ".toList ++ numberToString (.fin size) ++ " bytes".toList),
            .download ("seating_arrangement_".toList ++ numberToString host.time ++ ".pdf".toList),
            .console "✅ PDF downloaded successfully (server-side)".toList]) }

/-- The function `downloadPdfClientSide`. When the document cannot be built the
function throws after `setPdfLoading(true)`, and `pdfLoading` stays `true`. -/
def downloadPdfClientSide (host : Host) (env : PdfEnv) (p : PageState) : Run :=
  if !p.webData.truthy then { state := p, effects := [.alert noSeatingData] }
  else if !env.html2pdf then
    let server := downloadPdfServerSide host env p
    { state := server.state,
      effects := Effect.alert
        "html2pdf library not loaded. Using server-side PDF instead...".toList :: server.effects }
  else
    let started := Effect.console "📄 Generating PDF (Client-side with html2pdf)...".toList
    match pdfDocument host p with
    | none => { state := { p with pdfLoading := true }, effects := [started] }
    | some document =>
      { state := { p with pdfLoading := false },
        effects := [started, .html2pdf document "seating_arrangement.pdf".toList] ++
          (match env.save with
           | .saved => [.console "✅ PDF generated successfully (client-side)".toList]
           | .failed _ =>
             [.console "❌ html2pdf error:".toList,
              .alert "Client-side PDF generation failed. Try server-side method.".toList]) }

/-- The function `downloadPdf`. -/
def downloadPdf (host : Host) (env : PdfEnv) (p : PageState) : Run :=
  if !p.webData.truthy then { state := p, effects := [.alert noSeatingData] }
  else if env.html2pdf then downloadPdfClientSide host env p
  else
    let server := downloadPdfServerSide host env p
    { state := server.state,
      effects := Effect.console
        "⚠️ html2pdf not available, using server-side generation".toList :: server.effects }

/-- How many times a run started the client-side generator: it passed the
guards of `downloadPdfClientSide` and logged its start. -/
def clientStarts (run : Run) : Nat :=
  run.effects.countP (fun e =>
    match e with
    | .console text => text == "📄 Generating PDF (Client-side with html2pdf)...".toList
    | _ => false)

/-- How many times a run started the server-side generator: it passed the
guard of `downloadPdfServerSide` and logged its request. -/
def serverStarts (run : Run) : Nat :=
  run.effects.countP (fun e =>
    match e with
    | .console text => text == "📄 Requesting server-side PDF...".toList
    | _ => false)

/-! ## The chart section -/

/-- The notice above the chart. -/
inductive Notice where
  /-- The green line "All constraints satisfied". -/
  | allSatisfied
  /-- The red line "Violations detected — open constraints to inspect". -/
  | violations
  deriving DecidableEq, Repr

/-- The notice for the stored response:
`webData.validation && webData.validation.is_valid ? ... : ...`. -/
def chartNotice (webData : Json) : Notice :=
  match webData.field "validation".toList with
  | some v =>
    if v.truthy && truthy? (v.field "is_valid".toList) then .allSatisfied else .violations
  | none => .violations

mutual

/-- Whether React renders the value as a child: text for a string or a number,
nothing for a boolean or `null`, the members of an array; an object makes the
render throw. -/
def Json.isReactChild : Json → Bool
  | .obj _ => false
  | .arr items => Json.areReactChildren items
  | _ => true

/-- Whether React renders every value of the list. -/
def Json.areReactChildren : List Json → Bool
  | [] => true
  | v :: rest => Json.isReactChild v && Json.areReactChildren rest

end

/-- Whether React renders a value that may be `undefined`. -/
def isReactChild? : Option Json → Bool
  | some v => v.isReactChild
  | none => true

/-- Whether React renders the values the cell shows. -/
def SeatCell.renders : SeatCell → Bool
  | .blank _ => true
  | .broken _ position => isReactChild? position
  | .unallocated _ batch position => isReactChild? batch && isReactChild? position
  | .occupied _ _ label rollNumber paperSet position =>
    label.isReactChild && rollNumber.isReactChild && isReactChild? paperSet &&
      isReactChild? position

/-- The rows of cells of the chart: `webData.seating.map((row, rIdx) =>
row.map((seat, cIdx) => renderSeat(seat, rIdx, cIdx)))`; `none` when `seating`
or one of its rows is not an array (the call of `map` throws). -/
def chartRows : Option Json → Option (List (List Json))
  | some (.arr rows) =>
    rows.foldr (fun row acc =>
      match row, acc with
      | .arr cells, some rest => some (cells :: rest)
      | _, _ => none) (some [])
  | _ => none

/-- What the chart section shows for a stored response. -/
structure ChartView where
  notice : Notice
  /-- The column count in `gridTemplateColumns`: `webData.metadata?.cols || cols`. -/
  columns : JSString
  cells : List (List SeatCell)

/-- What the section "Seating Chart" shows. -/
inductive ChartSection where
  /-- The line "No seating generated yet. Click "Generate Chart"." -/
  | empty
  | chart (view : ChartView)

/-- The section "Seating Chart" of the page; `none` when its render throws:
`seating` or a row is not an array, or a cell shows an object. -/
def renderChartSection (p : PageState) : Option ChartSection :=
  if !p.webData.truthy then some .empty
  else
    match chartRows (p.webData.field "seating".toList) with
    | none => none
    | some rows =>
      let cells := renderGrid rows
      if cells.all (fun row => row.all SeatCell.renders) then
        some (.chart
          { notice := chartNotice p.webData,
            columns := (orElse
              (match p.webData.field "metadata".toList with
               | some .null => none
               | some m => m.field "cols".toList
               | none => none) (.num p.form.cols)).toJSString,
            cells := cells })
      else none

/-! ## Vocabulary of the statements on the page -/

/-- The outcomes of the request that `generate` takes for a failure: the
request throws, the decoding of the body throws, or the response is not OK. -/
def FetchResult.isFailure : FetchResult → Bool
  | .decoded true _ => false
  | _ => true

/-- A constraint of the report of the service. -/
structure Constraint where
  name : JSString
  description : JSString
  applied : Bool
  satisfied : Bool

/-- The block of text that reports a constraint: whether it was applied, its
name, its description and whether it is satisfied. -/
def Constraint.block (c : Constraint) : JSString :=
  (if c.applied then "Applied" else "Not applied").toList ++ " — ".toList ++ c.name ++
    "\n  ".toList ++ c.description ++ "\n  Status: ".toList ++
    (if c.satisfied then "SATISFIED" else "NOT SATISFIED").toList ++ "\n".toList

/-- The JSON value `j` is the constraint `c`: its four members hold the name,
the description and the two booleans (other members, and the order of the
members, are free). -/
def IsConstraint (j : Json) (c : Constraint) : Prop :=
  j.field "name".toList = some (.str c.name) ∧
  j.field "description".toList = some (.str c.description) ∧
  j.field "applied".toList = some (.bool c.applied) ∧
  j.field "satisfied".toList = some (.bool c.satisfied)

/-- The member `m` of a seat reads as the text `t`: it is the string `t`, or it
is missing or `null` and `t` is empty. -/
def IsTextMember (m : Option Json) (t : JSString) : Prop :=
  m = some (.str t) ∨ (t = [] ∧ (m = none ∨ m = some .null))

/-- The label an occupied cell of the chart shows. -/
def SeatCell.label? : SeatCell → Option Json
  | .occupied _ _ label _ _ _ => some label
  | _ => none

/-- The label an occupied cell of the PDF document shows. -/
def PdfCellContent.label? : PdfCellContent → Option JSString
  | .occupied label _ _ => some label
  | _ => none

/-- The identifier an occupied cell of the PDF document shows under its label. -/
def PdfCellContent.identifier? : PdfCellContent → Option JSString
  | .occupied _ identifier _ => some identifier
  | _ => none

/-! ## Vocabulary of the statements on colours, entries and start rolls -/

/-- The constant `defaultColors`: the palette of ten class names declared at the
head of the file. -/
def defaultColors : List JSString :=
  ["bg-sky-100".toList, "bg-emerald-100".toList, "bg-rose-100".toList, "bg-amber-100".toList,
   "bg-violet-100".toList, "bg-pink-100".toList, "bg-cyan-100".toList, "bg-lime-100".toList,
   "bg-fuchsia-100".toList, "bg-slate-100".toList]

/-- The background of an occupied cell of the chart (`style={{ background: color }}`). -/
def SeatCell.background? : SeatCell → Option Json
  | .occupied _ background _ _ _ _ => some background
  | _ => none

/-- The text before the first occurrence of `sep`, the whole text when there is
none. -/
def beforeFirst (sep : Char) (s : JSString) : JSString := s.takeWhile (· != sep)

/-- The text after the first occurrence of `sep`, nothing when there is none. -/
def afterFirst (sep : Char) (s : JSString) : JSString := (s.dropWhile (· != sep)).drop 1

/-- The property name `isNaN(ik) ? k : ik` for the key text `k`, with
`ik = parseInt(k, 10)`. -/
def propertyName (k : JSString) : JSString :=
  if (parseInt k 10).isNaN then k else numberToString (parseInt k 10)

/-- The key and the value an entry is read as: split at the colon when the
entry has one, else at the equals sign; the key is the trimmed text before
the first separator, the value the trimmed text between the first and the
second (or the end); nothing for an entry without separator or with an empty
key. -/
def readEntry (part : JSString) : Option (JSString × JSString) :=
  let sep : Option Char :=
    if ':' ∈ part then some ':' else if '=' ∈ part then some '=' else none
  match sep with
  | none => none
  | some sep =>
    if trim (beforeFirst sep part) = [] then none
    else some (propertyName (trim (beforeFirst sep part)),
      trim (beforeFirst sep (afterFirst sep part)))

/-- The entries `parseKVList` loops over: `str.split(",").map(s => s.trim())
.filter(Boolean)`, the non-empty trimmed pieces between commas. -/
def kvEntries (str : JSString) : List JSString :=
  ((split str ',').map trim).filter (fun s => !s.isEmpty)

/-- The value of the last pair of the list whose key is `k`. -/
def lastValue (pairs : List (JSString × JSString)) (k : JSString) : Option JSString :=
  ((pairs.filter (fun e => e.1 == k)).getLast?).map (·.2)

/-! ## Vocabulary of the statements on what the page can hold -/

/-- The bounds the page keeps: `numBatches` is NaN or an integer from 1 to 50
(the handler clamps it), and the names of the start-roll object are distinct
integers from 1 to 50 (they are written for `1..numBatches` only). -/
structure WithinBounds (s : FormState) : Prop where
  numBatches : s.numBatches = .nan ∨ ∃ n : Nat, 1 ≤ n ∧ n ≤ 50 ∧ s.numBatches = .fin n
  nodup : s.batchStartRolls.keys.Nodup
  keys : ∀ k ∈ s.batchStartRolls.keys, 1 ≤ k ∧ k ≤ 50

/-- The form states in which a handler, and so `buildPayload`, can run: the
state the sync effect leaves when the page is mounted, and what events lead to
from there. -/
inductive Mounted : FormState → Prop where
  | mount {s : FormState} : runSync initialState = some s → Mounted s
  | step {s s' : FormState} (e : Event) : Mounted s → step s e = some s' → Mounted s'

/-- How many times a run called `window.html2pdf().set(opt).from(container).save()`. -/
def html2pdfCalls (run : Run) : Nat :=
  run.effects.countP (fun e =>
    match e with
    | .html2pdf _ _ => true
    | _ => false)

/-- How many requests a run sent to `/api/generate-pdf`. -/
def pdfRequests (run : Run) : Nat :=
  run.effects.countP (fun e =>
    match e with
    | .fetch request => request.url == "/api/generate-pdf".toList
    | _ => false)

/-- A JSON value that is no array and no object. -/
def Json.isPrimitive : Json → Bool
  | .arr _ => false
  | .obj _ => false
  | _ => true

/-- A cell of the grid the service sends: `null`, or a seat, an object whose
members are texts, numbers, booleans or `null`. -/
def isSeat : Json → Bool
  | .null => true
  | .obj members => members.all (fun m => m.2.isPrimitive)
  | _ => false

/-- The member `seating` of a response is a grid: an array of rows, each an
array of cells. -/
def isSeating : Option Json → Bool
  | some (.arr rows) =>
    rows.all (fun row =>
      match row with
      | .arr cells => cells.all isSeat
      | _ => false)
  | _ => false

/-! ## Lemmas on strings, numbers and objects -/

theorem splitAux_not_mem (sep : Char) : ∀ (s cur : JSString), sep ∉ s →
    splitAux sep s cur = [cur.reverse ++ s]
  | [], cur, _ => by simp [splitAux]
  | c :: cs, cur, h => by
    have hc : c ≠ sep := fun e => h (by simp [e])
    have hcs : sep ∉ cs := fun e => h (by simp [e])
    simp [splitAux, hc, splitAux_not_mem sep cs (c :: cur) hcs]

theorem splitAux_append (sep : Char) : ∀ (a b cur : JSString), sep ∉ a →
    splitAux sep (a ++ sep :: b) cur = (cur.reverse ++ a) :: splitAux sep b []
  | [], b, cur, _ => by simp [splitAux]
  | c :: cs, b, cur, h => by
    have hc : c ≠ sep := fun e => h (by simp [e])
    have hcs : sep ∉ cs := fun e => h (by simp [e])
    simp [splitAux, hc, splitAux_append sep cs b (c :: cur) hcs]

theorem split_not_mem (sep : Char) (s : JSString) (h : sep ∉ s) : split s sep = [s] := by
  simp [split, splitAux_not_mem sep s [] h]

theorem split_append (sep : Char) (a b : JSString) (h : sep ∉ a) :
    split (a ++ sep :: b) sep = a :: split b sep := by
  simp [split, splitAux_append sep a b [] h]

theorem split_join (sep : Char) : ∀ (ts : List JSString), ts ≠ [] → (∀ t ∈ ts, sep ∉ t) →
    split (join sep ts) sep = ts
  | [], h, _ => absurd rfl h
  | [t], _, h => by simpa [join] using split_not_mem sep t (h t (by simp))
  | t :: u :: rest, _, h => by
    have ht : sep ∉ t := h t (by simp)
    have := split_join sep (u :: rest) (by simp) (fun x hx => h x (by simp [hx]))
    simp only [join]
    rw [split_append sep t _ ht, this]

theorem dropWhile_blank_append (p : Char → Bool) : ∀ (a s : JSString), a.all p = true →
    (a ++ s).dropWhile p = s.dropWhile p
  | [], s, _ => rfl
  | c :: cs, s, h => by
    simp only [List.all_cons, Bool.and_eq_true] at h
    simp [List.dropWhile, h.1, dropWhile_blank_append p cs s h.2]

theorem dropWhile_all (p : Char → Bool) : ∀ (a : JSString), a.all p = true → a.dropWhile p = []
  | [], _ => rfl
  | c :: cs, h => by
    simp only [List.all_cons, Bool.and_eq_true] at h
    simp [List.dropWhile, h.1, dropWhile_all p cs h.2]

theorem dropWhile_append_of_exists (p : Char → Bool) : ∀ (v b : JSString), v.all p = false →
    (v ++ b).dropWhile p = v.dropWhile p ++ b
  | [], b, h => by simp at h
  | c :: cs, b, h => by
    by_cases hc : p c = true
    · have : cs.all p = false := by
        simpa [List.all_cons, hc] using h
      simp [List.dropWhile, hc, dropWhile_append_of_exists p cs b this]
    · simp [List.dropWhile, hc]

theorem trimStart_blank_append (a s : JSString) (h : isBlank a = true) :
    trimStart (a ++ s) = trimStart s := dropWhile_blank_append _ a s h

theorem trimEnd_append_blank (s b : JSString) (h : isBlank b = true) :
    trimEnd (s ++ b) = trimEnd s := by
  unfold trimEnd
  rw [List.reverse_append, dropWhile_blank_append _ b.reverse s.reverse (by simpa [isBlank] using h)]

theorem trimEnd_blank (b : JSString) (h : isBlank b = true) : trimEnd b = [] := by
  unfold trimEnd
  rw [dropWhile_all _ b.reverse (by simpa [isBlank] using h)]; rfl

/-- White space around a text does not change what `trim` gives. -/
theorem trim_pad (a v b : JSString) (ha : isBlank a = true) (hb : isBlank b = true) :
    trim (a ++ v ++ b) = trim v := by
  unfold trim
  rw [List.append_assoc, trimStart_blank_append a _ ha]
  by_cases hv : v.all isJSWhitespace = true
  · have h1 : trimStart (v ++ b) = [] := by
      unfold trimStart
      rw [dropWhile_blank_append _ v b hv, dropWhile_all _ b hb]
    have h2 : trimStart v = [] := dropWhile_all _ v hv
    rw [h1, h2]
  · have hv' : v.all isJSWhitespace = false := by simpa using hv
    unfold trimStart
    rw [dropWhile_append_of_exists _ v b hv', trimEnd_append_blank _ b hb]

theorem trimStart_cons (c : Char) (t : JSString) (h : isJSWhitespace c = false) :
    trimStart (c :: t) = c :: t := by
  simp [trimStart, List.dropWhile, h]

theorem trimEnd_concat (t : JSString) (c : Char) (h : isJSWhitespace c = false) :
    trimEnd (t ++ [c]) = t ++ [c] := by
  simp [trimEnd, List.dropWhile, h]

/-- A text that starts and ends with characters that are not white space is
its own trim. -/
theorem trim_eq_self (s : JSString) (hh : ∀ c, s.head? = some c → isJSWhitespace c = false)
    (hl : ∀ c, s.getLast? = some c → isJSWhitespace c = false) : trim s = s := by
  unfold trim
  cases s with
  | nil => rfl
  | cons c t =>
    rw [trimStart_cons c t (hh c rfl)]
    obtain ⟨t', d, hd⟩ : ∃ t' d, c :: t = t' ++ [d] :=
      ⟨(c :: t).dropLast, (c :: t).getLast (by simp), (List.dropLast_append_getLast _).symm⟩
    rw [hd] at hl ⊢
    exact trimEnd_concat t' d (hl d (by simp))

theorem length_dropWhile_le (p : Char → Bool) (s : JSString) : (s.dropWhile p).length ≤ s.length :=
  (List.dropWhile_suffix p).length_le

theorem length_trimEnd_le (s : JSString) : (trimEnd s).length ≤ s.length := by
  unfold trimEnd
  simpa using length_dropWhile_le isJSWhitespace s.reverse

theorem trimStart_eq_of_trim_eq (s : JSString) (h : trim s = s) : trimStart s = s := by
  have h1 : (trimEnd (trimStart s)).length ≤ (trimStart s).length := length_trimEnd_le _
  have h2 : (trimStart s).length ≤ s.length := length_dropWhile_le _ s
  have h3 : (trim s).length = s.length := by rw [h]
  unfold trim at h3
  have h4 : (trimStart s).length = s.length := by omega
  exact (List.dropWhile_suffix _).eq_of_length h4

theorem head_of_trim_eq (s : JSString) (h : trim s = s) (c : Char) (hc : s.head? = some c) :
    isJSWhitespace c = false := by
  have h1 := trimStart_eq_of_trim_eq s h
  cases s with
  | nil => simp at hc
  | cons d t =>
    simp only [List.head?_cons, Option.some.injEq] at hc
    subst hc
    by_contra hw
    have hw' : isJSWhitespace d = true := by simpa using hw
    have : (trimStart (d :: t)).length ≤ t.length := by
      simp only [trimStart, List.dropWhile, hw']
      exact length_dropWhile_le _ t
    rw [h1] at this
    simp at this

theorem last_of_trim_eq (s : JSString) (h : trim s = s) (c : Char) (hc : s.getLast? = some c) :
    isJSWhitespace c = false := by
  have h1 := trimStart_eq_of_trim_eq s h
  have h2 : trimEnd s = s := by
    have := h; unfold trim at this; rwa [h1] at this
  by_contra hw
  have hw' : isJSWhitespace c = true := by simpa using hw
  obtain ⟨t, rfl⟩ : ∃ t, s = t ++ [c] := by
    cases hs : s with
    | nil => simp [hs] at hc
    | cons d u =>
      refine ⟨(d :: u).dropLast, ?_⟩
      have := List.dropLast_append_getLast (l := d :: u) (by simp)
      rw [hs] at hc
      have hl : (d :: u).getLast (by simp) = c := by
        rw [List.getLast?_eq_getLast _ (by simp)] at hc
        simpa using hc
      rw [hl] at this
      exact this.symm
  have : trimEnd (t ++ [c]) = trimEnd t := trimEnd_append_blank t [c] (by simp [isBlank, hw'])
  rw [this] at h2
  have := length_trimEnd_le t
  rw [h2] at this
  simp at this

theorem roundNat_of_lt (n : Nat) (h : n < 2 ^ 53) : roundNat n = .fin n := by
  rw [roundNat, if_pos h]

theorem roundNat_of_le (n : Nat) (h : n ≤ 2 ^ 53) : roundNat n = .fin n := by
  rcases Nat.lt_or_eq_of_le h with h | h
  · exact roundNat_of_lt n h
  · subst h; decide

theorem lostBits_spec : ∀ (fuel n : Nat), n ≤ fuel → 2 ^ 53 ≤ n →
    1 ≤ lostBits fuel n ∧ 2 ^ 52 ≤ n / 2 ^ lostBits fuel n
  | 0, n, hf, hn => by omega
  | fuel + 1, n, hf, hn => by
    have hlt : ¬ n < 2 ^ 53 := by omega
    rw [lostBits, if_neg hlt]
    refine ⟨by omega, ?_⟩
    by_cases h2 : n / 2 < 2 ^ 53
    · have : lostBits fuel (n / 2) = 0 := by
        cases fuel with
        | zero => rfl
        | succ f => rw [lostBits, if_pos h2]
      rw [this]
      simp only [zero_add, pow_one]
      omega
    · have ih := lostBits_spec fuel (n / 2) (by omega) (by omega)
      have e : n / 2 ^ (lostBits fuel (n / 2) + 1) = n / 2 / 2 ^ lostBits fuel (n / 2) := by
        rw [pow_succ, Nat.mul_comm, Nat.div_div_eq_div_mul]
      rw [e]
      exact ih.2

/-- From `2^53` on, the Number value of a natural number is at least `2^53`. -/
theorem roundNat_ge (n : Nat) (h : 2 ^ 53 ≤ n) :
    roundNat n = .posInf ∨ ∃ m : Nat, 2 ^ 53 ≤ m ∧ roundNat n = .fin m := by
  have hlt : ¬ n < 2 ^ 53 := by omega
  obtain ⟨he, hq⟩ := lostBits_spec n n le_rfl h
  rw [roundNat, if_neg hlt]
  dsimp only
  have h2 : 2 ^ 1 ≤ 2 ^ lostBits n n := Nat.pow_le_pow_right (by norm_num) he
  have hq' : 2 ^ 52 ≤ (if 2 ^ (lostBits n n - 1) < n % 2 ^ lostBits n n ∨
      n % 2 ^ lostBits n n = 2 ^ (lostBits n n - 1) ∧ n / 2 ^ lostBits n n % 2 = 1
      then n / 2 ^ lostBits n n + 1 else n / 2 ^ lostBits n n) := by
    split <;> omega
  generalize (if 2 ^ (lostBits n n - 1) < n % 2 ^ lostBits n n ∨
      n % 2 ^ lostBits n n = 2 ^ (lostBits n n - 1) ∧ n / 2 ^ lostBits n n % 2 = 1
      then n / 2 ^ lostBits n n + 1 else n / 2 ^ lostBits n n) = q' at hq' ⊢
  by_cases hc : lostBits n n < 971 ∨ lostBits n n = 971 ∧ q' < 2 ^ 53
  · right
    rw [if_pos hc]
    refine ⟨_, ?_, rfl⟩
    calc 2 ^ 53 = 2 ^ 52 * 2 ^ 1 := by norm_num
      _ ≤ _ := Nat.mul_le_mul hq' h2
  · left
    rw [if_neg hc]

theorem roundNat_ne_of_lt (n x : Nat) (hx : x < 2 ^ 53) (hn : n ≠ x) : roundNat n ≠ .fin x := by
  by_cases h : n < 2 ^ 53
  · rw [roundNat_of_lt n h]
    intro e
    injection e with e
    exact hn (by exact_mod_cast e)
  · rcases roundNat_ge n (by omega) with e | ⟨m, hm, e⟩
    · rw [e]; exact fun e' => by cases e'
    · rw [e]
      intro e'
      injection e' with e'
      have : m = x := by exact_mod_cast e'
      omega

theorem isJSWhitespace_range (c : Char) (h : isJSWhitespace c = true) :
    c.toNat ≤ 32 ∨ 160 ≤ c.toNat := by
  simp only [isJSWhitespace, Bool.or_eq_true, beq_iff_eq, Bool.and_eq_true, decide_eq_true_eq] at h
  omega

theorem isRadixDigit_ten_range (c : Char) (h : isRadixDigit 10 c = true) :
    48 ≤ c.toNat ∧ c.toNat ≤ 57 := by
  unfold isRadixDigit digitValue at h
  dsimp only at h
  split at h
  · next d hd =>
    split_ifs at hd with h1 h2 h3
    · exact h1
    · simp only [Option.some.injEq] at hd
      simp only [decide_eq_true_eq] at h
      omega
    · simp only [Option.some.injEq] at hd
      simp only [decide_eq_true_eq] at h
      omega
  · exact absurd h (by simp)

theorem digitValue_of_range (c : Char) (h : 48 ≤ c.toNat ∧ c.toNat ≤ 57) :
    digitValue c = some (c.toNat - 48) := by
  unfold digitValue
  dsimp only
  rw [if_pos h]

theorem isRadixDigit_ten_iff (c : Char) : isRadixDigit 10 c = true ↔ (48 ≤ c.toNat ∧ c.toNat ≤ 57) := by
  constructor
  · exact isRadixDigit_ten_range c
  · intro h
    unfold isRadixDigit
    rw [digitValue_of_range c h]
    simp only [decide_eq_true_eq]
    omega

theorem toNat_ofNat_digit (d : Fin 10) : (Char.ofNat (48 + d.val)).toNat = 48 + d.val := by
  revert d; decide

theorem toNat_digitChar (d : Nat) (h : d < 10) : (Nat.digitChar d).toNat = 48 + d := by
  interval_cases d <;> rfl

theorem not_ws_of_digit (c : Char) (h : isRadixDigit 10 c = true) : isJSWhitespace c = false := by
  have := isRadixDigit_ten_range c h
  by_contra hw
  have := isJSWhitespace_range c (by simpa using hw)
  omega

theorem ne_of_toNat_ne {c d : Char} (h : c.toNat ≠ d.toNat) : c ≠ d := fun e => h (by rw [e])

/-- The value of a digit string read from an accumulator. -/
theorem foldl_digits_map (ds : List (Fin 10)) : ∀ (a : Nat),
    (ds.map (fun d => Char.ofNat (48 + d.val))).foldl
      (fun acc c => acc * 10 + (digitValue c).getD 0) a =
    ds.foldl (fun a d => 10 * a + d.val) a := by
  induction ds with
  | nil => intro a; rfl
  | cons d ds ih =>
    intro a
    simp only [List.map_cons, List.foldl_cons]
    rw [ih]
    congr 1
    rw [digitValue_of_range _ (by rw [toNat_ofNat_digit]; omega), toNat_ofNat_digit]
    simp only [Option.getD_some]
    omega

theorem toDigitsCore_foldl : ∀ (fuel n : Nat) (acc : List Char), n < fuel →
    (Nat.toDigitsCore 10 fuel n acc).foldl (fun a c => a * 10 + (digitValue c).getD 0) 0 =
      acc.foldl (fun a c => a * 10 + (digitValue c).getD 0) n
  | 0, n, acc, h => by omega
  | fuel + 1, n, acc, h => by
    have hd : (digitValue (Nat.digitChar (n % 10))).getD 0 = n % 10 := by
      rw [digitValue_of_range _ (by rw [toNat_digitChar _ (Nat.mod_lt _ (by norm_num))]; omega),
        toNat_digitChar _ (Nat.mod_lt _ (by norm_num))]
      simp
    simp only [Nat.toDigitsCore]
    split
    · next h0 =>
      simp only [List.foldl_cons, hd]
      congr 1
      omega
    · next h0 =>
      rw [toDigitsCore_foldl fuel (n / 10) _ (by omega)]
      simp only [List.foldl_cons, hd]
      congr 1
      omega

theorem digitsValue_natToDecimal (n : Nat) : digitsValue 10 (natToDecimal n) = n := by
  unfold digitsValue natToDecimal Nat.toDigits
  rw [toDigitsCore_foldl _ _ _ (by omega)]
  rfl

theorem natToDecimal_injective {a b : Nat} (h : natToDecimal a = natToDecimal b) : a = b := by
  rw [← digitsValue_natToDecimal a, ← digitsValue_natToDecimal b, h]

theorem toDigitsCore_all_digits : ∀ (fuel n : Nat) (acc : List Char),
    (∀ c ∈ acc, isRadixDigit 10 c = true) →
    ∀ c ∈ Nat.toDigitsCore 10 fuel n acc, isRadixDigit 10 c = true
  | 0, n, acc, h => by simpa [Nat.toDigitsCore] using h
  | fuel + 1, n, acc, h => by
    have hd : isRadixDigit 10 (Nat.digitChar (n % 10)) = true := by
      rw [isRadixDigit_ten_iff, toNat_digitChar _ (Nat.mod_lt _ (by norm_num))]
      have := Nat.mod_lt n (show 10 > 0 by norm_num)
      omega
    have hacc : ∀ c ∈ Nat.digitChar (n % 10) :: acc, isRadixDigit 10 c = true := by
      intro c hc
      rcases List.mem_cons.1 hc with e | e
      · rw [e]; exact hd
      · exact h c e
    simp only [Nat.toDigitsCore]
    split
    · exact hacc
    · exact toDigitsCore_all_digits fuel (n / 10) _ hacc

theorem natToDecimal_all_digits (n : Nat) : ∀ c ∈ natToDecimal n, isRadixDigit 10 c = true :=
  toDigitsCore_all_digits _ _ [] (by simp)

theorem natToDecimal_ne_nil (n : Nat) : natToDecimal n ≠ [] := by
  unfold natToDecimal Nat.toDigits
  simp only [Nat.toDigitsCore]
  split
  · simp
  · intro e
    have := Nat.toDigitsCore_lens_eq 10 n (n / 10) (Nat.digitChar (n % 10)) []
    rw [e] at this
    simp at this

theorem natToDecimal_length_le (n e : Nat) (h : n < 10 ^ e) (he : 0 < e) :
    (natToDecimal n).length ≤ e := by
  unfold natToDecimal Nat.toDigits
  exact Nat.toDigitsCore_length 10 (by norm_num) (n + 1) n e h he

theorem shortestFrom_of_lt (x len : Nat) (hx : x < 2 ^ 53) : ∀ (fuel k : Nat),
    shortestFrom x len fuel k = x
  | 0, k => rfl
  | fuel + 1, k => by
    rw [shortestFrom]
    by_cases hk : len ≤ k
    · rw [if_pos hk]
    · rw [if_neg hk]
      dsimp only
      have hp : 0 < 10 ^ (len - k) := pow_pos (by norm_num) _
      have hlo : x / 10 ^ (len - k) * 10 ^ (len - k) ≤ x := Nat.div_mul_le_self _ _
      have hhi : x < x / 10 ^ (len - k) * 10 ^ (len - k) + 10 ^ (len - k) :=
        Nat.lt_div_mul_add hp
      have okHi : (roundNat (x / 10 ^ (len - k) * 10 ^ (len - k) + 10 ^ (len - k)) == JSNum.fin x)
          = false := by
        rw [beq_eq_false_iff_ne]
        exact roundNat_ne_of_lt _ x hx (by omega)
      rw [okHi]
      by_cases hlo' : x / 10 ^ (len - k) * 10 ^ (len - k) = x
      · have okLo : (roundNat (x / 10 ^ (len - k) * 10 ^ (len - k)) == JSNum.fin x) = true := by
          rw [hlo', roundNat_of_lt x hx]; simp
        rw [okLo]
        simp [hlo']
      · have okLo : (roundNat (x / 10 ^ (len - k) * 10 ^ (len - k)) == JSNum.fin x) = false := by
          rw [beq_eq_false_iff_ne]
          exact roundNat_ne_of_lt _ x hx hlo'
        rw [okLo]
        simp only [Bool.and_false, Bool.false_eq_true, if_false]
        exact shortestFrom_of_lt x len hx fuel (k + 1)

theorem posToString_of_lt (x : Nat) (hx : x < 2 ^ 53) : posToString x = natToDecimal x := by
  unfold posToString shortestDecimal
  rw [shortestFrom_of_lt x _ hx]
  dsimp only
  rw [if_pos]
  exact natToDecimal_length_le x 21 (by
    calc x < 2 ^ 53 := hx
      _ ≤ 10 ^ 21 := by norm_num) (by norm_num)

theorem posToString_of_le (x : Nat) (hx : x ≤ 2 ^ 53) : posToString x = natToDecimal x := by
  rcases Nat.lt_or_eq_of_le hx with h | h
  · exact posToString_of_lt x h
  · subst h; decide

/-- Up to `2^53` the text of an integer-valued number is its decimal numeral. -/
theorem numberToString_int (v : Int) (h : v.natAbs ≤ 2 ^ 53) :
    numberToString (.fin v) = intToDecimal v := by
  show (if v = 0 then "0".toList else if v < 0 then '-' :: posToString v.natAbs
    else posToString v.natAbs) = intToDecimal v
  unfold intToDecimal
  by_cases h0 : v = 0
  · subst h0; decide
  · rw [if_neg h0]
    by_cases hneg : v < 0
    · rw [if_pos hneg, if_pos hneg, posToString_of_le _ h]
    · rw [if_neg hneg, if_neg hneg, posToString_of_le _ h]

theorem numberToString_nat (k : Nat) (h : k ≤ 2 ^ 53) :
    numberToString (.fin k) = natToDecimal k := by
  rw [numberToString_int _ (by simpa using h)]
  unfold intToDecimal
  rw [if_neg (by omega)]
  simp

theorem take_two_ne (ds : JSString) (c : Char) (hall : ∀ x ∈ ds, isRadixDigit 10 x = true)
    (hc : isRadixDigit 10 c = false) : (ds.take 2 == ['0', c]) = false := by
  rw [beq_eq_false_iff_ne]
  intro e
  have : c ∈ ds.take 2 := by rw [e]; simp
  have := hall c (List.mem_of_mem_take this)
  rw [hc] at this
  exact absurd this (by simp)

/-- What `parseInt` reads from a string of decimal digits with an optional
sign in front, called without radix (`radix = 0`) or with radix 10. -/
theorem parseInt_signed_digits (pre ds : JSString) (radix : Nat) (hr : radix = 0 ∨ radix = 10)
    (hpre : pre = [] ∨ pre = ['+'] ∨ pre = ['-']) (hne : ds ≠ [])
    (hall : ∀ x ∈ ds, isRadixDigit 10 x = true) :
    parseInt (pre ++ ds) radix =
      if pre = ['-'] then (roundNat (digitsValue 10 ds)).neg else roundNat (digitsValue 10 ds) := by
  obtain ⟨c, t, rfl⟩ : ∃ c t, ds = c :: t := by
    cases ds with
    | nil => exact absurd rfl hne
    | cons c t => exact ⟨c, t, rfl⟩
  have hc : isRadixDigit 10 c = true := hall c (by simp)
  have hcr := isRadixDigit_ten_range c hc
  have hcw : isJSWhitespace c = false := not_ws_of_digit c hc
  have hcp : c ≠ '+' := ne_of_toNat_ne (by simp; omega)
  have hcm : c ≠ '-' := ne_of_toNat_ne (by simp; omega)
  have hx1 : ((c :: t).take 2 == ['0', 'x']) = false := take_two_ne _ _ hall (by decide)
  have hx2 : ((c :: t).take 2 == ['0', 'X']) = false := take_two_ne _ _ hall (by decide)
  have htw : (c :: t).takeWhile (isRadixDigit 10) = c :: t :=
    List.takeWhile_eq_self_iff.2 hall
  have hR : (if radix = 0 then 10 else radix) = 10 := by
    rcases hr with h | h <;> simp [h]
  have hrad : ¬ (radix ≠ 0 ∧ (radix < 2 ∨ 36 < radix)) := by
    rcases hr with h | h <;> simp [h]
  have hbody : ∀ neg : Bool, parseIntDigits neg (c :: t) radix =
      if neg then (roundNat (digitsValue 10 (c :: t))).neg
      else roundNat (digitsValue 10 (c :: t)) := by
    intro neg
    unfold parseIntDigits
    rw [if_neg hrad]
    dsimp only
    rw [hx1, hx2]
    simp only [Bool.or_false, Bool.and_false, Bool.false_eq_true, if_false]
    rw [hR, htw]
    simp
  unfold parseInt
  dsimp only
  rcases hpre with rfl | rfl | rfl
  · have hts : trimStart ([] ++ c :: t) = c :: t := trimStart_cons c t hcw
    rw [hts]
    have h1 : ((c :: t).head? == some '+') = false := by simpa using hcp
    have h2 : ((c :: t).head? == some '-') = false := by simpa using hcm
    rw [h1, h2]
    simp only [Bool.or_false, Bool.false_eq_true, if_false]
    rw [hbody]
    simp
  · have hts : trimStart (['+'] ++ c :: t) = '+' :: c :: t := trimStart_cons _ _ (by decide)
    rw [hts]
    simp only [List.head?_cons, List.tail_cons]
    rw [show ((some '+' == some '+' || some '+' == some '-') = true) by decide, if_pos rfl, hbody]
    simp
  · have hts : trimStart (['-'] ++ c :: t) = '-' :: c :: t := trimStart_cons _ _ (by decide)
    rw [hts]
    simp only [List.head?_cons, List.tail_cons]
    rw [show ((some '-' == some '+' || some '-' == some '-') = true) by decide, if_pos rfl, hbody]
    simp

theorem includes_iff (s : JSString) (c : Char) : includes s c = true ↔ c ∈ s := by
  simp [includes]

theorem includes_false_iff (s : JSString) (c : Char) : includes s c = false ↔ c ∉ s := by
  rw [← includes_iff]; simp

theorem not_mem_of_blank {w : JSString} (hw : isBlank w = true) {c : Char}
    (hc : isJSWhitespace c = false) : c ∉ w := by
  intro h
  have := List.all_eq_true.1 hw c h
  rw [hc] at this
  exact absurd this (by simp)

/-- The trimmed part `k a sep b v` of a list (a key, a separator and a value, with
white space `a` and `b` around the separator) is stored under the key that `k`
parses to, or under `k` itself when it does not parse. -/
theorem parseKVPart_padded (out : JSObj JSString) (k a b v : JSString) (sep : Char)
    (hsep : sep = ':' ∨ sep = '=') (hk : k ≠ []) (hkt : trim k = k)
    (hkc : ':' ∉ k) (hke : '=' ∉ k) (ha : isBlank a = true) (hb : isBlank b = true)
    (hvc : ':' ∉ v) (hve : '=' ∉ v) :
    parseKVPart out (k ++ a ++ sep :: (b ++ v)) =
      out.assign (if (parseInt k 10).isNaN then k else numberToString (parseInt k 10)) (trim v) := by
  have hac : ':' ∉ a := not_mem_of_blank ha (by decide)
  have hae : '=' ∉ a := not_mem_of_blank ha (by decide)
  have hbc : ':' ∉ b := not_mem_of_blank hb (by decide)
  have hbe : '=' ∉ b := not_mem_of_blank hb (by decide)
  have hleft : sep ∉ k ++ a := by
    rcases hsep with rfl | rfl <;> simp [*]
  have hright : sep ∉ b ++ v := by
    rcases hsep with rfl | rfl <;> simp [*]
  have hsplit : splitLimit (k ++ a ++ sep :: (b ++ v)) sep 2 = [k ++ a, b ++ v] := by
    unfold splitLimit
    rw [split_append sep _ _ hleft, split_not_mem sep _ hright]
    rfl
  have htk : trim (k ++ a) = k := by
    have := trim_pad [] k a rfl ha
    rw [List.nil_append] at this
    rw [this, hkt]
  have htv : trim (b ++ v) = trim v := by
    have := trim_pad b v [] hb rfl
    rwa [List.append_nil] at this
  have hchoice : (if includes (k ++ a ++ sep :: (b ++ v)) ':' = true then some ':'
      else if includes (k ++ a ++ sep :: (b ++ v)) '=' = true then some '=' else none) = some sep := by
    rcases hsep with rfl | rfl
    · rw [if_pos ((includes_iff _ _).2 (by simp))]
    · rw [if_neg, if_pos ((includes_iff _ _).2 (by simp))]
      rw [includes_iff]
      simp [*]
  unfold parseKVPart
  dsimp only
  rw [hchoice]
  dsimp only
  rw [hsplit]
  simp only [List.map_cons, List.map_nil, htk, htv]
  have : k.isEmpty = false := by
    cases k with
    | nil => exact absurd rfl hk
    | cons c t => rfl
  rw [this]
  simp

/-- White space around an entry is trimmed away. -/
theorem trim_padded_entry (before k a b v after : JSString) (sep : Char)
    (hbefore : isBlank before = true) (hafter : isBlank after = true)
    (hk : k ≠ []) (hkt : trim k = k) (hv : v ≠ []) (hvt : trim v = v) :
    trim (before ++ k ++ a ++ sep :: (b ++ v ++ after)) = k ++ a ++ sep :: (b ++ v) := by
  have e : before ++ k ++ a ++ sep :: (b ++ v ++ after) =
      before ++ (k ++ a ++ sep :: (b ++ v)) ++ after := by simp
  rw [e, trim_pad _ _ _ hbefore hafter]
  apply trim_eq_self
  · intro c hc
    apply head_of_trim_eq k hkt c
    cases k with
    | nil => exact absurd rfl hk
    | cons d t => simpa using hc
  · intro c hc
    apply last_of_trim_eq v hvt c
    have e2 : k ++ a ++ sep :: (b ++ v) = (k ++ a ++ sep :: b) ++ v := by simp
    rw [e2, List.getLast?_append_of_ne_nil _ hv] at hc
    exact hc

theorem join_ne_nil (sep : Char) : ∀ (ts : List JSString), (∃ t ∈ ts, t ≠ []) → join sep ts ≠ []
  | [], h => by obtain ⟨t, ht, _⟩ := h; simp at ht
  | [x], h => by
    obtain ⟨t, ht, hne⟩ := h
    simp only [List.mem_singleton] at ht
    subst ht
    simpa [join] using hne
  | x :: y :: rest, _ => by simp [join]

/-- The fold of `parseKVList` over the parts of a comma-joined list of entries that
hold no comma. -/
theorem parseKVList_join {ε : Type} (text key val : ε → JSString) (es : List ε) (hes : es ≠ [])
    (hcomma : ∀ e ∈ es, ',' ∉ text e) (hne : ∀ e ∈ es, trim (text e) ≠ [])
    (hpart : ∀ e ∈ es, ∀ out, parseKVPart out (trim (text e)) = out.assign (key e) (val e)) :
    parseKVList (join ',' (es.map text)) = es.foldl (fun (o : JSObj JSString) e => o.assign (key e) (val e)) [] := by
  have hnil : (join ',' (es.map text)).isEmpty = false := by
    have : join ',' (es.map text) ≠ [] := by
      apply join_ne_nil
      obtain ⟨e, t, rfl⟩ : ∃ e t, es = e :: t := by
        cases es with
        | nil => exact absurd rfl hes
        | cons e t => exact ⟨e, t, rfl⟩
      refine ⟨text e, by simp, ?_⟩
      intro h0
      exact hne e (by simp) (by rw [h0]; rfl)
    cases h : join ',' (es.map text) with
    | nil => exact absurd h this
    | cons c t => rfl
  unfold parseKVList
  rw [hnil]
  simp only [Bool.false_eq_true, if_false]
  rw [split_join ',' (es.map text) (by simpa using hes) (by
    intro t ht
    obtain ⟨e, he, rfl⟩ := List.mem_map.1 ht
    exact hcomma e he)]
  have hfilter : ((es.map text).map trim).filter (fun s => !s.isEmpty) = (es.map text).map trim := by
    apply List.filter_eq_self.2
    intro s hs
    obtain ⟨t, ht, rfl⟩ := List.mem_map.1 hs
    obtain ⟨e, he, rfl⟩ := List.mem_map.1 ht
    have := hne e he
    cases h : trim (text e) with
    | nil => exact absurd h this
    | cons c t => rfl
  rw [hfilter, List.map_map, List.foldl_map]
  clear hnil hfilter hes hcomma hne
  generalize ([] : JSObj JSString) = o
  induction es generalizing o with
  | nil => rfl
  | cons e es ih =>
    simp only [List.foldl_cons, Function.comp]
    rw [hpart e (by simp)]
    exact ih (fun x hx => hpart x (by simp [hx])) _

namespace JSObj

variable {α : Type}

theorem lacks_iff_not_mem_keys (o : JSObj α) (k : JSString) : o.has k = false ↔ k ∉ o.keys := by
  unfold has keys
  rw [← Bool.not_eq_true, List.any_eq_true]
  simp only [beq_iff_eq, List.mem_map, not_exists, not_and]

theorem insertIndex_perm_cons (n : Nat) (k : JSString) (v : α) :
    ∀ o : JSObj α, (insertIndex n k v o).Perm ((k, v) :: o)
  | [] => List.Perm.refl _
  | e :: rest => by
    unfold insertIndex
    split
    · split
      · exact ((insertIndex_perm_cons n k v rest).cons e).trans (List.Perm.swap _ _ _)
      · exact List.Perm.refl _
    · exact List.Perm.refl _

theorem define_perm (o : JSObj α) (k : JSString) (v : α) (h : o.has k = false) :
    (o.define k v).Perm ((k, v) :: o) := by
  unfold define
  rw [h]
  simp only [Bool.false_eq_true, if_false]
  split
  · exact insertIndex_perm_cons _ k v o
  · exact List.perm_append_comm

theorem assign_perm (o : JSObj α) (k : JSString) (v : α) (h : o.has k = false)
    (hk : k ≠ "__proto__".toList) : (o.assign k v).Perm ((k, v) :: o) := by
  unfold assign
  rw [if_neg hk]
  exact define_perm o k v h

/-- Entries with pairwise distinct new names, assigned one after the other, are
all there at the end, next to what the object held. -/
theorem foldl_assign_perm {ε : Type} (key : ε → JSString) (val : ε → α) :
    ∀ (es : List ε) (o : JSObj α), (∀ e ∈ es, key e ≠ "__proto__".toList) →
      (es.map key).Nodup → (∀ e ∈ es, key e ∉ o.keys) →
      (es.foldl (fun (o : JSObj α) e => o.assign (key e) (val e)) o).Perm
        (o ++ es.map (fun e => (key e, val e)))
  | [], o, _, _, _ => by simp
  | e :: es, o, hp, hnd, hnew => by
    have hstep := assign_perm o (key e) (val e)
      ((lacks_iff_not_mem_keys o _).2 (hnew e (by simp))) (hp e (by simp))
    rw [List.map_cons, List.nodup_cons] at hnd
    have ih := foldl_assign_perm key val es (o.assign (key e) (val e))
      (fun x hx => hp x (by simp [hx])) hnd.2 (by
        intro x hx hmem
        have : key x ∈ ((key e, val e) :: o).map (·.1) := by
          unfold keys at hmem
          exact (hstep.map _).mem_iff.1 hmem
        simp only [List.map_cons, List.mem_cons] at this
        rcases this with h | h
        · exact hnd.1 (by rw [← h]; exact List.mem_map_of_mem key hx)
        · exact hnew x (by simp [hx]) h)
    simp only [List.foldl_cons, List.map_cons]
    refine ih.trans ?_
    refine (List.Perm.append_right _ hstep).trans ?_
    simp only [List.cons_append]
    exact List.perm_middle.symm

end JSObj

theorem natToDecimal_head (n : Nat) : ∃ c t, natToDecimal n = c :: t ∧ isRadixDigit 10 c = true := by
  cases h : natToDecimal n with
  | nil => exact absurd h (natToDecimal_ne_nil n)
  | cons c t => exact ⟨c, t, rfl, natToDecimal_all_digits n c (by rw [h]; simp)⟩

theorem intToDecimal_head (k : Int) :
    ∃ c t, intToDecimal k = c :: t ∧ (c = '-' ∨ isRadixDigit 10 c = true) := by
  unfold intToDecimal
  split
  · exact ⟨'-', _, rfl, Or.inl rfl⟩
  · obtain ⟨c, t, h, hc⟩ := natToDecimal_head k.natAbs
    exact ⟨c, t, h, Or.inr hc⟩

theorem intToDecimal_ne_proto (k : Int) : intToDecimal k ≠ "__proto__".toList := by
  obtain ⟨c, t, h, hc⟩ := intToDecimal_head k
  rw [h]
  intro e
  have e1 : c = '_' := by
    have := congrArg List.head? e
    simpa using this
  subst e1
  rcases hc with hc | hc
  · exact absurd hc (by decide)
  · exact absurd hc (by decide)

theorem intToDecimal_injective {a b : Int} (h : intToDecimal a = intToDecimal b) : a = b := by
  unfold intToDecimal at h
  by_cases ha : a < 0 <;> by_cases hb : b < 0
  · rw [if_pos ha, if_pos hb] at h
    have := natToDecimal_injective (List.cons.inj h).2
    omega
  · rw [if_pos ha, if_neg hb] at h
    obtain ⟨c, t, hc, hd⟩ := natToDecimal_head b.natAbs
    rw [hc] at h
    have : c = '-' := (List.cons.inj h).1.symm
    subst this
    exact absurd hd (by decide)
  · rw [if_neg ha, if_pos hb] at h
    obtain ⟨c, t, hc, hd⟩ := natToDecimal_head a.natAbs
    rw [hc] at h
    have : c = '-' := (List.cons.inj h).1
    subst this
    exact absurd hd (by decide)
  · rw [if_neg ha, if_neg hb] at h
    have := natToDecimal_injective h
    omega

namespace DecimalLiteral

theorem digits_chars (l : DecimalLiteral) :
    ∀ c ∈ l.digits.map (fun d => Char.ofNat (48 + d.val)), isRadixDigit 10 c = true := by
  intro c hc
  obtain ⟨d, _, rfl⟩ := List.mem_map.1 hc
  rw [isRadixDigit_ten_iff, toNat_ofNat_digit]
  omega

theorem text_chars (l : DecimalLiteral) :
    ∀ c ∈ l.text, c = '+' ∨ c = '-' ∨ isRadixDigit 10 c = true := by
  intro c hc
  unfold text at hc
  rcases List.mem_append.1 hc with h | h
  · cases hs : l.sign <;> rw [hs] at h <;> simp at h
    · exact Or.inl h
    · exact Or.inr (Or.inl h)
  · exact Or.inr (Or.inr (l.digits_chars c h))

theorem text_not_ws (l : DecimalLiteral) : ∀ c ∈ l.text, isJSWhitespace c = false := by
  intro c hc
  rcases l.text_chars c hc with rfl | rfl | h
  · decide
  · decide
  · exact not_ws_of_digit c h

theorem text_not_mem (l : DecimalLiteral) (c : Char) (h1 : c ≠ '+') (h2 : c ≠ '-')
    (h3 : isRadixDigit 10 c = false) : c ∉ l.text := by
  intro hc
  rcases l.text_chars c hc with h | h | h
  · exact h1 h
  · exact h2 h
  · rw [h3] at h; exact absurd h (by simp)

theorem text_ne_nil (l : DecimalLiteral) (h : l.digits ≠ []) : l.text ≠ [] := by
  unfold text
  intro e
  have := (List.append_eq_nil.1 e).2
  exact h (List.map_eq_nil_iff.1 this)

theorem trim_text (l : DecimalLiteral) : trim l.text = l.text := by
  apply trim_eq_self
  · intro c hc
    exact l.text_not_ws c (List.mem_of_mem_head? hc)
  · intro c hc
    exact l.text_not_ws c (List.mem_of_mem_getLast? hc)

/-- What `parseInt` reads from a decimal integer literal, without radix or with
radix 10: the Number value of its magnitude, with its sign. -/
theorem parseInt_text (l : DecimalLiteral) (h : l.digits ≠ []) (radix : Nat)
    (hr : radix = 0 ∨ radix = 10) :
    parseInt l.text radix =
      if l.sign = .minus then (roundNat l.magnitude).neg else roundNat l.magnitude := by
  have hv : digitsValue 10 (l.digits.map (fun d => Char.ofNat (48 + d.val))) = l.magnitude := by
    unfold digitsValue magnitude
    exact foldl_digits_map l.digits 0
  have := parseInt_signed_digits
    (match l.sign with
     | .none => []
     | .plus => ['+']
     | .minus => ['-']) (l.digits.map (fun d => Char.ofNat (48 + d.val))) radix hr
    (by cases l.sign <;> simp) (by simpa using h) l.digits_chars
  rw [hv] at this
  refine this.trans ?_
  cases l.sign <;> simp

/-- A literal of magnitude up to `2^53` is read exactly. -/
theorem parseInt_text_exact (l : DecimalLiteral) (h : l.digits ≠ []) (radix : Nat)
    (hr : radix = 0 ∨ radix = 10) (hsafe : l.value.natAbs ≤ 2 ^ 53) :
    parseInt l.text radix = .fin l.value := by
  have hm : l.magnitude ≤ 2 ^ 53 := by
    unfold value at hsafe
    cases hs : l.sign <;> rw [hs] at hsafe <;> simpa using hsafe
  rw [parseInt_text l h radix hr, roundNat_of_le _ hm]
  unfold value
  cases l.sign <;> simp [JSNum.neg]

end DecimalLiteral

namespace KVEntry

theorem sep_cases (e : KVEntry) :
    (if e.equals then '=' else ':') = ':' ∨ (if e.equals then '=' else ':') = '=' := by
  cases e.equals <;> simp

theorem comma_not_mem (e : KVEntry) (h : e.WellFormed) : ',' ∉ e.text := by
  obtain ⟨h1, h2, h3, h4, _, _, _, h5, _, _⟩ := h
  have k := e.key.text_not_mem ',' (by decide) (by decide) (by decide)
  have w1 := not_mem_of_blank h1 (c := ',') (by decide)
  have w2 := not_mem_of_blank h2 (c := ',') (by decide)
  have w3 := not_mem_of_blank h3 (c := ',') (by decide)
  have w4 := not_mem_of_blank h4 (c := ',') (by decide)
  unfold text
  cases e.equals <;> simp [*]

theorem trim_entry_text (e : KVEntry) (h : e.WellFormed) :
    trim e.text = e.key.text ++ e.afterKey ++ (if e.equals then '=' else ':') ::
      (e.beforeValue ++ e.value) := by
  obtain ⟨h1, _, _, h4, h5, h6, h7, _⟩ := h
  exact trim_padded_entry e.before e.key.text e.afterKey e.beforeValue e.value e.after _
    h1 h4 (e.key.text_ne_nil h5) e.key.trim_text h6 h7

/-- What the loop of `parseKVList` does with one well-formed entry whose key is
at most `2^53` in magnitude: it stores the value under the key's numeral. -/
theorem parseKVPart_trim_text (e : KVEntry) (h : e.WellFormed) (hsafe : e.key.value.natAbs ≤ 2 ^ 53)
    (out : JSObj JSString) :
    parseKVPart out (trim e.text) = out.assign (intToDecimal e.key.value) e.value := by
  rw [e.trim_entry_text h]
  obtain ⟨_, h2, h3, _, h5, _, h7, _, h8, h9⟩ := h
  rw [parseKVPart_padded out e.key.text e.afterKey e.beforeValue e.value _ e.sep_cases
    (e.key.text_ne_nil h5) e.key.trim_text
    (e.key.text_not_mem ':' (by decide) (by decide) (by decide))
    (e.key.text_not_mem '=' (by decide) (by decide) (by decide)) h2 h3 h8 h9]
  rw [e.key.parseInt_text_exact h5 10 (Or.inr rfl) hsafe, h7, numberToString_int _ hsafe]
  rfl

end KVEntry

theorem clampNumBatches_literal (l : DecimalLiteral) (h : l.digits ≠ []) :
    clampNumBatches l.text = .fin (max 1 (min 50 l.value)) := by
  have hne : l.text.isEmpty = false := by
    cases ht : l.text with
    | nil => exact absurd ht (l.text_ne_nil h)
    | cons c t => rfl
  unfold clampNumBatches parseIntOrOne
  rw [hne]
  simp only [Bool.false_eq_true, if_false]
  rw [l.parseInt_text h 0 (Or.inl rfl)]
  by_cases hm : l.magnitude ≤ 2 ^ 53
  · rw [roundNat_of_le _ hm]
    unfold DecimalLiteral.value
    cases l.sign <;> simp [JSNum.neg, mathMin, mathMax]
  · have hm' : (2 : Int) ^ 53 < l.magnitude := by
      have : 2 ^ 53 < l.magnitude := by omega
      exact_mod_cast this
    rcases roundNat_ge l.magnitude (by omega) with e | ⟨m, hm2, e⟩
    · rw [e]
      unfold DecimalLiteral.value
      cases l.sign <;> simp [JSNum.neg, mathMin, mathMax] <;> omega
    · rw [e]
      have hm3 : (2 : Int) ^ 53 ≤ m := by exact_mod_cast hm2
      unfold DecimalLiteral.value
      cases l.sign <;> simp [JSNum.neg, mathMin, mathMax] <;> omega

theorem clampDimension_literal (l : DecimalLiteral) (h : l.digits ≠ [])
    (hsafe : l.value.natAbs ≤ 2 ^ 53) : clampDimension l.text = .fin (max 1 l.value) := by
  have hne : l.text.isEmpty = false := by
    cases ht : l.text with
    | nil => exact absurd ht (l.text_ne_nil h)
    | cons c t => rfl
  unfold clampDimension parseIntOrOne
  rw [hne]
  simp only [Bool.false_eq_true, if_false]
  rw [l.parseInt_text_exact h 0 (Or.inl rfl) hsafe]
  rfl

/-- The status `renderSeat` shows for a truthy seat: broken first, then
unallocated, then occupied. -/
theorem renderSeat_status_of_truthy (seat : Json) (ht : seat.truthy = true) (r c : Nat) :
    (renderSeat seat r c).status =
      some (if truthy? (seat.field "is_broken".toList) = true then SeatStatus.broken
        else if truthy? (seat.field "is_unallocated".toList) = true then SeatStatus.unallocated
        else SeatStatus.occupied) := by
  unfold renderSeat
  simp only [ht, Bool.not_true, Bool.false_eq_true, if_false]
  by_cases hb : truthy? (seat.field "is_broken".toList) = true
  · simp only [hb, if_true]; rfl
  · simp only [hb, if_false]
    by_cases hu : truthy? (seat.field "is_unallocated".toList) = true
    · simp only [hu, if_true]; rfl
    · simp only [hu, if_false]; rfl

/-- An object is truthy. -/
theorem truthy_of_isObject (seat : Json) (h : seat.isObject = true) : seat.truthy = true := by
  cases seat <;> first | rfl | exact absurd h (by simp [Json.isObject])

/-- The status `renderSeat` shows for a seat object. -/
theorem renderSeat_status_of_object (seat : Json) (h : seat.isObject = true) (r c : Nat) :
    (renderSeat seat r c).status =
      some (if truthy? (seat.field "is_broken".toList) = true then SeatStatus.broken
        else if truthy? (seat.field "is_unallocated".toList) = true then SeatStatus.unallocated
        else SeatStatus.occupied) :=
  renderSeat_status_of_truthy seat (truthy_of_isObject seat h) r c

theorem countP_status_sum (cells : List SeatCell) (h : ∀ c ∈ cells, c.status ≠ none) :
    cells.countP (fun c => c.status == some .broken) +
      cells.countP (fun c => c.status == some .unallocated) +
      cells.countP (fun c => c.status == some .occupied) = cells.length := by
  induction cells with
  | nil => rfl
  | cons c cs ih =>
    have ih' := ih (fun x hx => h x (by simp [hx]))
    have hc := h c (by simp)
    simp only [List.countP_cons, List.length_cons]
    cases hs : c.status with
    | none => exact absurd hs hc
    | some st => cases st <;> simp <;> omega

namespace StartRolls

theorem has_iff (m : StartRolls) (k : Nat) : m.has k = true ↔ k ∈ m.keys := by
  unfold has keys
  rw [List.any_eq_true]
  simp only [beq_iff_eq, List.mem_map]

theorem has_eq_false_iff (m : StartRolls) (k : Nat) : m.has k = false ↔ k ∉ m.keys := by
  rw [← has_iff]; simp

theorem get?_cons (e : Nat × JSString) (m : StartRolls) (k : Nat) :
    get? (e :: m) k = if e.1 = k then some e.2 else get? m k := by
  unfold get?
  by_cases h : e.1 = k
  · simp [List.find?, h]
  · have hb : (e.1 == k) = false := by simpa using h
    simp [List.find?, hb, h]

theorem get?_eq_some_of_mem : ∀ (m : StartRolls), m.keys.Nodup → ∀ (k : Nat) (v : JSString),
    (k, v) ∈ m → m.get? k = some v
  | [], _, _, _, h => by simp at h
  | e :: m, hnd, k, v, h => by
    rw [get?_cons]
    simp only [keys, List.map_cons, List.nodup_cons] at hnd
    rcases List.mem_cons.1 h with h | h
    · subst h; simp
    · have hk : e.1 ≠ k := by
        intro e1
        apply hnd.1
        rw [e1]
        exact List.mem_map_of_mem (·.1) h
      rw [if_neg hk]
      exact get?_eq_some_of_mem m hnd.2 k v h

theorem mem_of_get?_eq_some : ∀ (m : StartRolls) (k : Nat) (v : JSString),
    m.get? k = some v → (k, v) ∈ m
  | [], _, _, h => by simp [get?] at h
  | e :: m, k, v, h => by
    rw [get?_cons] at h
    by_cases hk : e.1 = k
    · rw [if_pos hk] at h
      simp only [Option.some.injEq] at h
      rw [← hk, ← h]
      simp
    · rw [if_neg hk] at h
      exact List.mem_cons_of_mem _ (mem_of_get?_eq_some m k v h)

theorem get?_eq_none_iff (m : StartRolls) (k : Nat) : m.get? k = none ↔ m.has k = false := by
  induction m with
  | nil => simp [get?, has]
  | cons e m ih =>
    rw [get?_cons]
    unfold has at ih ⊢
    by_cases hk : e.1 = k
    · simp [hk]
    · simp [hk, ih]

/-- Two listings of the same object give the same values. -/
theorem get?_perm {m m' : StartRolls} (hp : m.Perm m') (hnd : m.keys.Nodup) (k : Nat) :
    m'.get? k = m.get? k := by
  have hnd' : m'.keys.Nodup := (hp.map _).nodup_iff.1 hnd
  cases h : m.get? k with
  | none =>
    rw [get?_eq_none_iff, has_eq_false_iff] at h ⊢
    intro hk
    exact h ((hp.map _).mem_iff.2 hk)
  | some v =>
    exact get?_eq_some_of_mem m' hnd' k v (hp.mem_iff.1 (mem_of_get?_eq_some m k v h))

theorem insertIndex_perm (k : Nat) (v : JSString) :
    ∀ m : StartRolls, (insertIndex k v m).Perm ((k, v) :: m)
  | [] => List.Perm.refl _
  | e :: rest => by
    unfold insertIndex
    split
    · exact ((insertIndex_perm k v rest).cons e).trans (List.Perm.swap _ _ _)
    · exact List.Perm.refl _

theorem set_perm (m : StartRolls) (k : Nat) (v : JSString) (h : m.has k = false) :
    (m.set k v).Perm ((k, v) :: m) := by
  unfold set
  rw [h]
  simp only [Bool.false_eq_true, if_false]
  split
  · exact insertIndex_perm k v m
  · exact List.perm_append_comm

/-- Overwriting a property that is there keeps the names and their order. -/
theorem keys_set_of_has (m : StartRolls) (k : Nat) (v : JSString) (h : m.has k = true) :
    (m.set k v).keys = m.keys := by
  unfold set keys
  rw [h]
  simp only [if_true, List.map_map]
  apply List.map_congr_left
  intro e _
  simp only [Function.comp]
  by_cases he : e.1 = k
  · simp [he]
  · simp [he]

/-- A property added to an object that lacks it: the names, the values and the
absence of repeated names afterwards. -/
theorem set_new (m : StartRolls) (k : Nat) (v : JSString) (h : m.has k = false) :
    (∀ j, (m.set k v).has j = true ↔ (j = k ∨ m.has j = true)) ∧
    (∀ j, (m.set k v).get? j = if j = k then some v else m.get? j) ∧
    (m.keys.Nodup → (m.set k v).keys.Nodup) := by
  have hp := set_perm m k v h
  have hk : k ∉ m.keys := (has_eq_false_iff m k).1 h
  refine ⟨?_, ?_, ?_⟩
  · intro j
    rw [has_iff, has_iff]
    unfold keys
    rw [(hp.map _).mem_iff]
    simp
  · intro j
    by_cases hj : j = k
    · subst hj
      rw [if_pos rfl]
      unfold set
      rw [h]
      simp only [Bool.false_eq_true, if_false]
      split
      · clear hp
        induction m with
        | nil => simp [insertIndex, get?]
        | cons e rest ih =>
          have he : e.1 ≠ j := by
            intro e1; apply hk; simp [keys, e1]
          have hrest : j ∉ keys rest := by
            intro h1; apply hk; simp only [keys, List.map_cons, List.mem_cons]; right; exact h1
          unfold insertIndex
          split
          · rw [get?_cons, if_neg he]
            exact ih ((has_eq_false_iff rest j).2 hrest) hrest
          · rw [get?_cons]; simp
      · clear hp
        induction m with
        | nil => simp [get?]
        | cons e rest ih =>
          have he : e.1 ≠ j := by
            intro e1; apply hk; simp [keys, e1]
          have hrest : j ∉ keys rest := by
            intro h1; apply hk; simp only [keys, List.map_cons, List.mem_cons]; right; exact h1
          rw [List.cons_append, get?_cons, if_neg he]
          exact ih ((has_eq_false_iff rest j).2 hrest) hrest
    · rw [if_neg hj]
      unfold set
      rw [h]
      simp only [Bool.false_eq_true, if_false]
      split
      · clear hp hk h
        induction m with
        | nil => simp [insertIndex, get?, Ne.symm hj]
        | cons e rest ih =>
          unfold insertIndex
          split
          · rw [get?_cons, get?_cons, ih]
          · rw [get?_cons, if_neg (Ne.symm hj)]
      · clear hp hk h
        induction m with
        | nil => simp [get?, Ne.symm hj]
        | cons e rest ih =>
          rw [List.cons_append, get?_cons, get?_cons, ih]
  · intro hnd
    unfold keys
    rw [(hp.map _).nodup_iff]
    simp only [List.map_cons, List.nodup_cons]
    exact ⟨hk, hnd⟩

theorem get?_filter (p : Nat → Bool) : ∀ (m : StartRolls) (k : Nat), p k = true →
    get? (m.filter (fun e => p e.1)) k = m.get? k
  | [], _, _ => rfl
  | e :: m, k, hk => by
    rw [List.filter_cons]
    by_cases he : p e.1 = true
    · rw [if_pos he, get?_cons, get?_cons, get?_filter p m k hk]
    · rw [if_neg he, get?_cons, get?_filter p m k hk]
      have : e.1 ≠ k := fun e1 => he (by rw [e1]; exact hk)
      rw [if_neg this]

theorem has_filter (p : Nat → Bool) (m : StartRolls) (k : Nat) :
    has (m.filter (fun e => p e.1)) k = true ↔ (m.has k = true ∧ p k = true) := by
  rw [has_iff, has_iff]
  unfold keys
  simp only [List.mem_map, List.mem_filter]
  constructor
  · rintro ⟨e, ⟨he, hp⟩, rfl⟩; exact ⟨⟨e, he, rfl⟩, hp⟩
  · rintro ⟨⟨e, he, rfl⟩, hp⟩; exact ⟨e, ⟨he, hp⟩, rfl⟩

theorem nodup_filter (p : Nat × JSString → Bool) (m : StartRolls) (h : m.keys.Nodup) :
    (keys (m.filter p)).Nodup := by
  unfold keys at h ⊢
  exact h.sublist ((List.filter_sublist m).map _)

end StartRolls

/-- The loop of the sync effect, for `numBatches = n` below `2^53`, from counter
`i` on: it ends, and the object then holds the names it held and `i..n`, the
old values unchanged and the empty string under each new name. -/
theorem syncFill_spec (n : Nat) (hn : n < 2 ^ 53) : ∀ (d i : Nat) (m : StartRolls),
    i + d = n + 1 → ∃ m', syncFill (d + 1) i (.fin n) m = some m' ∧
      (∀ k, m'.has k = true ↔ (m.has k = true ∨ (i ≤ k ∧ k ≤ n))) ∧
      (∀ k, m.has k = true → m'.get? k = m.get? k) ∧
      (∀ k, m.has k = false → i ≤ k → k ≤ n → m'.get? k = some []) ∧
      (m.keys.Nodup → m'.keys.Nodup) ∧
      (∀ k ∈ m'.keys, k ∈ m.keys ∨ k ≤ n)
  | 0, i, m, hi => by
    refine ⟨m, ?_, ?_, fun _ _ => rfl, ?_, fun h => h, fun k hk => Or.inl hk⟩
    · have : (JSNum.fin (i : Int)).le (.fin (n : Int)) = false := by
        simp only [JSNum.le, decide_eq_false_iff_not]
        omega
      rw [syncFill, this]
      simp
    · intro k
      constructor
      · exact fun h => Or.inl h
      · rintro (h | h)
        · exact h
        · omega
    · intro k _ h1 h2; omega
  | d + 1, i, m, hi => by
    have hle : (JSNum.fin (i : Int)).le (.fin (n : Int)) = true := by
      simp only [JSNum.le, decide_eq_true_eq]
      omega
    have hround : roundNat (i + 1) = .fin ((i + 1 : Nat) : Int) := roundNat_of_le _ (by omega)
    obtain ⟨m', h1, h2, h3, h4, h5, h6⟩ :=
      syncFill_spec n hn d (i + 1) (if m.has i then m else m.set i []) (by omega)
    refine ⟨m', ?_, ?_, ?_, ?_, ?_, ?_⟩
    · rw [syncFill, hle]
      simp only [if_true, hround, Int.toNat_ofNat]
      exact h1
    · intro k
      rw [h2]
      by_cases hm : m.has i = true
      · rw [if_pos hm]
        constructor
        · rintro (h | h)
          · exact Or.inl h
          · exact Or.inr ⟨by omega, h.2⟩
        · rintro (h | h)
          · exact Or.inl h
          · rcases Nat.eq_or_lt_of_le h.1 with e | e
            · subst e; exact Or.inl hm
            · exact Or.inr ⟨e, h.2⟩
      · have hm' : m.has i = false := by simpa using hm
        rw [if_neg hm, (StartRolls.set_new m i [] hm').1]
        constructor
        · rintro ((h | h) | h)
          · exact Or.inr ⟨by omega, by omega⟩
          · exact Or.inl h
          · exact Or.inr ⟨by omega, h.2⟩
        · rintro (h | h)
          · exact Or.inl (Or.inr h)
          · rcases Nat.eq_or_lt_of_le h.1 with e | e
            · exact Or.inl (Or.inl e.symm)
            · exact Or.inr ⟨e, h.2⟩
    · intro k hk
      by_cases hm : m.has i = true
      · rw [if_pos hm] at h3
        exact h3 k hk
      · have hm' : m.has i = false := by simpa using hm
        rw [if_neg hm] at h3
        have hki : k ≠ i := by
          intro e; subst e; rw [hk] at hm'; exact absurd hm' (by simp)
        rw [h3 k (((StartRolls.set_new m i [] hm').1 k).2 (Or.inr hk)),
          (StartRolls.set_new m i [] hm').2.1 k, if_neg hki]
    · intro k hk hik hkn
      by_cases hm : m.has i = true
      · rw [if_pos hm] at h4
        have hki : k ≠ i := by
          intro e; subst e; rw [hk] at hm; exact absurd hm (by simp)
        exact h4 k hk (by omega) hkn
      · have hm' : m.has i = false := by simpa using hm
        rw [if_neg hm] at h3 h4
        by_cases hki : k = i
        · subst hki
          rw [h3 k (((StartRolls.set_new m k [] hm').1 k).2 (Or.inl rfl)),
            (StartRolls.set_new m k [] hm').2.1 k, if_pos rfl]
        · apply h4 k _ (by omega) hkn
          rw [← Bool.not_eq_true, (StartRolls.set_new m i [] hm').1 k]
          rintro (h | h)
          · exact hki h
          · rw [hk] at h; exact absurd h (by simp)
    · intro hnd
      apply h5
      by_cases hm : m.has i = true
      · rw [if_pos hm]; exact hnd
      · have hm' : m.has i = false := by simpa using hm
        rw [if_neg hm]
        exact (StartRolls.set_new m i [] hm').2.2 hnd
    · intro k hk
      rcases h6 k hk with h | h
      · by_cases hm : m.has i = true
        · rw [if_pos hm] at h; exact Or.inl h
        · have hm' : m.has i = false := by simpa using hm
          rw [if_neg hm] at h
          rcases ((StartRolls.set_new m i [] hm').1 k).1 ((StartRolls.has_iff _ _).2 h) with e | e
          · right; omega
          · exact Or.inl ((StartRolls.has_iff _ _).1 e)
      · exact Or.inr h

theorem deleteNamed_numeral (m : StartRolls) (k : Nat) :
    m.deleteNamed (natToDecimal k) = m.filter (fun e => decide (e.1 ≠ k)) := by
  unfold StartRolls.deleteNamed
  apply List.filter_congr
  intro e _
  by_cases h : e.1 = k
  · simp [h]
  · have : natToDecimal e.1 ≠ natToDecimal k := fun e1 => h (natToDecimal_injective e1)
    simp [h, this]

/-- The pruning of the sync effect over names below `2^53`: it removes the
entries under a listed name above `n`. -/
theorem foldl_prune (n : Nat) : ∀ (ks : List Nat) (acc : StartRolls), (∀ k ∈ ks, k < 2 ^ 53) →
    (ks.map roundNat).foldl
      (fun m k => if k.gt (.fin n) then m.deleteNamed (numberToString k) else m) acc =
    acc.filter (fun e => decide (¬ (e.1 ∈ ks ∧ n < e.1)))
  | [], acc, _ => by simp
  | k :: ks, acc, h => by
    have hk : k < 2 ^ 53 := h k (by simp)
    simp only [List.map_cons, List.foldl_cons]
    rw [roundNat_of_lt k hk, numberToString_nat k (by omega), deleteNamed_numeral,
      foldl_prune n ks _ (fun x hx => h x (by simp [hx]))]
    by_cases hgt : n < k
    · have : (JSNum.fin (k : Int)).gt (.fin (n : Int)) = true := by
        simp only [JSNum.gt, decide_eq_true_eq]; omega
      rw [this]
      simp only [if_true, List.filter_filter]
      apply List.filter_congr
      intro e _
      by_cases he : e.1 = k
      · simp [he, hgt]
      · simp [he]
    · have : (JSNum.fin (k : Int)).gt (.fin (n : Int)) = false := by
        simp only [JSNum.gt, decide_eq_false_iff_not]; omega
      rw [this]
      simp only [Bool.false_eq_true, if_false]
      apply List.filter_congr
      intro e _
      by_cases he : e.1 = k
      · simp [he, hgt]
      · simp [he]

theorem syncPrune_eq (n : Nat) (m : StartRolls) (h : ∀ k ∈ m.keys, k < 2 ^ 53) :
    syncPrune (.fin n) m = m.filter (fun e => decide (e.1 ≤ n)) := by
  unfold syncPrune
  rw [foldl_prune n m.keys m h]
  apply List.filter_congr
  intro e he
  have : e.1 ∈ m.keys := List.mem_map_of_mem (·.1) he
  simp [this]

/-- From `2^53` on the loop of the sync effect does not end: its counter stops
growing at `2^53`. -/
theorem syncFill_none (n : Nat) (hn : 2 ^ 53 ≤ n) : ∀ (fuel i : Nat) (m : StartRolls),
    i ≤ 2 ^ 53 → syncFill fuel i (.fin n) m = none
  | 0, _, _, _ => rfl
  | fuel + 1, i, m, hi => by
    have hle : (JSNum.fin (i : Int)).le (.fin (n : Int)) = true := by
      simp only [JSNum.le, decide_eq_true_eq]
      omega
    rw [syncFill, hle]
    simp only [if_true]
    rcases Nat.lt_or_eq_of_le hi with h | h
    · rw [roundNat_of_le (i + 1) (by omega)]
      simp only [Int.toNat_ofNat]
      exact syncFill_none n hn fuel (i + 1) _ (by omega)
    · subst h
      have : roundNat (2 ^ 53 + 1) = .fin ((2 ^ 53 : Nat) : Int) := by decide
      rw [this]
      simp only [Int.toNat_ofNat]
      exact syncFill_none n hn fuel (2 ^ 53) _ le_rfl

theorem syncStartRolls_none (n : Nat) (hn : 2 ^ 53 ≤ n) (m : StartRolls) :
    syncStartRolls (.fin n) m = none := by
  unfold syncStartRolls
  rw [syncFill_none n hn _ 1 m (by norm_num)]
  rfl

theorem Synced.lt (s : FormState) (n : Nat) (h : Synced s n) : n < 2 ^ 53 := by
  by_contra hn
  have := h.settled
  rw [h.numBatches_eq, syncStartRolls_none n (by omega)] at this
  cases this

namespace JSObj

variable {α : Type}

theorem has_iff_mem_keys (o : JSObj α) (k : JSString) : o.has k = true ↔ k ∈ keys o := by
  unfold has keys
  rw [List.any_eq_true]
  simp only [beq_iff_eq, List.mem_map]

theorem get?_cons_eq (e : JSString × α) (o : JSObj α) (k : JSString) :
    get? (e :: o) k = if e.1 = k then some e.2 else get? o k := by
  unfold get?
  by_cases h : e.1 = k
  · simp [List.find?, h]
  · have hb : (e.1 == k) = false := by simpa using h
    simp [List.find?, hb, h]

theorem get?_of_mem : ∀ (o : JSObj α), (keys o).Nodup → ∀ (k : JSString) (v : α),
    (k, v) ∈ o → get? o k = some v
  | [], _, _, _, h => by simp at h
  | e :: o, hnd, k, v, h => by
    rw [get?_cons_eq]
    simp only [keys, List.map_cons, List.nodup_cons] at hnd
    rcases List.mem_cons.1 h with h | h
    · subst h; simp
    · have hk : e.1 ≠ k := by
        intro e1
        apply hnd.1
        rw [e1]
        exact List.mem_map_of_mem (·.1) h
      rw [if_neg hk]
      exact get?_of_mem o hnd.2 k v h

theorem mem_of_get? : ∀ (o : JSObj α) (k : JSString) (v : α),
    get? o k = some v → (k, v) ∈ o
  | [], _, _, h => by simp [get?] at h
  | e :: o, k, v, h => by
    rw [get?_cons_eq] at h
    by_cases hk : e.1 = k
    · rw [if_pos hk] at h
      simp only [Option.some.injEq] at h
      rw [← hk, ← h]
      simp
    · rw [if_neg hk] at h
      exact List.mem_cons_of_mem _ (mem_of_get? o k v h)

/-- Entries with pairwise distinct new names, defined one after the other, are
all there at the end, next to what the object held. -/
theorem foldl_define_perm : ∀ (es : List (JSString × α)) (o : JSObj α),
    (es.map (·.1)).Nodup → (∀ e ∈ es, e.1 ∉ keys o) →
    (es.foldl (fun (o : JSObj α) e => o.define e.1 e.2) o).Perm (o ++ es)
  | [], o, _, _ => by simp
  | e :: es, o, hnd, hnew => by
    have hstep := define_perm o e.1 e.2 ((lacks_iff_not_mem_keys o _).2 (hnew e (by simp)))
    rw [List.map_cons, List.nodup_cons] at hnd
    have ih := foldl_define_perm es (o.define e.1 e.2) hnd.2 (by
      intro x hx hmem
      have : x.1 ∈ ((e.1, e.2) :: o).map (·.1) := by
        unfold keys at hmem
        exact (hstep.map _).mem_iff.1 hmem
      simp only [List.map_cons, List.mem_cons] at this
      rcases this with h | h
      · exact hnd.1 (by rw [← h]; exact List.mem_map_of_mem (·.1) hx)
      · exact hnew x (by simp [hx]) h)
    simp only [List.foldl_cons]
    refine ih.trans ?_
    refine (List.Perm.append_right _ hstep).trans ?_
    simp only [List.cons_append]
    exact List.perm_middle.symm

theorem fromEntries_perm (es : List (JSString × α)) (h : (es.map (·.1)).Nodup) :
    (fromEntries es).Perm es := by
  have := foldl_define_perm es [] h (by simp [keys])
  simpa [fromEntries] using this

end JSObj

/-- The filter of `buildPayload` keeps the values whose trim is not empty. -/
theorem notBlank_iff (v : JSString) : notBlank v = true ↔ trim v ≠ [] := by
  unfold notBlank
  cases v with
  | nil => simp [trim, trimStart, trimEnd]
  | cons c t =>
    cases h : trim (c :: t) with
    | nil => simp
    | cons d u => simp

theorem one_le_length_splitAux (sep : Char) : ∀ (s cur : JSString),
    1 ≤ (splitAux sep s cur).length
  | [], _ => by simp [splitAux]
  | c :: cs, cur => by
    unfold splitAux
    split
    · simp
    · exact one_le_length_splitAux sep cs (c :: cur)

/-- A part that holds the separator splits into two pieces at least, so the
loop of `parseKVList` always finds a key and a value. -/
theorem two_le_length_split (sep : Char) : ∀ (s cur : JSString), sep ∈ s →
    2 ≤ (splitAux sep s cur).length
  | [], _, h => by simp at h
  | c :: cs, cur, h => by
    unfold splitAux
    by_cases hc : c = sep
    · rw [if_pos hc]
      have := one_le_length_splitAux sep cs []
      simp only [List.length_cons]
      omega
    · rw [if_neg hc]
      exact two_le_length_split sep cs (c :: cur) (by
        rcases List.mem_cons.1 h with e | e
        · exact absurd e.symm hc
        · exact e)

theorem parseInt_natToDecimal (k : Nat) : parseInt (natToDecimal k) 10 = roundNat k := by
  have := parseInt_signed_digits [] (natToDecimal k) 10 (Or.inr rfl) (Or.inl rfl)
    (natToDecimal_ne_nil k) (natToDecimal_all_digits k)
  rw [digitsValue_natToDecimal] at this
  simpa using this

/-- The form after the page is mounted and the first start-roll input is filled
with ` A1 `: three batches, the start-roll inputs ` A1 `, empty and empty. -/
theorem synced_example :
    Synced { initialState with batchStartRolls := [(1, " A1 ".toList), (2, []), (3, [])] } 3 :=
  ⟨rfl, by decide, by decide, by
    intro k
    constructor
    · intro hk
      have : 1 = k ∨ 2 = k ∨ 3 = k := by
        simpa [StartRolls.has] using hk
      omega
    · intro hk
      have : k = 1 ∨ k = 2 ∨ k = 3 := by omega
      rcases this with rfl | rfl | rfl <;> rfl, by decide⟩

/-! ## The claims -/

/-- The operand `serialWidth || 0` also turns NaN into `0`: a form whose serial
width were NaN would get `serial_width = 0`. No state of the page has such a
width, since `setSerialWidth` is never called. -/
theorem buildPayload_serial_width_nan :
    ({ initialState with serialWidth := some JSNum.nan } : FormState).serialWidth = some JSNum.nan ∧
    (buildPayload { initialState with serialWidth := some JSNum.nan }).serial_width = JSNum.fin 0 ∧
    (buildPayload { initialState with serialWidth := some JSNum.nan }).serial_width ≠ JSNum.nan := by
  decide

/-- Claim C2, as amended. `parseKVList` accepts `:` or `=` as the separator: for
every decimal integer literal `k` of magnitude at most `2^53` and every plain
value `v`, `parseKVList` of `k:v` and of `k=v` is the object with the single
entry `k -> v`; and `parseKVList` of a comma-separated list of such entries with
pairwise distinct keys, with white space around entries, keys and values,
holds exactly those entries. -/
theorem parseKVList_integer_keys :
    (∀ (k : DecimalLiteral) (v : JSString), k.digits ≠ [] → k.value.natAbs ≤ 2 ^ 53 →
      IsPlainValue v →
      parseKVList (k.text ++ ':' :: v) = [(intToDecimal k.value, v)] ∧
      parseKVList (k.text ++ '=' :: v) = [(intToDecimal k.value, v)]) ∧
    (∀ es : List KVEntry, (∀ e ∈ es, e.WellFormed) → (∀ e ∈ es, e.key.value.natAbs ≤ 2 ^ 53) →
      (es.map (fun e => e.key.value)).Nodup →
      (parseKVList (join ',' (es.map KVEntry.text))).Perm
        (es.map (fun e => (intToDecimal e.key.value, e.value)))) := by
  have hlist : ∀ es : List KVEntry, (∀ e ∈ es, e.WellFormed) →
      (∀ e ∈ es, e.key.value.natAbs ≤ 2 ^ 53) → (es.map (fun e => e.key.value)).Nodup →
      (parseKVList (join ',' (es.map KVEntry.text))).Perm
        (es.map (fun e => (intToDecimal e.key.value, e.value))) := by
    intro es hwf hsafe hnd
    by_cases hes : es = []
    · subst hes; exact List.Perm.refl _
    · rw [parseKVList_join KVEntry.text (fun e => intToDecimal e.key.value) (fun e => e.value)
        es hes (fun e he => e.comma_not_mem (hwf e he))
        (fun e he => by
          rw [e.trim_entry_text (hwf e he)]
          intro h0
          have := congrArg List.length h0
          simp at this)
        (fun e he out => e.parseKVPart_trim_text (hwf e he) (hsafe e he) out)]
      have := JSObj.foldl_assign_perm (fun e : KVEntry => intToDecimal e.key.value)
        (fun e => e.value) es [] (fun e _ => intToDecimal_ne_proto _)
        (by
          have := hnd.map (f := intToDecimal) (fun a b h => intToDecimal_injective h)
          simpa [List.map_map] using this)
        (fun e _ => by simp [JSObj.keys])
      simpa using this
  refine ⟨?_, hlist⟩
  intro k v hk hsafe hv
  constructor
  · have := hlist [⟨[], k, [], false, [], v, []⟩]
      (by
        intro e he
        simp only [List.mem_singleton] at he
        subst he
        exact ⟨rfl, rfl, rfl, rfl, hk, hv⟩)
      (by
        intro e he
        simp only [List.mem_singleton] at he
        subst he
        exact hsafe)
      (by simp)
    simpa [join, KVEntry.text] using this
  · have := hlist [⟨[], k, [], true, [], v, []⟩]
      (by
        intro e he
        simp only [List.mem_singleton] at he
        subst he
        exact ⟨rfl, rfl, rfl, rfl, hk, hv⟩)
      (by
        intro e he
        simp only [List.mem_singleton] at he
        subst he
        exact hsafe)
      (by simp)
    simpa [join, KVEntry.text] using this

/-- Claim C2, witness. The list ` 2 = b ,-1:a` of two well-formed entries. -/
theorem parseKVList_integer_keys_witness :
    (parseKVList (join ',' ([(⟨[' '], ⟨.none, [2]⟩, [' '], true, [' '], ['b'], [' ']⟩ : KVEntry),
        ⟨[], ⟨.minus, [1]⟩, [], false, [], ['a'], []⟩].map KVEntry.text))).Perm
      [("2".toList, "b".toList), ("-1".toList, "a".toList)] :=
  parseKVList_integer_keys.2 [⟨[' '], ⟨.none, [2]⟩, [' '], true, [' '], ['b'], [' ']⟩,
      ⟨[], ⟨.minus, [1]⟩, [], false, [], ['a'], []⟩]
    (by
      intro e he
      simp only [List.mem_cons, List.mem_singleton, List.not_mem_nil, or_false] at he
      rcases he with rfl | rfl <;>
        exact ⟨by decide, by decide, by decide, by decide, by decide, by decide, by decide,
          by decide, by decide, by decide⟩)
    (by
      intro e he
      simp only [List.mem_cons, List.mem_singleton, List.not_mem_nil, or_false] at he
      rcases he with rfl | rfl <;> decide)
    (by decide)

/-- Claim C2, counterexample. The decimal integer `9007199254740993` (`2^53 + 1`) is
not a Number: `parseKVList` of `9007199254740993:x` holds one entry, under the
name `9007199254740992`, and none under `9007199254740993`. -/
theorem parseKVList_key_above_two_pow_53 :
    parseKVList "9007199254740993:x".toList = [("9007199254740992".toList, "x".toList)] ∧
    parseKVList "9007199254740993:x".toList ≠
      [(intToDecimal 9007199254740993, "x".toList)] := by
  decide

/-- Claim C3, as amended. An entry whose key does not parse as an integer is not
skipped: for every key text `k` that is not empty, has no white space around
it, holds none of `,`, `:` and `=` and that `parseInt` reads as NaN, and every
plain value `v`, `parseKVList` of `k:v` and of `k=v` is the object with the
single entry `k -> v` under the key text itself; only the key text `__proto__`
adds no entry. -/
theorem parseKVList_unparsed_key (k v : JSString) (hk : k ≠ []) (hkt : trim k = k)
    (hcomma : ',' ∉ k) (hcolon : ':' ∉ k) (hequals : '=' ∉ k) (hnan : parseInt k 10 = .nan)
    (hv : IsPlainValue v) :
    parseKVList (k ++ ':' :: v) = (if k = "__proto__".toList then [] else [(k, v)]) ∧
    parseKVList (k ++ '=' :: v) = (if k = "__proto__".toList then [] else [(k, v)]) := by
  obtain ⟨hv1, hv2, hv3, hv4, hv5⟩ := hv
  have key : ∀ sep : Char, sep = ':' ∨ sep = '=' →
      parseKVList (k ++ sep :: v) = (if k = "__proto__".toList then [] else [(k, v)]) := by
    intro sep hsep
    have hsc : sep ≠ ',' := by rcases hsep with rfl | rfl <;> decide
    have htrim : trim (k ++ sep :: v) = k ++ [] ++ sep :: ([] ++ v) := by
      have := trim_padded_entry [] k [] [] v [] sep rfl rfl hk hkt hv1 hv2
      simpa using this
    have := parseKVList_join (fun _ : Unit => k ++ sep :: v) (fun _ => k) (fun _ => v) [()]
      (by simp) (by
        intro _ _
        simp only [List.mem_append, List.mem_cons, not_or]
        exact ⟨hcomma, fun h => hsc h.symm, hv3⟩)
      (by
        intro _ _
        rw [htrim]
        simp)
      (by
        intro _ _ out
        rw [htrim, parseKVPart_padded out k [] [] v sep hsep hk hkt hcolon hequals rfl rfl hv4 hv5,
          hnan, hv2]
        rfl)
    simp only [List.map_cons, List.map_nil, join, List.foldl_cons, List.foldl_nil] at this
    rw [this]
    unfold JSObj.assign
    split
    · rfl
    · unfold JSObj.define
      simp only [JSObj.has, List.any_nil, Bool.false_eq_true, if_false, List.nil_append]
      split <;> rfl
  exact ⟨key ':' (Or.inl rfl), key '=' (Or.inr rfl)⟩

/-- Claim C3, witness. The entry `abc:x`. -/
theorem parseKVList_unparsed_key_witness :
    parseKVList ("abc".toList ++ ':' :: "x".toList) =
        (if "abc".toList = "__proto__".toList then [] else [("abc".toList, "x".toList)]) ∧
      parseKVList ("abc".toList ++ '=' :: "x".toList) =
        (if "abc".toList = "__proto__".toList then [] else [("abc".toList, "x".toList)]) :=
  parseKVList_unparsed_key "abc".toList "x".toList (by decide) (by decide) (by decide) (by decide)
    (by decide) (by decide) ⟨by decide, by decide, by decide, by decide, by decide⟩

/-- Claim C3, counterexample. `parseKVList` of `abc:x` is not the empty object: it
holds the entry `abc -> x`, whose key is not an integer. -/
theorem parseKVList_abc_not_skipped :
    parseKVList "abc:x".toList = [("abc".toList, "x".toList)] ∧
    parseKVList "abc:x".toList ≠ [] := by
  decide

/-- Claim C4, the failing input. The text `.5`, which a number input delivers, is
read by `parseInt` as NaN, and `Math.max(1, NaN)` is NaN: after the Rows
handler has run on it from the initial state, `rows` is NaN, not an integer
from one on. -/
theorem rows_nan_after_rows_handler :
    ReachableByDimensions (onRowsChange ".5".toList initialState) ∧
    (onRowsChange ".5".toList initialState).rows = JSNum.nan ∧
    (∀ n : Int, (onRowsChange ".5".toList initialState).rows ≠ JSNum.fin n) := by
  refine ⟨ReachableByDimensions.rows ".5".toList ReachableByDimensions.init rfl, by decide, ?_⟩
  intro n h
  have e : (onRowsChange ".5".toList initialState).rows = JSNum.nan := by decide
  rw [e] at h
  cases h

/-- Claim C5, as amended. For every input text that is a decimal integer literal
`n`, the Number of Batches handler stores `max(1, min(50, n))`; when the
magnitude of `n` is at most `2^53`, the Rows, Columns and Block Width handlers
store `max(1, n)`; and for the empty text all four handlers store `1`. -/
theorem handlers_store_clamped (l : DecimalLiteral) (s : FormState) (h : l.digits ≠ []) :
    (onNumBatchesChange l.text s).numBatches = .fin (max 1 (min 50 l.value)) ∧
    (l.value.natAbs ≤ 2 ^ 53 →
      (onRowsChange l.text s).rows = .fin (max 1 l.value) ∧
      (onColsChange l.text s).cols = .fin (max 1 l.value) ∧
      (onBlockWidthChange l.text s).blockWidth = .fin (max 1 l.value)) ∧
    ((onRowsChange [] s).rows = .fin 1 ∧ (onColsChange [] s).cols = .fin 1 ∧
      (onNumBatchesChange [] s).numBatches = .fin 1 ∧
      (onBlockWidthChange [] s).blockWidth = .fin 1) := by
  refine ⟨clampNumBatches_literal l h, fun hsafe => ?_, ?_⟩
  · exact ⟨clampDimension_literal l h hsafe, clampDimension_literal l h hsafe,
      clampDimension_literal l h hsafe⟩
  · have e1 : clampDimension [] = .fin 1 := by decide
    have e2 : clampNumBatches [] = .fin 1 := by decide
    exact ⟨e1, e1, e2, e1⟩

/-- Claim C5, witness. The literal `-12` on the initial state. -/
theorem handlers_store_clamped_witness :
    (⟨.minus, [1, 2]⟩ : DecimalLiteral).digits ≠ [] ∧
    ((onNumBatchesChange (⟨.minus, [1, 2]⟩ : DecimalLiteral).text initialState).numBatches =
        .fin (max 1 (min 50 (⟨.minus, [1, 2]⟩ : DecimalLiteral).value)) ∧
      ((⟨.minus, [1, 2]⟩ : DecimalLiteral).value.natAbs ≤ 2 ^ 53 →
        (onRowsChange (⟨.minus, [1, 2]⟩ : DecimalLiteral).text initialState).rows =
          .fin (max 1 (⟨.minus, [1, 2]⟩ : DecimalLiteral).value) ∧
        (onColsChange (⟨.minus, [1, 2]⟩ : DecimalLiteral).text initialState).cols =
          .fin (max 1 (⟨.minus, [1, 2]⟩ : DecimalLiteral).value) ∧
        (onBlockWidthChange (⟨.minus, [1, 2]⟩ : DecimalLiteral).text initialState).blockWidth =
          .fin (max 1 (⟨.minus, [1, 2]⟩ : DecimalLiteral).value)) ∧
      ((onRowsChange [] initialState).rows = .fin 1 ∧ (onColsChange [] initialState).cols = .fin 1 ∧
        (onNumBatchesChange [] initialState).numBatches = .fin 1 ∧
        (onBlockWidthChange [] initialState).blockWidth = .fin 1)) :=
  ⟨by decide, handlers_store_clamped ⟨.minus, [1, 2]⟩ initialState (by decide)⟩

/-- Claim C5, counterexample. The decimal integer literal `9007199254740993`
(`2^53 + 1`): the Rows handler stores `9007199254740992`, not `max(1, n)`. -/
theorem rows_handler_above_two_pow_53 :
    (⟨.none, [9, 0, 0, 7, 1, 9, 9, 2, 5, 4, 7, 4, 0, 9, 9, 3]⟩ : DecimalLiteral).text =
      "9007199254740993".toList ∧
    (⟨.none, [9, 0, 0, 7, 1, 9, 9, 2, 5, 4, 7, 4, 0, 9, 9, 3]⟩ : DecimalLiteral).value =
      9007199254740993 ∧
    (onRowsChange "9007199254740993".toList initialState).rows = .fin 9007199254740992 ∧
    (onRowsChange "9007199254740993".toList initialState).rows ≠
      .fin (max 1 9007199254740993) := by
  decide

/-- Claim C6, as amended. `buildPayload` passes `blockWidth` and `cols` on as they
are, so a payload has `block_width <= cols` exactly when the form state it is
built from has `blockWidth <= cols`; that is so in the initial state and after
"Reset to defaults" (3 and 10), and no handler restores it. -/
theorem block_width_le_cols_iff (s : FormState) :
    (buildPayload s).block_width.le (buildPayload s).cols = s.blockWidth.le s.cols ∧
    (buildPayload initialState).block_width.le (buildPayload initialState).cols = true ∧
    (buildPayload (onReset s)).block_width.le (buildPayload (onReset s)).cols = true :=
  ⟨rfl, rfl, rfl⟩

/-- Claim C6, counterexample. From the initial state the Columns handler on the
text `2` leads to a reachable state whose payload has `block_width = 3` and
`cols = 2`. -/
theorem block_width_above_cols_reachable :
    Reachable (onColsChange "2".toList initialState) ∧
    (buildPayload (onColsChange "2".toList initialState)).block_width = .fin 3 ∧
    (buildPayload (onColsChange "2".toList initialState)).cols = .fin 2 ∧
    (buildPayload (onColsChange "2".toList initialState)).block_width.le
      (buildPayload (onColsChange "2".toList initialState)).cols = false :=
  ⟨Reachable.step (.cols "2".toList) Reachable.init rfl, by decide, by decide, by decide⟩

/-- Claim C7. For every form state whose start-roll object has been synced to
`numBatches = n`, `payload.start_rolls` is present, and it is an object whose
names are numerals of indices in `1..n`: the index `i` is there exactly when the
start-roll input of batch `i` is not blank, and it then holds that input with
the white space around it removed. -/
theorem start_rolls_of_synced (s : FormState) (n : Nat) (h : Synced s n) :
    ∃ out, (buildPayload s).start_rolls = some out ∧
      (∀ i, 1 ≤ i → i ≤ n → out.get? (natToDecimal i) =
        if trim (startRollInput s i) = [] then none else some (trim (startRollInput s i))) ∧
      (∀ name, out.has name = true → ∃ i, 1 ≤ i ∧ i ≤ n ∧ name = natToDecimal i) ∧
      (JSObj.keys out).Nodup := by
  have hn := h.lt
  have hmem : ∀ e ∈ s.batchStartRolls, 1 ≤ e.1 ∧ e.1 ≤ n := by
    intro e he
    exact (h.keys_iff e.1).1 ((StartRolls.has_iff _ _).2 (List.mem_map_of_mem (·.1) he))
  -- the entries that `Object.fromEntries` receives
  have hentries : ((s.batchStartRolls.entries).filter (fun e => notBlank e.2)).map
      (fun e => (numberToString (parseInt e.1 10), trim e.2)) =
      (s.batchStartRolls.filter (fun e => notBlank e.2)).map
        (fun e => (natToDecimal e.1, trim e.2)) := by
    unfold StartRolls.entries
    rw [List.filter_map, List.map_map]
    apply List.map_congr_left
    intro e he
    have he' := hmem e (List.mem_of_mem_filter he)
    simp only [Function.comp]
    rw [parseInt_natToDecimal, roundNat_of_le _ (by omega), numberToString_nat _ (by omega)]
  have hnd : (((s.batchStartRolls.filter (fun e => notBlank e.2)).map
      (fun e => (natToDecimal e.1, trim e.2))).map (·.1)).Nodup := by
    rw [List.map_map]
    have h1 : ((s.batchStartRolls.filter (fun e => notBlank e.2)).map (·.1)).Nodup :=
      h.nodup.sublist ((List.filter_sublist _).map _)
    have := h1.map (f := natToDecimal) (fun a b hab => natToDecimal_injective hab)
    simpa [List.map_map] using this
  have hperm := JSObj.fromEntries_perm _ hnd
  have hkeys : s.batchStartRolls.keys.length ≠ 0 := by
    have : 1 ∈ s.batchStartRolls.keys :=
      (StartRolls.has_iff _ _).1 ((h.keys_iff 1).2 ⟨le_rfl, h.one_le⟩)
    intro h0
    rw [List.length_eq_zero] at h0
    rw [h0] at this
    simp at this
  refine ⟨JSObj.fromEntries ((s.batchStartRolls.filter (fun e => notBlank e.2)).map
    (fun e => (natToDecimal e.1, trim e.2))), ?_, ?_, ?_, ?_⟩
  · show startRollsPayload s.batchStartRolls = _
    unfold startRollsPayload
    rw [if_neg hkeys, hentries]
  · intro i hi1 hi2
    have hhas : s.batchStartRolls.has i = true := (h.keys_iff i).2 ⟨hi1, hi2⟩
    obtain ⟨w, hw⟩ : ∃ w, s.batchStartRolls.get? i = some w := by
      cases hg : s.batchStartRolls.get? i with
      | none =>
        rw [StartRolls.get?_eq_none_iff, hhas] at hg
        exact absurd hg (by simp)
      | some w => exact ⟨w, rfl⟩
    have hin : startRollInput s i = w := by
      unfold startRollInput
      rw [hw]; rfl
    rw [hin]
    have hwm := StartRolls.mem_of_get?_eq_some _ _ _ hw
    rw [show (if trim w = [] then none else some (trim w)) =
      (if notBlank w = true then some (trim w) else none) by
        by_cases hb : notBlank w = true
        · rw [if_pos hb, if_neg ((notBlank_iff w).1 hb)]
        · rw [if_neg hb, if_pos (by
            by_contra h0
            exact hb ((notBlank_iff w).2 h0))]]
    by_cases hb : notBlank w = true
    · rw [if_pos hb]
      apply JSObj.get?_of_mem _ ((hperm.map _).nodup_iff.2 hnd)
      apply hperm.mem_iff.2
      exact List.mem_map.2 ⟨(i, w), List.mem_filter.2 ⟨hwm, hb⟩, rfl⟩
    · rw [if_neg hb]
      cases hg : JSObj.get? (JSObj.fromEntries _) (natToDecimal i) with
      | none => rfl
      | some v =>
        exfalso
        have := hperm.mem_iff.1 (JSObj.mem_of_get? _ _ _ hg)
        obtain ⟨e, he, heq⟩ := List.mem_map.1 this
        obtain ⟨he1, he2⟩ := List.mem_filter.1 he
        have hei : e.1 = i := natToDecimal_injective (Prod.mk.inj heq).1
        have : s.batchStartRolls.get? i = some e.2 :=
          StartRolls.get?_eq_some_of_mem _ h.nodup _ _ (by rw [← hei]; exact he1)
        rw [hw] at this
        simp only [Option.some.injEq] at this
        rw [this] at hb
        exact hb he2
  · intro name hname
    have := (hperm.map (·.1)).mem_iff.1 ((JSObj.has_iff_mem_keys _ _).1 hname)
    rw [List.map_map] at this
    obtain ⟨e, he, rfl⟩ := List.mem_map.1 this
    have := hmem e (List.mem_of_mem_filter he)
    exact ⟨e.1, this.1, this.2, rfl⟩
  · exact (hperm.map _).nodup_iff.2 hnd

/-- Claim C7, witness. After mounting, with ` A1 ` typed for batch 1 and nothing
for batches 2 and 3. -/
theorem start_rolls_of_synced_witness :
    ∃ out, (buildPayload
        { initialState with batchStartRolls := [(1, " A1 ".toList), (2, []), (3, [])] }).start_rolls
        = some out ∧
      (∀ i, 1 ≤ i → i ≤ 3 → out.get? (natToDecimal i) =
        if trim (startRollInput
            { initialState with batchStartRolls := [(1, " A1 ".toList), (2, []), (3, [])] } i) = []
        then none
        else some (trim (startRollInput
            { initialState with batchStartRolls := [(1, " A1 ".toList), (2, []), (3, [])] } i))) ∧
      (∀ name, out.has name = true → ∃ i, 1 ≤ i ∧ i ≤ 3 ∧ name = natToDecimal i) ∧
      (JSObj.keys out).Nodup :=
  start_rolls_of_synced _ 3 synced_example

/-- What the sync effect does for `numBatches = n` with `1 <= n < 2^53`, on an
object whose names are distinct positive integers below `2^53`: it ends with
an object whose names are exactly `1..n`; a name that was there and is at most
`n` keeps its value, an added name holds the empty string, the names above `n`
are gone; and editing the input of a batch `idx` in `1..n` leaves the names as
they are. -/
theorem syncStartRolls_of_bounds (n : Nat) (prior : StartRolls) (hn1 : 1 ≤ n) (hn2 : n < 2 ^ 53)
    (hnd : prior.keys.Nodup) (hkeys : ∀ k ∈ prior.keys, 1 ≤ k ∧ k < 2 ^ 53) :
    ∃ next, syncStartRolls (.fin n) prior = some next ∧
      (∀ k, next.has k = true ↔ (1 ≤ k ∧ k ≤ n)) ∧
      (∀ k, k ≤ n → prior.has k = true → next.get? k = prior.get? k) ∧
      (∀ k, 1 ≤ k → k ≤ n → prior.has k = false → next.get? k = some []) ∧
      next.keys.Nodup ∧
      (∀ idx text, 1 ≤ idx → idx ≤ n → (next.set idx text).keys = next.keys) := by
  obtain ⟨m', h1, h2, h3, h4, h5, h6⟩ := syncFill_spec n hn2 n 1 prior (by omega)
  have hlt : ∀ k ∈ m'.keys, k < 2 ^ 53 := by
    intro k hk
    rcases h6 k hk with h | h
    · exact (hkeys k h).2
    · omega
  have hhas : ∀ k, StartRolls.has (m'.filter (fun e => decide (e.1 ≤ n))) k = true ↔
      (1 ≤ k ∧ k ≤ n) := by
    intro k
    rw [StartRolls.has_filter (fun j => decide (j ≤ n)) m' k, h2]
    simp only [decide_eq_true_eq]
    constructor
    · rintro ⟨h | h, hk⟩
      · exact ⟨(hkeys k ((StartRolls.has_iff _ _).1 h)).1, hk⟩
      · exact h
    · rintro ⟨hk1, hk2⟩
      exact ⟨Or.inr ⟨hk1, hk2⟩, hk2⟩
  refine ⟨m'.filter (fun e => decide (e.1 ≤ n)), ?_, hhas, ?_, ?_, ?_, ?_⟩
  · unfold syncStartRolls
    have hfuel : syncFuel (.fin (n : Int)) = n + 1 := by simp [syncFuel]
    rw [hfuel, h1]
    simp only [Option.map_some', Option.some.injEq]
    exact syncPrune_eq n m' hlt
  · intro k hk hp
    rw [StartRolls.get?_filter (fun j => decide (j ≤ n)) m' k (by simpa using hk)]
    exact h3 k hp
  · intro k hk1 hk2 hp
    rw [StartRolls.get?_filter (fun j => decide (j ≤ n)) m' k (by simpa using hk2)]
    exact h4 k hp hk1 hk2
  · exact StartRolls.nodup_filter _ m' (h5 hnd)
  · intro idx text h1' h2'
    exact StartRolls.keys_set_of_has _ idx text ((hhas idx).2 ⟨h1', h2'⟩)

/-- Beyond the integers that are Numbers the effect would go wrong: a name
`9007199254740993` (`2^53 + 1`) would survive for `numBatches = 1`, and for
`numBatches = 2^53` the loop would not end. No state of the page comes near:
`numBatches` is at most 50 and so are the names. -/
theorem syncStartRolls_above_two_pow_53 :
    syncStartRolls (.fin 1) [(9007199254740993, ['x'])] =
      some [(1, []), (9007199254740993, ['x'])] ∧
    StartRolls.has [(1, []), (9007199254740993, ['x'])] 9007199254740993 = true ∧
    syncStartRolls (.fin 9007199254740992) [] = none :=
  ⟨by decide, by decide, syncStartRolls_none 9007199254740992 (by norm_num) []⟩

/-- Claim C9. For every form state, the JSON body `showConstraints` posts to
`/api/constraints-status` is the JSON body `generate` posts to
`/api/generate-seating`: both are `JSON.stringify(buildPayload())`, sent with
the same method and headers. -/
theorem constraints_request_same_body (s : FormState) :
    (showConstraintsRequest s).body = (generateRequest s).body ∧
    (showConstraintsRequest s).body = jsonOfPayload (buildPayload s) ∧
    (showConstraintsRequest s).method = (generateRequest s).method ∧
    (showConstraintsRequest s).headers = (generateRequest s).headers ∧
    (generateRequest s).url = "/api/generate-seating".toList ∧
    (showConstraintsRequest s).url = "/api/constraints-status".toList :=
  ⟨rfl, rfl, rfl, rfl, rfl, rfl⟩

/-- Claim C10. `renderSeat` gives every seat of a grid of seat objects (no null
cell) exactly one of the three statuses: BROKEN when `is_broken` is truthy,
otherwise UNALLOCATED when `is_unallocated` is truthy, otherwise occupied; so
the numbers of cells rendered as broken, unallocated and occupied sum to the
number of cells of the grid. -/
theorem renderSeat_one_status (seating : List (List Json))
    (h : ∀ row ∈ seating, ∀ seat ∈ row, seat.isObject = true) :
    (∀ row ∈ seating, ∀ seat ∈ row, ∀ r c : Nat,
      (renderSeat seat r c).status =
        some (if truthy? (seat.field "is_broken".toList) = true then SeatStatus.broken
          else if truthy? (seat.field "is_unallocated".toList) = true then SeatStatus.unallocated
          else SeatStatus.occupied)) ∧
    countStatus .broken (renderGrid seating) + countStatus .unallocated (renderGrid seating) +
      countStatus .occupied (renderGrid seating) = (seating.map List.length).sum := by
  refine ⟨fun row hrow seat hseat r c => renderSeat_status_of_object seat (h row hrow seat hseat) r c,
    ?_⟩
  have hrow : ∀ (row : List Json) (r : Nat), (∀ seat ∈ row, seat.isObject = true) →
      ∀ cell ∈ row.enum.map (fun cell => renderSeat cell.2 r cell.1), cell.status ≠ none := by
    intro row r hr cell hcell
    obtain ⟨x, hx, rfl⟩ := List.mem_map.1 hcell
    rw [renderSeat_status_of_object x.2 (hr x.2 (List.snd_mem_of_mem_enum hx))]
    exact fun e => by cases e
  unfold countStatus renderGrid
  have key : ∀ (n : Nat) (rows : List (List Json)),
      (∀ row ∈ rows, ∀ seat ∈ row, seat.isObject = true) →
      (((rows.enumFrom n).map (fun row => row.2.enum.map
          (fun cell => renderSeat cell.2 row.1 cell.1))).map
          (fun row => row.countP (fun c => c.status == some .broken))).sum +
        (((rows.enumFrom n).map (fun row => row.2.enum.map
          (fun cell => renderSeat cell.2 row.1 cell.1))).map
          (fun row => row.countP (fun c => c.status == some .unallocated))).sum +
        (((rows.enumFrom n).map (fun row => row.2.enum.map
          (fun cell => renderSeat cell.2 row.1 cell.1))).map
          (fun row => row.countP (fun c => c.status == some .occupied))).sum =
        (rows.map List.length).sum := by
    intro n rows
    induction rows generalizing n with
    | nil => intro _; rfl
    | cons row rows ih =>
      intro hall
      have h1 := countP_status_sum _ (hrow row n (hall row (by simp)))
      have h2 := ih (n + 1) (fun x hx => hall x (by simp [hx]))
      simp only [List.enumFrom_cons, List.map_cons, List.sum_cons]
      simp only [List.length_map, List.enum_length] at h1
      omega
  exact key 0 seating h

/-- Claim C10, witness. A row of three seats: one with both flags set, one
unallocated, one occupied. -/
theorem renderSeat_one_status_witness :
    (renderSeat (.obj [("is_broken".toList, .bool true), ("is_unallocated".toList, .bool true)])
        0 0).status = some .broken ∧
    countStatus .broken (renderGrid
        [[.obj [("is_broken".toList, .bool true), ("is_unallocated".toList, .bool true)],
          .obj [("is_unallocated".toList, .bool true)], .obj []]]) +
      countStatus .unallocated (renderGrid
        [[.obj [("is_broken".toList, .bool true), ("is_unallocated".toList, .bool true)],
          .obj [("is_unallocated".toList, .bool true)], .obj []]]) +
      countStatus .occupied (renderGrid
        [[.obj [("is_broken".toList, .bool true), ("is_unallocated".toList, .bool true)],
          .obj [("is_unallocated".toList, .bool true)], .obj []]]) = 3 :=
  ⟨by decide,
    (renderSeat_one_status
      [[.obj [("is_broken".toList, .bool true), ("is_unallocated".toList, .bool true)],
        .obj [("is_unallocated".toList, .bool true)], .obj []]]
      (by
        intro row hrow seat hseat
        simp only [List.mem_singleton] at hrow
        subst hrow
        simp only [List.mem_cons, List.mem_singleton, List.not_mem_nil, or_false] at hseat
        rcases hseat with rfl | rfl | rfl <;> rfl)).2⟩

/-! ## The requests of the page -/

theorem orElse_truthy (a : Option Json) (b : Json) (hb : b.truthy = true) :
    (orElse a b).truthy = true := by
  unfold orElse
  cases a with
  | none => exact hb
  | some v =>
    by_cases hv : v.truthy = true
    · simp only [hv, if_true]
    · simp only [hv, Bool.false_eq_true, if_false]; exact hb

theorem orElse_of_truthy (v b : Json) (hv : v.truthy = true) : orElse (some v) b = v := by
  simp [orElse, hv]

theorem orElse_of_falsy (a : Option Json) (b : Json) (ha : truthy? a = false) : orElse a b = b := by
  cases a with
  | none => rfl
  | some v =>
    have hv : v.truthy = false := ha
    simp [orElse, hv]

theorem messageOr_ne_nil (e : JSError) (d : JSString) (hd : d ≠ []) : e.messageOr d ≠ [] := by
  unfold JSError.messageOr
  cases h : e.message with
  | nil => simpa using hd
  | cons c t => simp

theorem str_truthy (m : JSString) (hm : m ≠ []) : (Json.str m).truthy = true := by
  cases m with
  | nil => exact absurd rfl hm
  | cons c t => rfl

/-- Claim C11. Whenever the response is not OK, or the request or the decoding
of the body throws, `generate` leaves `webData = null` (whatever was stored
before), `loading = false` and a truthy `error`: the `error` member of the
body when it is a non-empty text, the default `Server error` when the body has
none, and in every case a non-empty text as long as the `error` member of a
body is a text. -/
theorem generate_failure (host : Host) (p : PageState) (r : FetchResult)
    (h : r.isFailure = true) :
    (generate host p r).state.webData = .null ∧
    (generate host p r).state.loading = false ∧
    (generate host p r).state.error.truthy = true ∧
    (∀ data m, r = .decoded false data → m ≠ [] → data.field "error".toList = some (.str m) →
      (generate host p r).state.error = .str m) ∧
    (∀ data, r = .decoded false data → data ≠ .null → data.field "error".toList = none →
      (generate host p r).state.error = .str "Server error".toList) ∧
    ((∀ data e, r = .decoded false data → data.field "error".toList = some e → ∃ m, e = .str m) →
      ∃ m, m ≠ [] ∧ (generate host p r).state.error = .str m) := by
  have hne : "Network error".toList ≠ [] := by decide
  have hse : (Json.str "Server error".toList).truthy = true := rfl
  cases r with
  | rejected err =>
    refine ⟨rfl, rfl, str_truthy _ (messageOr_ne_nil err _ hne), ?_, ?_, ?_⟩
    · intro data m e; cases e
    · intro data e; cases e
    · intro _; exact ⟨_, messageOr_ne_nil err _ hne, rfl⟩
  | undecodable ok err =>
    refine ⟨rfl, rfl, str_truthy _ (messageOr_ne_nil err _ hne), ?_, ?_, ?_⟩
    · intro data m e; cases e
    · intro data e; cases e
    · intro _; exact ⟨_, messageOr_ne_nil err _ hne, rfl⟩
  | decoded ok data =>
    cases ok with
    | true => exact Bool.noConfusion h
    | false =>
      by_cases hd : data = .null
      · subst hd
        refine ⟨rfl, rfl, str_truthy _ (messageOr_ne_nil _ _ hne), ?_, ?_, ?_⟩
        · intro data m e _ hf
          cases e
          cases hf
        · intro data e hn
          cases e
          exact absurd rfl hn
        · intro _; exact ⟨_, messageOr_ne_nil _ _ hne, rfl⟩
      · have hw : (generate host p (.decoded false data)).state.webData = .null := by
          cases data <;> rfl
        have hl : (generate host p (.decoded false data)).state.loading = false := by
          cases data <;> rfl
        have he : (generate host p (.decoded false data)).state.error =
            orElse (data.field "error".toList) (.str "Server error".toList) := by
          cases data with
          | null => exact absurd rfl hd
          | _ => rfl
        rw [he]
        refine ⟨hw, hl, orElse_truthy _ _ hse, ?_, ?_, ?_⟩
        · intro data2 m e hm hf
          cases e
          rw [hf]
          exact orElse_of_truthy _ _ (str_truthy m hm)
        · intro data2 e _ hf
          cases e
          rw [hf]; rfl
        · intro htext
          cases hf : data.field "error".toList with
          | none => exact ⟨_, by decide, rfl⟩
          | some e =>
            obtain ⟨m, rfl⟩ := htext data e rfl hf
            cases m with
            | nil => exact ⟨_, by decide, rfl⟩
            | cons c t => exact ⟨c :: t, by simp, rfl⟩

/-- Claim C11, witness. A response that is not OK and says `Invalid rows`, while a
grid of an earlier run is stored: the message is stored as the error. -/
theorem generate_failure_witness :
    (generate ⟨fun e => e, [], .fin 0⟩
      { initialPage with webData := .obj [("seating".toList, .arr [])] }
      (.decoded false (.obj [("error".toList, .str "Invalid rows".toList)]))).state.error =
        .str "Invalid rows".toList :=
  (generate_failure ⟨fun e => e, [], .fin 0⟩
    { initialPage with webData := .obj [("seating".toList, .arr [])] }
    (.decoded false (.obj [("error".toList, .str "Invalid rows".toList)])) rfl).2.2.2.1
    _ _ rfl (by decide) rfl

/-- Claim C12. An OK response is stored whole, whatever it says: `webData` is
the response, `error` is `null` and `loading` is `false`, so a response with
`validation.is_valid = false` is stored exactly as one with `is_valid = true`;
the form is left as it was. -/
theorem generate_ok_stored (host : Host) (p : PageState) (data : Json) :
    (generate host p (.decoded true data)).state =
      { p with webData := data, error := .null, loading := false } ∧
    (generate host p (.decoded true data)).state.webData = data ∧
    (generate host p (.decoded true data)).state.error = .null ∧
    (generate host p (.decoded true data)).state.loading = false ∧
    (generate host p (.decoded true data)).state.form = p.form :=
  ⟨rfl, rfl, rfl, rfl, rfl⟩

theorem constraintBlock_of_isConstraint (j : Json) (c : Constraint) (h : IsConstraint j c) :
    constraintBlock j = some c.block := by
  obtain ⟨hn, hd, ha, hs⟩ := h
  have hj : constraintBlock j = some (
      (if truthy? (j.field "applied".toList) then "Applied".toList else "Not applied".toList) ++
      " — ".toList ++ templateText (j.field "name".toList) ++ "\n  ".toList ++
      templateText (j.field "description".toList) ++ "\n  Status: ".toList ++
      (if truthy? (j.field "satisfied".toList) then "SATISFIED".toList
       else "NOT SATISFIED".toList) ++ "\n".toList) := by
    cases j with
    | null => cases hn
    | _ => rfl
  rw [hj, hn, hd, ha, hs]
  unfold Constraint.block
  cases c.applied <;> cases c.satisfied <;> rfl

theorem constraintBlocks_of_isConstraint : ∀ (js : List Json) (cs : List Constraint),
    List.Forall₂ IsConstraint js cs → constraintBlocks js = some (cs.map Constraint.block)
  | [], [], _ => rfl
  | [], _ :: _, h => nomatch h
  | _ :: _, [], h => nomatch h
  | j :: js, c :: cs, h => by
    rw [List.forall₂_cons] at h
    show (match constraintBlock j, constraintBlocks js with
      | some b, some bs => some (b :: bs)
      | _, _ => none) = _
    rw [constraintBlock_of_isConstraint j c h.1, constraintBlocks_of_isConstraint js cs h.2]
    rfl

/-- Claim C13. For a body whose `constraints` member lists the constraints `cs`,
`showConstraints` alerts the heading followed by the blocks of the constraints
of `cs`, one block for each, in the order of the list, joined by blank lines;
a block reads `Applied` or `Not applied` by `applied`, then the name, the
description, and `SATISFIED` or `NOT SATISFIED` by `satisfied`. The state is
left as it was. -/
theorem showConstraints_report (host : Host) (p : PageState) (data : Json) (js : List Json)
    (cs : List Constraint) (hlist : data.field "constraints".toList = some (.arr js))
    (hcs : List.Forall₂ IsConstraint js cs) :
    (showConstraints host p (.decoded true data)).effects =
      [.fetch (showConstraintsRequest p.form),
       .alert ("Constraints status:\n\n".toList ++
         joinStr "\n\n".toList (cs.map Constraint.block))] ∧
    (showConstraints host p (.decoded true data)).state = p := by
  have ht : constraintsText host data = .ok ("Constraints status:\n\n".toList ++
      joinStr "\n\n".toList (cs.map Constraint.block)) := by
    have h1 : constraintsText host data =
        (match data.field "constraints".toList with
         | some (.arr cs) =>
           match constraintBlocks cs with
           | some blocks => .ok ("Constraints status:\n\n".toList ++ joinStr "\n\n".toList blocks)
           | none => .error (host.typeError "c.applied")
         | _ => .error (host.typeError "data.constraints.map")) := by
      cases data with
      | null => cases hlist
      | _ => rfl
    rw [h1, hlist]
    show (match constraintBlocks js with
      | some blocks => Except.ok ("Constraints status:\n\n".toList ++ joinStr "\n\n".toList blocks)
      | none => .error (host.typeError "c.applied")) = _
    rw [constraintBlocks_of_isConstraint js cs hcs]
  have hrun : showConstraints host p (.decoded true data) =
      (match constraintsText host data with
       | .ok text => { state := p, effects := [.fetch (showConstraintsRequest p.form), .alert text] }
       | .error err => { state := p, effects := [.fetch (showConstraintsRequest p.form),
           .alert ("Error fetching constraints: ".toList ++
             (if err.message.isEmpty then err.toJSString else err.message))] }) := rfl
  rw [hrun, ht]
  exact ⟨rfl, rfl⟩

/-- Claim C13, witness. A constraint that was not applied and is satisfied is
reported as `Not applied` and `SATISFIED`, after one that was applied and is
not satisfied. -/
theorem showConstraints_report_witness :
    (showConstraints ⟨fun e => e, [], .fin 0⟩ initialPage
      (.decoded true (.obj [("constraints".toList, .arr [
        .obj [("name".toList, .str "A".toList), ("description".toList, .str "a".toList),
              ("applied".toList, .bool true), ("satisfied".toList, .bool false)],
        .obj [("satisfied".toList, .bool true), ("applied".toList, .bool false),
              ("description".toList, .str "b".toList), ("name".toList, .str "B".toList)]])]))).effects =
      [.fetch (showConstraintsRequest initialState),
       .alert ("Constraints status:\n\nApplied — A\n  a\n  Status: NOT SATISFIED\n\n\n" ++
         "Not applied — B\n  b\n  Status: SATISFIED\n").toList] :=
  (showConstraints_report ⟨fun e => e, [], .fin 0⟩ initialPage
    (.obj [("constraints".toList, .arr [
        .obj [("name".toList, .str "A".toList), ("description".toList, .str "a".toList),
              ("applied".toList, .bool true), ("satisfied".toList, .bool false)],
        .obj [("satisfied".toList, .bool true), ("applied".toList, .bool false),
              ("description".toList, .str "b".toList), ("name".toList, .str "B".toList)]])])
    [.obj [("name".toList, .str "A".toList), ("description".toList, .str "a".toList),
              ("applied".toList, .bool true), ("satisfied".toList, .bool false)],
        .obj [("satisfied".toList, .bool true), ("applied".toList, .bool false),
              ("description".toList, .str "b".toList), ("name".toList, .str "B".toList)]]
    [⟨"A".toList, "a".toList, true, false⟩, ⟨"B".toList, "b".toList, false, true⟩] rfl
    (.cons ⟨rfl, rfl, rfl, rfl⟩ (.cons ⟨rfl, rfl, rfl, rfl⟩ .nil))).1

/-! ## The cells of the chart and of the PDF document -/

theorem pdfCell_of_isObject (s : Json) (h : s.isObject = true) :
    pdfCell s = some
      { background := orElse (s.field "color".toList) (.str "#fff".toList),
        content :=
          if truthy? (s.field "is_broken".toList) then
            .broken (templateText (s.field "position".toList))
          else if truthy? (s.field "is_unallocated".toList) then
            .unallocated (orElse (s.field "batch".toList) (.str [])).toJSString
          else
            .occupied
              (orElse (s.field "batch_label".toList)
                (.str ('B' :: (orElse (s.field "batch".toList) (.str [])).toJSString))).toJSString
              ((orElse (s.field "roll_number".toList) (.str [])).toJSString ++
                (orElse (s.field "paper_set".toList) (.str [])).toJSString)
              (templateText (s.field "position".toList)) } := by
  cases s with
  | obj members => rfl
  | _ => exact absurd h (by simp [Json.isObject])

theorem num_truthy_of_pos (b : Nat) (h : 1 ≤ b) : (Json.num (.fin b)).truthy = true := by
  show JSNum.truthy (.fin b) = true
  simp [JSNum.truthy]
  omega

/-- The labels the two renderings give an occupied seat with the batch id `b`
and no batch label: the cell of the chart that `renderSeat` builds reads
`Batch ` followed by `b`, and the cell of the PDF document that
`downloadPdfClientSide` builds reads `B` followed by `b`. -/
theorem default_labels (seat : Json) (b r c : Nat) (hobj : seat.isObject = true)
    (hbroken : truthy? (seat.field "is_broken".toList) = false)
    (hunallocated : truthy? (seat.field "is_unallocated".toList) = false)
    (hlabel : truthy? (seat.field "batch_label".toList) = false)
    (hbatch : seat.field "batch".toList = some (.num (.fin b))) (h1 : 1 ≤ b) (h2 : b ≤ 2 ^ 53) :
    (renderSeat seat r c).label? = some (.str ("Batch ".toList ++ natToDecimal b)) ∧
    ∃ cell, pdfCell seat = some cell ∧ cell.content.label? = some ('B' :: natToDecimal b) := by
  have ht := num_truthy_of_pos b h1
  constructor
  · unfold renderSeat
    simp only [truthy_of_isObject seat hobj, hbroken, hunallocated, Bool.not_true,
      Bool.false_eq_true, if_false]
    rw [orElse_of_falsy _ _ hlabel, hbatch]
    simp only [ht, if_true, SeatCell.label?]
    show some (Json.str ("Batch ".toList ++ numberToString (.fin b))) = _
    rw [numberToString_nat b h2]
  · refine ⟨_, pdfCell_of_isObject seat hobj, ?_⟩
    simp only [hbroken, hunallocated, Bool.false_eq_true, if_false, PdfCellContent.label?]
    rw [orElse_of_falsy _ _ hlabel, hbatch, orElse_of_truthy _ _ ht]
    show some ('B' :: numberToString (.fin b)) = _
    rw [numberToString_nat b h2]

/-- The two labels of a seat of batch 12. -/
theorem default_labels_witness :
    (renderSeat (.obj [("batch".toList, .num (.fin 12)), ("roll_number".toList, .str "R7".toList)])
      2 5).label? = some (.str "Batch 12".toList) ∧
    ∃ cell, pdfCell (.obj [("batch".toList, .num (.fin 12)),
        ("roll_number".toList, .str "R7".toList)]) = some cell ∧
      cell.content.label? = some "B12".toList :=
  default_labels (.obj [("batch".toList, .num (.fin 12)), ("roll_number".toList, .str "R7".toList)])
    12 2 5 rfl rfl rfl rfl rfl (by decide) (by decide)

/-- Claim C14, the failing input. The seat of batch 3 without a batch label: the
cell of the chart that `renderSeat` builds is labelled `Batch 3`, not `B3`,
while the cell of the PDF document that `downloadPdfClientSide` builds for the
same seat is labelled `B3`. -/
theorem renderSeat_label_batch_3 :
    (renderSeat (.obj [("batch".toList, .num (.fin 3)), ("roll_number".toList, .str "R1".toList)])
      0 0).label? = some (.str "Batch 3".toList) ∧
    (renderSeat (.obj [("batch".toList, .num (.fin 3)), ("roll_number".toList, .str "R1".toList)])
      0 0).label? ≠ some (.str "B3".toList) ∧
    (pdfCell (.obj [("batch".toList, .num (.fin 3)),
      ("roll_number".toList, .str "R1".toList)])).map (fun cell => cell.content.label?) =
        some (some "B3".toList) := by
  refine ⟨rfl, ?_, rfl⟩
  intro h
  have h1 : (Json.str "Batch 3".toList) = .str "B3".toList := Option.some.inj h
  have h2 : "Batch 3".toList = "B3".toList := Json.str.inj h1
  exact absurd h2 (by decide)

/-- Claim C16. For an occupied seat whose `roll_number` reads as the text `roll`
and whose `paper_set` reads as the text `set` (a missing member reading as
the empty text), the identifier of the cell of the PDF document is `roll`
immediately followed by `set`. -/
theorem pdf_identifier (seat : Json) (roll set : JSString) (hobj : seat.isObject = true)
    (hbroken : truthy? (seat.field "is_broken".toList) = false)
    (hunallocated : truthy? (seat.field "is_unallocated".toList) = false)
    (hroll : IsTextMember (seat.field "roll_number".toList) roll)
    (hset : IsTextMember (seat.field "paper_set".toList) set) :
    ∃ cell, pdfCell seat = some cell ∧ cell.content.identifier? = some (roll ++ set) := by
  have key : ∀ (m : Option Json) (t : JSString), IsTextMember m t →
      (orElse m (.str [])).toJSString = t := by
    intro m t h
    rcases h with rfl | ⟨rfl, rfl | rfl⟩
    · cases t with
      | nil => rfl
      | cons c u => rfl
    · rfl
    · rfl
  refine ⟨_, pdfCell_of_isObject seat hobj, ?_⟩
  simp only [hbroken, hunallocated, Bool.false_eq_true, if_false, PdfCellContent.identifier?]
  rw [key _ _ hroll, key _ _ hset]

/-- Claim C16, witness. A seat without `paper_set` shows its roll number alone,
and a seat with both shows the paper set right after the roll number. -/
theorem pdf_identifier_witness :
    (∃ cell, pdfCell (.obj [("roll_number".toList, .str "BT1001".toList)]) = some cell ∧
      cell.content.identifier? = some "BT1001".toList) ∧
    (∃ cell, pdfCell (.obj [("roll_number".toList, .str "BT1001".toList),
        ("paper_set".toList, .str "A".toList)]) = some cell ∧
      cell.content.identifier? = some "BT1001A".toList) :=
  ⟨pdf_identifier (.obj [("roll_number".toList, .str "BT1001".toList)]) "BT1001".toList []
      rfl rfl rfl (Or.inl rfl) (Or.inr ⟨rfl, Or.inl rfl⟩),
   pdf_identifier (.obj [("roll_number".toList, .str "BT1001".toList),
        ("paper_set".toList, .str "A".toList)]) "BT1001".toList "A".toList
      rfl rfl rfl (Or.inl rfl) (Or.inl rfl)⟩

/-! ## The PDF downloads -/

theorem server_counts (host : Host) (env : PdfEnv) (p : PageState) :
    clientStarts (downloadPdfServerSide host env p) = 0 ∧
    serverStarts (downloadPdfServerSide host env p) = if p.webData.truthy then 1 else 0 := by
  unfold downloadPdfServerSide
  cases hw : p.webData.truthy
  · exact ⟨rfl, rfl⟩
  · simp only [Bool.not_true, Bool.false_eq_true, if_false, if_true]
    cases pdfServerFile host env.response with
    | error err => exact ⟨rfl, rfl⟩
    | ok size => exact ⟨rfl, rfl⟩

theorem client_counts (host : Host) (env : PdfEnv) (p : PageState) (hw : p.webData.truthy = true)
    (hh : env.html2pdf = true) :
    clientStarts (downloadPdfClientSide host env p) = 1 ∧
    serverStarts (downloadPdfClientSide host env p) = 0 := by
  unfold downloadPdfClientSide
  simp only [hw, hh, Bool.not_true, Bool.false_eq_true, if_false]
  cases pdfDocument host p with
  | none => exact ⟨rfl, rfl⟩
  | some document =>
    cases env.save with
    | saved => exact ⟨rfl, rfl⟩
    | failed err => exact ⟨rfl, rfl⟩

/-- Claim C17. With nothing stored, `downloadPdf` only alerts that there is no
seating data and starts neither generator. With a response stored it starts
exactly one generator, once. When `window.html2pdf` is there it is the
client-side one: the run is that of `downloadPdfClientSide`, it sends no
request to `/api/generate-pdf`, and it hands the document built from the
stored grid to `html2pdf` (once; not at all when building the document
throws). When `window.html2pdf` is not there it is the server-side one: after
the line that says so, the run posts the stored response to
`/api/generate-pdf` (once) and goes on as the answer tells, and `html2pdf` is
not called. -/
theorem downloadPdf_dispatch (host : Host) (env : PdfEnv) (p : PageState) :
    (p.webData.truthy = false →
      (downloadPdf host env p).effects = [.alert noSeatingData] ∧
      (downloadPdf host env p).state = p ∧
      clientStarts (downloadPdf host env p) = 0 ∧ serverStarts (downloadPdf host env p) = 0) ∧
    (p.webData.truthy = true →
      clientStarts (downloadPdf host env p) = (if env.html2pdf then 1 else 0) ∧
      serverStarts (downloadPdf host env p) = (if env.html2pdf then 0 else 1)) ∧
    (p.webData.truthy = true → env.html2pdf = true →
      downloadPdf host env p = downloadPdfClientSide host env p ∧
      pdfRequests (downloadPdf host env p) = 0 ∧
      html2pdfCalls (downloadPdf host env p) = (if (pdfDocument host p).isSome then 1 else 0) ∧
      (∀ document, pdfDocument host p = some document →
        (downloadPdf host env p).effects =
          [.console "📄 Generating PDF (Client-side with html2pdf)...".toList,
           .html2pdf document "seating_arrangement.pdf".toList] ++
          (match env.save with
           | .saved => [.console "✅ PDF generated successfully (client-side)".toList]
           | .failed _ =>
             [.console "❌ html2pdf error:".toList,
              .alert "Client-side PDF generation failed. Try server-side method.".toList])) ∧
      (pdfDocument host p = none →
        (downloadPdf host env p).effects =
          [.console "📄 Generating PDF (Client-side with html2pdf)...".toList])) ∧
    (p.webData.truthy = true → env.html2pdf = false →
      (downloadPdf host env p).effects =
        [.console "⚠️ html2pdf not available, using server-side generation".toList,
         .console "📄 Requesting server-side PDF...".toList,
         .fetch { url := "/api/generate-pdf".toList, method := "POST".toList,
                  headers := [("Content-Type".toList, "application/json".toList)],
                  body := p.webData }] ++
        (match pdfServerFile host env.response with
         | .error err =>
           [.console "❌ Server PDF Error:".toList,
            .alert ("Server-side PDF generation failed: ".toList ++ err.message)]
         | .ok size =>
           [.console ("✅ PDF received: ".toList ++ numberToString (.fin size) ++ " bytes".toList),
            .download ("seating_arrangement_".toList ++ numberToString host.time ++ ".pdf".toList),
            .console "✅ PDF downloaded successfully (server-side)".toList]) ∧
      pdfRequests (downloadPdf host env p) = 1 ∧
      html2pdfCalls (downloadPdf host env p) = 0) := by
  have hserver : p.webData.truthy = true → env.html2pdf = false →
      downloadPdf host env p =
        { state := (downloadPdfServerSide host env p).state,
          effects := Effect.console
            "⚠️ html2pdf not available, using server-side generation".toList ::
              (downloadPdfServerSide host env p).effects } := by
    intro hw hh
    unfold downloadPdf
    simp only [hw, hh, Bool.not_true, Bool.false_eq_true, if_false]
  have hclient : p.webData.truthy = true → env.html2pdf = true →
      downloadPdf host env p = downloadPdfClientSide host env p := by
    intro hw hh
    unfold downloadPdf
    simp only [hw, hh, Bool.not_true, Bool.false_eq_true, if_false, if_true]
  refine ⟨?_, ?_, ?_, ?_⟩
  · intro hw
    have e : downloadPdf host env p = { state := p, effects := [.alert noSeatingData] } := by
      unfold downloadPdf
      simp only [hw, Bool.not_false, if_true]
    rw [e]
    exact ⟨rfl, rfl, rfl, rfl⟩
  · intro hw
    cases hh : env.html2pdf
    · have hs := server_counts host env p
      rw [hw] at hs
      rw [hserver hw hh]
      constructor
      · have := hs.1
        unfold clientStarts at this ⊢
        rw [List.countP_cons, this]
        rfl
      · have := hs.2
        unfold serverStarts at this ⊢
        rw [List.countP_cons, this]
        rfl
    · rw [hclient hw hh]
      exact client_counts host env p hw hh
  · intro hw hh
    rw [hclient hw hh]
    refine ⟨rfl, ?_⟩
    unfold downloadPdfClientSide
    simp only [hw, hh, Bool.not_true, Bool.false_eq_true, if_false]
    cases hd : pdfDocument host p with
    | none =>
      refine ⟨rfl, rfl, ?_, fun _ => rfl⟩
      intro document h
      cases h
    | some document =>
      cases hs : env.save with
      | saved =>
        refine ⟨rfl, rfl, ?_, ?_⟩
        · intro d h; cases h; rfl
        · intro h; cases h
      | failed err =>
        refine ⟨rfl, rfl, ?_, ?_⟩
        · intro d h; cases h; rfl
        · intro h; cases h
  · intro hw hh
    rw [hserver hw hh]
    unfold downloadPdfServerSide
    simp only [hw, Bool.not_true, Bool.false_eq_true, if_false]
    cases pdfServerFile host env.response with
    | error err => exact ⟨rfl, rfl, rfl⟩
    | ok size => exact ⟨rfl, rfl, rfl⟩

/-- Claim C17, witness. A stored chart of one seat: with `html2pdf` loaded the
document is handed to `html2pdf` and no request is sent; without it the stored
response is posted to `/api/generate-pdf` and `html2pdf` is not called. -/
theorem downloadPdf_dispatch_witness :
    (pdfRequests (downloadPdf ⟨fun e => e, "now".toList, .fin 0⟩ ⟨true, .saved, .blob 10⟩
        { initialPage with webData := .obj [("seating".toList,
            .arr [.arr [.obj [("batch".toList, .num (.fin 1))]]])] }) = 0 ∧
      html2pdfCalls (downloadPdf ⟨fun e => e, "now".toList, .fin 0⟩ ⟨true, .saved, .blob 10⟩
        { initialPage with webData := .obj [("seating".toList,
            .arr [.arr [.obj [("batch".toList, .num (.fin 1))]]])] }) = 1) ∧
    (pdfRequests (downloadPdf ⟨fun e => e, "now".toList, .fin 0⟩ ⟨false, .saved, .blob 10⟩
        { initialPage with webData := .obj [("seating".toList,
            .arr [.arr [.obj [("batch".toList, .num (.fin 1))]]])] }) = 1 ∧
      html2pdfCalls (downloadPdf ⟨fun e => e, "now".toList, .fin 0⟩ ⟨false, .saved, .blob 10⟩
        { initialPage with webData := .obj [("seating".toList,
            .arr [.arr [.obj [("batch".toList, .num (.fin 1))]]])] }) = 0) :=
  ⟨⟨((downloadPdf_dispatch ⟨fun e => e, "now".toList, .fin 0⟩ ⟨true, .saved, .blob 10⟩
        { initialPage with webData := .obj [("seating".toList,
            .arr [.arr [.obj [("batch".toList, .num (.fin 1))]]])] }).2.2.1 rfl rfl).2.1,
     ((downloadPdf_dispatch ⟨fun e => e, "now".toList, .fin 0⟩ ⟨true, .saved, .blob 10⟩
        { initialPage with webData := .obj [("seating".toList,
            .arr [.arr [.obj [("batch".toList, .num (.fin 1))]]])] }).2.2.1 rfl rfl).2.2.1⟩,
   ((downloadPdf_dispatch ⟨fun e => e, "now".toList, .fin 0⟩ ⟨false, .saved, .blob 10⟩
        { initialPage with webData := .obj [("seating".toList,
            .arr [.arr [.obj [("batch".toList, .num (.fin 1))]]])] }).2.2.2 rfl rfl).2⟩

/-- Claim C18, the failing input. No method starts the other when it fails.
When the promise of `html2pdf` rejects, `downloadPdf` starts no server-side
request, whatever the page holds, and `downloadPdfServerSide` never starts the
client-side generator, whatever the server answers. For a stored chart of one
seat: the rejected promise ends in the alert that tells the user to try the
server-side method, and an empty file from the server ends in the alert of
the failure. -/
theorem pdf_failure_starts_no_other_method :
    (∀ (host : Host) (p : PageState) (err : JSError) (response : PdfResponse),
      p.webData.truthy = true →
      serverStarts (downloadPdf host ⟨true, .failed err, response⟩ p) = 0) ∧
    (∀ (host : Host) (env : PdfEnv) (p : PageState),
      clientStarts (downloadPdfServerSide host env p) = 0) ∧
    (∃ document,
      (downloadPdf ⟨fun e => e, "now".toList, .fin 0⟩
        ⟨true, .failed ⟨"Error".toList, "canvas".toList⟩, .blob 10⟩
        { initialPage with webData := .obj [("seating".toList,
            .arr [.arr [.obj [("batch".toList, .num (.fin 1))]]])] }).effects =
        [.console "📄 Generating PDF (Client-side with html2pdf)...".toList,
         .html2pdf document "seating_arrangement.pdf".toList,
         .console "❌ html2pdf error:".toList,
         .alert "Client-side PDF generation failed. Try server-side method.".toList]) ∧
    (∃ request,
      (downloadPdf ⟨fun e => e, "now".toList, .fin 0⟩ ⟨false, .saved, .blob 0⟩
        { initialPage with webData := .obj [("seating".toList,
            .arr [.arr [.obj [("batch".toList, .num (.fin 1))]]])] }).effects =
        [.console "⚠️ html2pdf not available, using server-side generation".toList,
         .console "📄 Requesting server-side PDF...".toList,
         .fetch request,
         .console "❌ Server PDF Error:".toList,
         .alert "Server-side PDF generation failed: PDF file is empty".toList]) := by
  refine ⟨?_, fun host env p => (server_counts host env p).1, ⟨_, rfl⟩, ⟨_, rfl⟩⟩
  intro host p err response hw
  have e : downloadPdf host ⟨true, .failed err, response⟩ p =
      downloadPdfClientSide host ⟨true, .failed err, response⟩ p := by
    unfold downloadPdf
    simp only [hw, Bool.not_true, Bool.false_eq_true, if_false, if_true]
  rw [e]
  exact (client_counts host _ p hw rfl).2

/-! ## The Batch Labels field -/

/-- A text is white space, its trim, and white space again. -/
theorem trim_decompose (s : JSString) :
    ∃ a b, isBlank a = true ∧ isBlank b = true ∧ s = a ++ trim s ++ b := by
  refine ⟨s.takeWhile isJSWhitespace,
    ((trimStart s).reverse.takeWhile isJSWhitespace).reverse, ?_, ?_, ?_⟩
  · unfold isBlank
    rw [List.all_eq_true]
    intro c hc
    exact List.mem_takeWhile_imp hc
  · unfold isBlank
    rw [List.all_eq_true]
    intro c hc
    exact List.mem_takeWhile_imp (List.mem_reverse.1 hc)
  · have h1 : s = s.takeWhile isJSWhitespace ++ trimStart s :=
      (List.takeWhile_append_dropWhile _ s).symm
    have h2 : trimStart s = trim s ++
        ((trimStart s).reverse.takeWhile isJSWhitespace).reverse := by
      unfold trim trimEnd
      rw [← List.reverse_append, List.takeWhile_append_dropWhile, List.reverse_reverse]
    rw [List.append_assoc, ← h2]
    exact h1

theorem trim_trim (s : JSString) : trim (trim s) = trim s := by
  obtain ⟨a, b, ha, hb, h⟩ := trim_decompose s
  have := trim_pad a (trim s) b ha hb
  rw [← h] at this
  exact this.symm

theorem trim_ne_nil_of_not_blank (s : JSString) (h : isBlank s = false) : trim s ≠ [] := by
  obtain ⟨a, b, ha, hb, e⟩ := trim_decompose s
  intro h0
  rw [h0, List.append_nil] at e
  have : isBlank s = true := by
    rw [e]
    unfold isBlank at ha hb ⊢
    rw [List.all_append, ha, hb]
    rfl
  rw [h] at this
  exact absurd this (by simp)

theorem mem_of_mem_trim (s : JSString) (c : Char) (h : c ∈ trim s) : c ∈ s := by
  obtain ⟨a, b, _, _, e⟩ := trim_decompose s
  rw [e]
  simp [h]

/-- What `parseKVPart` reads from `key : value` when the first separator is a
colon: the value may hold `=`. -/
theorem parseKVPart_colon (out : JSObj JSString) (k a b v : JSString)
    (hk : k ≠ []) (hkt : trim k = k) (hkc : ':' ∉ k) (ha : isBlank a = true)
    (hb : isBlank b = true) (hvc : ':' ∉ v) :
    parseKVPart out (k ++ a ++ ':' :: (b ++ v)) =
      out.assign (if (parseInt k 10).isNaN then k else numberToString (parseInt k 10)) (trim v) := by
  have hac : ':' ∉ a := not_mem_of_blank ha (by decide)
  have hbc : ':' ∉ b := not_mem_of_blank hb (by decide)
  have hleft : ':' ∉ k ++ a := by simp [*]
  have hright : ':' ∉ b ++ v := by simp [*]
  have hsplit : splitLimit (k ++ a ++ ':' :: (b ++ v)) ':' 2 = [k ++ a, b ++ v] := by
    unfold splitLimit
    rw [split_append ':' _ _ hleft, split_not_mem ':' _ hright]
    rfl
  have htk : trim (k ++ a) = k := by
    have := trim_pad [] k a rfl ha
    rw [List.nil_append] at this
    rw [this, hkt]
  have htv : trim (b ++ v) = trim v := by
    have := trim_pad b v [] hb rfl
    rwa [List.append_nil] at this
  have hchoice : (if includes (k ++ a ++ ':' :: (b ++ v)) ':' = true then some ':'
      else if includes (k ++ a ++ ':' :: (b ++ v)) '=' = true then some '=' else none) =
        some ':' := by
    rw [if_pos ((includes_iff _ _).2 (by simp))]
  unfold parseKVPart
  dsimp only
  rw [hchoice]
  dsimp only
  rw [hsplit]
  simp only [List.map_cons, List.map_nil, htk, htv]
  have : k.isEmpty = false := by
    cases k with
    | nil => exact absurd rfl hk
    | cons c t => rfl
  rw [this]
  simp

theorem assign_empty (k v : JSString) (hk : k ≠ "__proto__".toList) :
    JSObj.assign ([] : JSObj JSString) k v = [(k, v)] := by
  unfold JSObj.assign
  rw [if_neg hk]
  unfold JSObj.define
  cases h : arrayIndex k with
  | none => simp [JSObj.has, h]
  | some n => simp [JSObj.has, h, JSObj.insertIndex]

/-- What `parseKVList` reads from the single entry `key:label`. -/
theorem parseKVList_label (k : DecimalLiteral) (label : JSString) (hk : k.digits ≠ [])
    (hsafe : k.value.natAbs ≤ 2 ^ 53) (hlabel : isBlank label = false)
    (hcomma : ',' ∉ label) (hcolon : ':' ∉ label) :
    parseKVList (k.text ++ ':' :: label) = [(intToDecimal k.value, trim label)] := by
  obtain ⟨a, b, ha, hb, e⟩ := trim_decompose label
  have hv : trim label ≠ [] := trim_ne_nil_of_not_blank label hlabel
  have htrim : trim (k.text ++ ':' :: label) = k.text ++ [] ++ ':' :: (a ++ trim label) := by
    have := trim_padded_entry [] k.text [] a (trim label) b ':' rfl hb (k.text_ne_nil hk)
      k.trim_text hv (trim_trim label)
    rw [← this]
    congr 1
    rw [List.nil_append, List.append_nil]
    congr 2
  have hpart : ∀ out, parseKVPart out (trim (k.text ++ ':' :: label)) =
      out.assign (intToDecimal k.value) (trim label) := by
    intro out
    rw [htrim, parseKVPart_colon out k.text [] a (trim label) (k.text_ne_nil hk) k.trim_text
      (k.text_not_mem ':' (by decide) (by decide) (by decide)) rfl ha
      (fun h => hcolon (mem_of_mem_trim label ':' h)),
      k.parseInt_text_exact hk 10 (Or.inr rfl) hsafe, numberToString_int _ hsafe, trim_trim]
    rfl
  have hc : ',' ∉ k.text ++ ':' :: label := by
    have := k.text_not_mem ',' (by decide) (by decide) (by decide)
    simp [this, hcomma]
  have hne : trim (k.text ++ ':' :: label) ≠ [] := by
    rw [htrim]
    intro h0
    have := congrArg List.length h0
    simp at this
  have := parseKVList_join (fun (_ : Unit) => k.text ++ ':' :: label)
    (fun _ => intToDecimal k.value) (fun _ => trim label) [()] (by simp)
    (fun _ _ => hc) (fun _ _ => hne) (fun _ _ => hpart)
  simp only [List.map_cons, List.map_nil, join, List.foldl_cons, List.foldl_nil] at this
  rw [this]
  exact assign_empty _ _ (intToDecimal_ne_proto _)

/-- What `parseKVList` reads from a list of well-formed entries with distinct
integer keys: one property for each entry, named by the numeral of its key. -/
theorem parseKVList_entries_perm (es : List KVEntry) (hwf : ∀ e ∈ es, e.WellFormed)
    (hsafe : ∀ e ∈ es, e.key.value.natAbs ≤ 2 ^ 53)
    (hnd : (es.map (fun e => e.key.value)).Nodup) :
    (parseKVList (join ',' (es.map KVEntry.text))).Perm
      (es.map (fun e => (intToDecimal e.key.value, e.value))) := by
  by_cases hes : es = []
  · subst hes; exact List.Perm.refl _
  · rw [parseKVList_join KVEntry.text (fun e => intToDecimal e.key.value) (fun e => e.value)
      es hes (fun e he => e.comma_not_mem (hwf e he))
      (fun e he => by
        rw [e.trim_entry_text (hwf e he)]
        intro h0
        have := congrArg List.length h0
        simp at this)
      (fun e he out => e.parseKVPart_trim_text (hwf e he) (hsafe e he) out)]
    have := JSObj.foldl_assign_perm (fun e : KVEntry => intToDecimal e.key.value)
      (fun e => e.value) es [] (fun e _ => intToDecimal_ne_proto _)
      (by
        have := hnd.map (f := intToDecimal) (fun a b h => intToDecimal_injective h)
        simpa [List.map_map] using this)
      (fun e _ => by simp [JSObj.keys])
    simpa using this

/-- Claim C15, as amended. For every integer batch index `i` of magnitude at
most `2^53`, however it is written in decimal, and every label text `L` that
is not blank and holds neither a comma nor a colon, the single entry `i:L` in
the Batch Labels field makes `payload.batch_labels` the object with the one
property `i`, whose value is `L` with the white space around it removed. -/
theorem batch_labels_entry (s : FormState) (k : DecimalLiteral) (label : JSString)
    (hk : k.digits ≠ []) (hsafe : k.value.natAbs ≤ 2 ^ 53) (hlabel : isBlank label = false)
    (hcomma : ',' ∉ label) (hcolon : ':' ∉ label)
    (hinput : s.batchLabelsInput = k.text ++ ':' :: label) :
    (buildPayload s).batch_labels = some [(intToDecimal k.value, trim label)] := by
  show (if (JSObj.keys (parseKVList s.batchLabelsInput)).length = 0 then none
    else some (parseKVList s.batchLabelsInput)) = _
  rw [hinput, parseKVList_label k label hk hsafe hlabel hcomma hcolon]
  rfl

/-- Claim C15, witness. The entry `2: CSE=A ` labels batch 2 `CSE=A`. -/
theorem batch_labels_entry_witness :
    (buildPayload { initialState with batchLabelsInput := "2: CSE=A ".toList }).batch_labels =
      some [("2".toList, "CSE=A".toList)] :=
  batch_labels_entry { initialState with batchLabelsInput := "2: CSE=A ".toList }
    ⟨.none, [2]⟩ " CSE=A ".toList (by decide) (by decide) (by decide) (by decide) (by decide) rfl

/-- Claim C15, counterexample. A label with a comma or a colon in it is cut at
that character: `1:CSE, AI` labels batch 1 `CSE` and `1:A:B` labels it `A`; and
the index `9007199254740993` (`2^53 + 1`) is stored as `9007199254740992`. -/
theorem batch_labels_label_cut :
    (buildPayload { initialState with batchLabelsInput := "1:CSE, AI".toList }).batch_labels =
      some [("1".toList, "CSE".toList)] ∧
    (buildPayload { initialState with batchLabelsInput := "1:CSE, AI".toList }).batch_labels ≠
      some [("1".toList, trim "CSE, AI".toList)] ∧
    (buildPayload { initialState with batchLabelsInput := "1:A:B".toList }).batch_labels =
      some [("1".toList, "A".toList)] ∧
    (buildPayload { initialState with batchLabelsInput := "1:A:B".toList }).batch_labels ≠
      some [("1".toList, trim "A:B".toList)] ∧
    (buildPayload
      { initialState with batchLabelsInput := "9007199254740993:X".toList }).batch_labels =
      some [("9007199254740992".toList, "X".toList)] := by
  refine ⟨by decide, by decide, by decide, by decide, by decide⟩

/-- Claim C19, as amended. The keys of `batch_labels` are the indices typed in
the Batch Labels field, and `num_batches` has no part in them: for a list of
well-formed entries with distinct integer keys of magnitude at most `2^53`,
the keys of `batch_labels` are the numerals of the typed indices, so every
key is an integer within `1..num_batches` exactly when every typed index is. -/
theorem batch_labels_keys (s : FormState) (es : List KVEntry) (n : Int) (hes : es ≠ [])
    (hwf : ∀ e ∈ es, e.WellFormed) (hsafe : ∀ e ∈ es, e.key.value.natAbs ≤ 2 ^ 53)
    (hnd : (es.map (fun e => e.key.value)).Nodup)
    (hinput : s.batchLabelsInput = join ',' (es.map KVEntry.text))
    (hn : s.numBatches = .fin n) :
    (buildPayload s).num_batches = .fin n ∧
    ∃ labels, (buildPayload s).batch_labels = some labels ∧
      (∀ key, key ∈ JSObj.keys labels ↔ ∃ e ∈ es, key = intToDecimal e.key.value) ∧
      ((∀ key ∈ JSObj.keys labels, ∃ i : Int, key = intToDecimal i ∧ 1 ≤ i ∧ i ≤ n) ↔
        ∀ e ∈ es, 1 ≤ e.key.value ∧ e.key.value ≤ n) := by
  have hperm := parseKVList_entries_perm es hwf hsafe hnd
  have hkeys : ∀ key, key ∈ JSObj.keys (parseKVList (join ',' (es.map KVEntry.text))) ↔
      ∃ e ∈ es, key = intToDecimal e.key.value := by
    intro key
    unfold JSObj.keys
    rw [(hperm.map _).mem_iff]
    simp only [List.map_map, List.mem_map, Function.comp]
    constructor
    · rintro ⟨e, he, rfl⟩; exact ⟨e, he, rfl⟩
    · rintro ⟨e, he, rfl⟩; exact ⟨e, he, rfl⟩
  have hlen : (JSObj.keys (parseKVList (join ',' (es.map KVEntry.text)))).length ≠ 0 := by
    obtain ⟨e, t, rfl⟩ : ∃ e t, es = e :: t := by
      cases es with
      | nil => exact absurd rfl hes
      | cons e t => exact ⟨e, t, rfl⟩
    have hm := (hkeys (intToDecimal e.key.value)).2 ⟨e, by simp, rfl⟩
    intro h0
    rw [List.length_eq_zero] at h0
    rw [h0] at hm
    simp at hm
  refine ⟨hn, parseKVList (join ',' (es.map KVEntry.text)), ?_, hkeys, ?_⟩
  · show (if (JSObj.keys (parseKVList s.batchLabelsInput)).length = 0 then none
      else some (parseKVList s.batchLabelsInput)) = _
    rw [hinput, if_neg hlen]
  · constructor
    · intro h e he
      obtain ⟨i, hi, h1, h2⟩ := h _ ((hkeys _).2 ⟨e, he, rfl⟩)
      have := intToDecimal_injective hi
      rw [this]
      exact ⟨h1, h2⟩
    · intro h key hkey
      obtain ⟨e, he, rfl⟩ := (hkeys key).1 hkey
      exact ⟨_, rfl, h e he⟩

/-- Claim C19, witness. With three batches, the entries `1:A` and `7 = X`: the
keys are `1` and `7`, and they are not all within `1..3`. -/
theorem batch_labels_keys_witness :
    (buildPayload { initialState with batchLabelsInput := "1:A,7 = X".toList }).num_batches =
      .fin 3 ∧
    ∃ labels, (buildPayload
        { initialState with batchLabelsInput := "1:A,7 = X".toList }).batch_labels = some labels ∧
      (∀ key, key ∈ JSObj.keys labels ↔
        ∃ e ∈ [(⟨[], ⟨.none, [1]⟩, [], false, [], ['A'], []⟩ : KVEntry),
          ⟨[], ⟨.none, [7]⟩, [' '], true, [' '], ['X'], []⟩], key = intToDecimal e.key.value) ∧
      ((∀ key ∈ JSObj.keys labels, ∃ i : Int, key = intToDecimal i ∧ 1 ≤ i ∧ i ≤ 3) ↔
        ∀ e ∈ [(⟨[], ⟨.none, [1]⟩, [], false, [], ['A'], []⟩ : KVEntry),
          ⟨[], ⟨.none, [7]⟩, [' '], true, [' '], ['X'], []⟩],
          1 ≤ e.key.value ∧ e.key.value ≤ 3) :=
  batch_labels_keys { initialState with batchLabelsInput := "1:A,7 = X".toList }
    [⟨[], ⟨.none, [1]⟩, [], false, [], ['A'], []⟩,
      ⟨[], ⟨.none, [7]⟩, [' '], true, [' '], ['X'], []⟩] 3 (by simp)
    (by
      intro e he
      simp only [List.mem_cons, List.mem_singleton, List.not_mem_nil, or_false] at he
      rcases he with rfl | rfl <;>
        exact ⟨by decide, by decide, by decide, by decide, by decide, by decide, by decide,
          by decide, by decide, by decide⟩)
    (by
      intro e he
      simp only [List.mem_cons, List.mem_singleton, List.not_mem_nil, or_false] at he
      rcases he with rfl | rfl <;> decide)
    (by decide) rfl rfl

/-- Claim C19, counterexample. With `numBatches = 3` and the Batch Labels text
`7:X`, the payload has `num_batches = 3` and `batch_labels` has the key `7`;
with the text `abc:Y` it has the key `abc`, which is no integer. -/
theorem batch_labels_key_outside_range :
    (buildPayload { initialState with batchLabelsInput := "7:X".toList }).num_batches = .fin 3 ∧
    (buildPayload { initialState with batchLabelsInput := "7:X".toList }).batch_labels =
      some [("7".toList, "X".toList)] ∧
    (buildPayload { initialState with batchLabelsInput := "abc:Y".toList }).batch_labels =
      some [("abc".toList, "Y".toList)] := by
  refine ⟨rfl, by decide, by decide⟩

/-! ## The notice above the chart -/

theorem truthy_of_field (v : Json) (name : JSString) (x : Json) (h : v.field name = some x) :
    v.truthy = true := by
  cases v with
  | obj members => rfl
  | _ => cases h

/-- The notice computed for a stored response whose `is_valid`, where there is
one, is a boolean: `All constraints satisfied` exactly when the response has a
`validation` object whose `is_valid` is `true`, `Violations detected` in every
other case; and it is the notice of the chart section whenever that section
shows the chart. -/
theorem chartNotice_of_validation (w : Json)
    (htyped : ∀ v x, w.field "validation".toList = some v →
      v.field "is_valid".toList = some x → ∃ b, x = .bool b) :
    (chartNotice w = .allSatisfied ↔
      ∃ v, w.field "validation".toList = some v ∧ v.field "is_valid".toList = some (.bool true)) ∧
    (chartNotice w = .violations ↔
      ¬ ∃ v, w.field "validation".toList = some v ∧
        v.field "is_valid".toList = some (.bool true)) ∧
    (w.field "validation".toList = none → chartNotice w = .violations) ∧
    (∀ (p : PageState) (view : ChartView), p.webData = w →
      renderChartSection p = some (.chart view) → view.notice = chartNotice w) := by
  have hcases : ∀ n : Notice, n = .allSatisfied ∨ n = .violations := by
    intro n; cases n <;> simp
  have h1 : chartNotice w = .allSatisfied ↔
      ∃ v, w.field "validation".toList = some v ∧
        v.field "is_valid".toList = some (.bool true) := by
    unfold chartNotice
    cases hf : w.field "validation".toList with
    | none =>
      constructor
      · intro h; cases h
      · rintro ⟨v, hv, _⟩; cases hv
    | some v =>
      show (if (v.truthy && truthy? (v.field "is_valid".toList)) = true then Notice.allSatisfied
        else Notice.violations) = Notice.allSatisfied ↔ _
      cases hx : v.field "is_valid".toList with
      | none =>
        have hb : (v.truthy && truthy? none) = false := by cases v.truthy <;> rfl
        rw [hb, if_neg (by decide)]
        constructor
        · intro h; cases h
        · rintro ⟨u, hu, h⟩
          cases hu
          rw [hx] at h
          cases h
      | some x =>
        obtain ⟨b, rfl⟩ := htyped v x hf hx
        have hb : (v.truthy && truthy? (some (Json.bool b))) = b := by
          rw [truthy_of_field v _ _ hx]; rfl
        rw [hb]
        cases b
        · rw [if_neg (by decide)]
          constructor
          · intro h; cases h
          · rintro ⟨u, hu, h⟩
            cases hu
            rw [hx] at h
            have h2 : Json.bool false = Json.bool true := Option.some.inj h
            exact absurd (Json.bool.inj h2) (by decide)
        · rw [if_pos rfl]
          exact ⟨fun _ => ⟨v, rfl, hx⟩, fun _ => rfl⟩
  refine ⟨h1, ?_, ?_, ?_⟩
  · rw [← h1]
    rcases hcases (chartNotice w) with h | h <;> simp [h]
  · intro hf
    unfold chartNotice
    rw [hf]
  · intro p view hp hr
    subst hp
    unfold renderChartSection at hr
    by_cases ht : p.webData.truthy = true
    · simp only [ht, Bool.not_true, Bool.false_eq_true, if_false] at hr
      cases hrows : chartRows (p.webData.field "seating".toList) with
      | none => rw [hrows] at hr; cases hr
      | some rows =>
        rw [hrows] at hr
        dsimp only at hr
        split at hr
        · injection hr with hr
          injection hr with hr
          rw [← hr]
        · cases hr
    · have hf : p.webData.truthy = false := by simpa using ht
      simp only [hf, Bool.not_false, if_true] at hr
      injection hr with hr
      cases hr

/-! ## The background of a seat -/

/-- Claim C21, as amended. An occupied seat that carries no colour is rendered
white, whatever its batch: the cell of the chart has the background `#ffffff`
and the cell of the PDF document the background `#fff`; neither is an entry of
the palette `defaultColors`, which is not read. -/
theorem default_background (seat : Json) (r c : Nat) (hobj : seat.isObject = true)
    (hbroken : truthy? (seat.field "is_broken".toList) = false)
    (hunallocated : truthy? (seat.field "is_unallocated".toList) = false)
    (hcolor : truthy? (seat.field "color".toList) = false) :
    (renderSeat seat r c).background? = some (.str "#ffffff".toList) ∧
    (∃ cell, pdfCell seat = some cell ∧ cell.background = .str "#fff".toList) ∧
    "#ffffff".toList ∉ defaultColors ∧ "#fff".toList ∉ defaultColors := by
  refine ⟨?_, ⟨_, pdfCell_of_isObject seat hobj, ?_⟩, by decide, by decide⟩
  · unfold renderSeat
    simp only [truthy_of_isObject seat hobj, hbroken, hunallocated, Bool.not_true,
      Bool.false_eq_true, if_false]
    rw [orElse_of_falsy _ _ hcolor]
    rfl
  · exact orElse_of_falsy _ _ hcolor

/-- Claim C21, witness. A seat of batch 4 without colour. -/
theorem default_background_witness :
    (renderSeat (.obj [("batch".toList, .num (.fin 4)), ("roll_number".toList, .str "R9".toList)])
      1 2).background? = some (.str "#ffffff".toList) ∧
    (∃ cell, pdfCell (.obj [("batch".toList, .num (.fin 4)),
        ("roll_number".toList, .str "R9".toList)]) = some cell ∧
      cell.background = .str "#fff".toList) ∧
    "#ffffff".toList ∉ defaultColors ∧ "#fff".toList ∉ defaultColors :=
  default_background (.obj [("batch".toList, .num (.fin 4)),
    ("roll_number".toList, .str "R9".toList)]) 1 2 rfl rfl rfl rfl

/-- Claim C21, counterexample. The seat of batch 1 without colour: the entry of
the palette at index `(1 - 1) mod 10` is `bg-sky-100`, and the background of
the cell is `#ffffff` on the chart and `#fff` in the PDF document. -/
theorem background_not_from_palette :
    defaultColors.length = 10 ∧
    defaultColors.get? ((1 - 1) % 10) = some "bg-sky-100".toList ∧
    (renderSeat (.obj [("batch".toList, .num (.fin 1)), ("roll_number".toList, .str "R1".toList)])
      0 0).background? = some (.str "#ffffff".toList) ∧
    (renderSeat (.obj [("batch".toList, .num (.fin 1)), ("roll_number".toList, .str "R1".toList)])
      0 0).background? ≠ some (.str "bg-sky-100".toList) ∧
    (pdfCell (.obj [("batch".toList, .num (.fin 1)),
      ("roll_number".toList, .str "R1".toList)])).map (fun cell => cell.background.toJSString) =
        some "#fff".toList := by
  refine ⟨rfl, rfl, rfl, ?_, rfl⟩
  intro h
  have h1 : (Json.str "#ffffff".toList) = .str "bg-sky-100".toList := Option.some.inj h
  exact absurd (Json.str.inj h1) (by decide)

/-! ## The members of the payload that no control changes -/

theorem handle_serial (s s' : FormState) (e : Event) (h : handle s e = some s') :
    s'.serialMode = s.serialMode ∧ s'.serialWidth = s.serialWidth ∧
    s'.batchRollNumbers = s.batchRollNumbers := by
  cases e with
  | startRoll idx t =>
    have h2 : (if 1 ≤ idx ∧ idx ≤ startRollInputs s.numBatches then
        some (onStartRollChange idx t s) else none) = some s' := h
    by_cases hc : 1 ≤ idx ∧ idx ≤ startRollInputs s.numBatches
    · rw [if_pos hc] at h2; cases h2; exact ⟨rfl, rfl, rfl⟩
    · rw [if_neg hc] at h2; cases h2
  | _ => cases h; exact ⟨rfl, rfl, rfl⟩

theorem runSync_serial (s s' : FormState) (h : runSync s = some s') :
    s'.serialMode = s.serialMode ∧ s'.serialWidth = s.serialWidth ∧
    s'.batchRollNumbers = s.batchRollNumbers := by
  unfold runSync at h
  cases hm : syncStartRolls s.numBatches s.batchStartRolls with
  | none => rw [hm] at h; cases h
  | some m => rw [hm] at h; cases h; exact ⟨rfl, rfl, rfl⟩

theorem step_serial (s s' : FormState) (e : Event) (h : step s e = some s') :
    s'.serialMode = s.serialMode ∧ s'.serialWidth = s.serialWidth ∧
    s'.batchRollNumbers = s.batchRollNumbers := by
  unfold step at h
  cases hh : handle s e with
  | none => rw [hh] at h; cases h
  | some t =>
    rw [hh] at h
    dsimp only at h
    have ht := handle_serial s t e hh
    split at h
    · cases h; exact ht
    · have hr := runSync_serial t s' h
      exact ⟨hr.1.trans ht.1, hr.2.1.trans ht.2.1, hr.2.2.trans ht.2.2⟩

/-- Claim C25. In every state of the form reachable from the initial state, the
serial mode is `per_batch`, the serial width is `0` and there are no
roll-number lists, as at the start: no handler and no effect writes them. So
every payload has `serial_mode = "per_batch"`, `serial_width = 0` and no
`batch_roll_numbers` member. -/
theorem serial_members_fixed (s : FormState) (h : Reachable s) :
    s.serialMode = "per_batch".toList ∧ s.serialWidth = some (.fin 0) ∧
    s.batchRollNumbers = [] ∧
    (buildPayload s).serial_mode = "per_batch".toList ∧
    (buildPayload s).serial_width = .fin 0 ∧
    (buildPayload s).batch_roll_numbers = none := by
  have hs : s.serialMode = "per_batch".toList ∧ s.serialWidth = some (.fin 0) ∧
      s.batchRollNumbers = [] := by
    induction h with
    | init => exact ⟨rfl, rfl, rfl⟩
    | sync _ hr ih =>
      have := runSync_serial _ _ hr
      exact ⟨this.1.trans ih.1, this.2.1.trans ih.2.1, this.2.2.trans ih.2.2⟩
    | step e _ hr ih =>
      have := step_serial _ _ e hr
      exact ⟨this.1.trans ih.1, this.2.1.trans ih.2.1, this.2.2.trans ih.2.2⟩
  refine ⟨hs.1, hs.2.1, hs.2.2, hs.1, ?_, ?_⟩
  · show serialWidthOrZero s.serialWidth = _
    rw [hs.2.1]; rfl
  · show (if (JSObj.keys s.batchRollNumbers).length = 0 then none
      else some s.batchRollNumbers) = none
    rw [hs.2.2]; rfl

/-- Claim C25, witness. The state after the Batch Labels field was filled and
Rows was set to 12. -/
theorem serial_members_fixed_witness :
    (buildPayload (onRowsChange "12".toList
      { initialState with batchLabelsInput := "1:A".toList })).serial_mode = "per_batch".toList ∧
    (buildPayload (onRowsChange "12".toList
      { initialState with batchLabelsInput := "1:A".toList })).serial_width = .fin 0 ∧
    (buildPayload (onRowsChange "12".toList
      { initialState with batchLabelsInput := "1:A".toList })).batch_roll_numbers = none :=
  (serial_members_fixed (onRowsChange "12".toList
      { initialState with batchLabelsInput := "1:A".toList })
    (Reachable.step (.rows "12".toList)
      (Reachable.step (.batchLabels "1:A".toList) Reachable.init rfl) rfl)).2.2.2

/-! ## The flag `pdfLoading` -/

theorem server_pdfLoading (host : Host) (env : PdfEnv) (p : PageState) :
    (p.webData.truthy = true → (downloadPdfServerSide host env p).state.pdfLoading = false) ∧
    (p.webData.truthy = false → (downloadPdfServerSide host env p).state = p) := by
  unfold downloadPdfServerSide
  cases hw : p.webData.truthy
  · exact ⟨fun h => Bool.noConfusion h, fun _ => rfl⟩
  · exact ⟨fun _ => rfl, fun h => Bool.noConfusion h⟩

theorem client_pdfLoading (host : Host) (env : PdfEnv) (p : PageState)
    (hw : p.webData.truthy = true) (hh : env.html2pdf = true) :
    (downloadPdfClientSide host env p).state.pdfLoading = (pdfDocument host p).isNone := by
  unfold downloadPdfClientSide
  simp only [hw, hh, Bool.not_true, Bool.false_eq_true, if_false]
  cases pdfDocument host p with
  | none => rfl
  | some document => rfl

/-- Claim C26, the failing input. With a stored response whose grid holds a
`null` cell, or which has no `seating` array, and `html2pdf` loaded,
`downloadPdfClientSide` sets `pdfLoading` to `true` and throws while it builds
the document: `pdfLoading` is `true` when the call has finished. In general
the client-side call ends with `pdfLoading = true` exactly when the document
cannot be built; `downloadPdfServerSide` always ends with `pdfLoading = false`,
and both leave the state as it is when nothing is stored. -/
theorem pdfLoading_left_true :
    (∀ (host : Host) (save : SaveResult) (response : PdfResponse),
      (downloadPdfClientSide host ⟨true, save, response⟩
        { initialPage with webData := .obj [("seating".toList, .arr [.arr [.null]])] }
        ).state.pdfLoading = true ∧
      (downloadPdfClientSide host ⟨true, save, response⟩
        { initialPage with webData := .obj [] }).state.pdfLoading = true) ∧
    (renderSeat .null 0 0).status = none ∧
    (∀ (host : Host) (env : PdfEnv) (p : PageState), p.webData.truthy = true →
      env.html2pdf = true →
      (downloadPdfClientSide host env p).state.pdfLoading = (pdfDocument host p).isNone) ∧
    (∀ (host : Host) (env : PdfEnv) (p : PageState), p.webData.truthy = true →
      (downloadPdfServerSide host env p).state.pdfLoading = false) ∧
    (∀ (host : Host) (env : PdfEnv) (p : PageState), p.webData.truthy = false →
      (downloadPdfServerSide host env p).state = p ∧
      (downloadPdfClientSide host env p).state = p) := by
  refine ⟨fun host save response => ⟨rfl, rfl⟩, rfl, client_pdfLoading,
    fun host env p hw => (server_pdfLoading host env p).1 hw, ?_⟩
  intro host env p hw
  refine ⟨(server_pdfLoading host env p).2 hw, ?_⟩
  unfold downloadPdfClientSide
  simp only [hw, Bool.not_false, if_true]

/-! ## How `parseKVList` reads an entry -/

theorem beforeFirst_not_mem (sep : Char) (s : JSString) : sep ∉ beforeFirst sep s := by
  intro h
  have := List.mem_takeWhile_imp h
  simp at this

theorem beforeFirst_of_not_mem (sep : Char) (s : JSString) (h : sep ∉ s) :
    beforeFirst sep s = s := by
  unfold beforeFirst
  rw [List.takeWhile_eq_self_iff]
  intro c hc
  have : c ≠ sep := fun e => h (e ▸ hc)
  simpa using this

theorem eq_before_sep_after (sep : Char) (s : JSString) (h : sep ∈ s) :
    s = beforeFirst sep s ++ sep :: afterFirst sep s := by
  unfold beforeFirst afterFirst
  induction s with
  | nil => simp at h
  | cons c t ih =>
    by_cases hc : c = sep
    · subst hc
      simp [List.takeWhile, List.dropWhile]
    · have ht : sep ∈ t := by
        rcases List.mem_cons.1 h with e | e
        · exact absurd e.symm hc
        · exact e
      have hb : (c != sep) = true := by simpa using hc
      simp only [List.takeWhile, List.dropWhile, hb, List.cons_append]
      rw [← ih ht]

theorem split_eq_cons (sep : Char) (s : JSString) :
    split s sep = beforeFirst sep s ::
      (if sep ∈ s then split (afterFirst sep s) sep else []) := by
  by_cases h : sep ∈ s
  · rw [if_pos h]
    have e := eq_before_sep_after sep s h
    have := split_append sep (beforeFirst sep s) (afterFirst sep s) (beforeFirst_not_mem sep s)
    rw [← e] at this
    exact this
  · rw [if_neg h, split_not_mem sep s h, beforeFirst_of_not_mem sep s h]

theorem splitLimit_two (sep : Char) (s : JSString) (h : sep ∈ s) :
    splitLimit s sep 2 = [beforeFirst sep s, beforeFirst sep (afterFirst sep s)] := by
  unfold splitLimit
  rw [split_eq_cons sep s, if_pos h, split_eq_cons sep (afterFirst sep s)]
  rfl

theorem parseKVPart_of_sep (out : JSObj JSString) (part : JSString) (sep : Char)
    (hin : sep ∈ part)
    (hsep : (if includes part ':' = true then some ':'
      else if includes part '=' = true then some '=' else none) = some sep) :
    parseKVPart out part =
      if trim (beforeFirst sep part) = [] then out
      else out.assign (propertyName (trim (beforeFirst sep part)))
        (trim (beforeFirst sep (afterFirst sep part))) := by
  unfold parseKVPart
  dsimp only
  rw [hsep]
  dsimp only
  rw [splitLimit_two sep part hin]
  simp only [List.map_cons, List.map_nil]
  cases hk : trim (beforeFirst sep part) with
  | nil => rfl
  | cons c t =>
    rw [if_neg (by simp)]
    rfl

theorem parseKVPart_no_sep (out : JSObj JSString) (part : JSString) (hc : ':' ∉ part)
    (he : '=' ∉ part) : parseKVPart out part = out := by
  unfold parseKVPart
  dsimp only
  rw [if_neg (by rw [includes_iff]; exact hc), if_neg (by rw [includes_iff]; exact he)]

/-- The loop body of `parseKVList` stores the pair an entry is read as. -/
theorem parseKVPart_eq_readEntry (out : JSObj JSString) (part : JSString) :
    parseKVPart out part =
      match readEntry part with
      | none => out
      | some e => out.assign e.1 e.2 := by
  unfold readEntry
  by_cases hc : ':' ∈ part
  · rw [parseKVPart_of_sep out part ':' hc (by rw [if_pos ((includes_iff _ _).2 hc)])]
    simp only [hc, if_true]
    by_cases hk : trim (beforeFirst ':' part) = []
    · simp only [hk, if_true]
    · simp only [hk, if_false]
  · by_cases he : '=' ∈ part
    · rw [parseKVPart_of_sep out part '=' he (by
        rw [if_neg (by rw [includes_iff]; exact hc), if_pos ((includes_iff _ _).2 he)])]
      simp only [hc, he, if_true, if_false]
      by_cases hk : trim (beforeFirst '=' part) = []
      · simp only [hk, if_true]
      · simp only [hk, if_false]
    · rw [parseKVPart_no_sep out part hc he]
      simp only [hc, he, if_false]

theorem kvEntries_nil : kvEntries [] = [] := by decide

theorem parseKVList_eq_foldl (str : JSString) :
    parseKVList str = (kvEntries str).foldl parseKVPart [] := by
  unfold parseKVList
  cases str with
  | nil => rfl
  | cons c t => rfl

/-- Claim C22. An entry with a colon is split at the colon, also when it holds an
equals sign, before or after the colon; an entry without colon is split at
the equals sign. The key is the trimmed text before the first separator and
the value the trimmed text between the first and the second separator, or up
to the end; what follows a second separator is dropped. The value is stored
under the name the key is read as, and an entry with an empty key or without
separator leaves the object as it is. The entries of `parseKVList` are the
non-empty trimmed pieces between commas, read one after the other. -/
theorem parseKVPart_split (out : JSObj JSString) (part : JSString) :
    (':' ∈ part → parseKVPart out part =
      if trim (beforeFirst ':' part) = [] then out
      else out.assign (propertyName (trim (beforeFirst ':' part)))
        (trim (beforeFirst ':' (afterFirst ':' part)))) ∧
    (':' ∉ part → '=' ∈ part → parseKVPart out part =
      if trim (beforeFirst '=' part) = [] then out
      else out.assign (propertyName (trim (beforeFirst '=' part)))
        (trim (beforeFirst '=' (afterFirst '=' part)))) ∧
    (':' ∉ part → '=' ∉ part → parseKVPart out part = out) ∧
    (∀ str, parseKVList str = (kvEntries str).foldl parseKVPart []) ∧
    parseKVList "a=1 : b=2 : c".toList = [("a=1".toList, "b=2".toList)] ∧
    parseKVList "3=x=y, :z, w".toList = [("3".toList, "x".toList)] := by
  refine ⟨?_, ?_, parseKVPart_no_sep out part, parseKVList_eq_foldl, by decide, by decide⟩
  · intro hc
    exact parseKVPart_of_sep out part ':' hc (by rw [if_pos ((includes_iff _ _).2 hc)])
  · intro hc he
    exact parseKVPart_of_sep out part '=' he (by
      rw [if_neg (by rw [includes_iff]; exact hc), if_pos ((includes_iff _ _).2 he)])

/-! ## Entries with the same key -/

namespace JSObj

variable {α : Type}

theorem has_cons_eq (e : JSString × α) (o : JSObj α) (k : JSString) :
    has (e :: o) k = (e.1 == k || has o k) := rfl

theorem get?_replace (k : JSString) (v : α) (k' : JSString) : ∀ o : JSObj α,
    get? (o.map (fun e => if e.1 == k then (k, v) else e)) k' =
      if k = k' then (if has o k then some v else none) else get? o k'
  | [] => by
    by_cases h : k = k' <;> simp [h, get?, has]
  | e :: rest => by
    rw [List.map_cons, get?_cons_eq, get?_replace k v k' rest, has_cons_eq, get?_cons_eq]
    by_cases hek : e.1 = k
    · have hb : (e.1 == k) = true := by simpa using hek
      rw [hb]
      by_cases hkk : k = k'
      · simp [hkk]
      · have : e.1 ≠ k' := by rw [hek]; exact hkk
        simp [hkk, this]
    · have hb : (e.1 == k) = false := by simpa using hek
      rw [hb]
      by_cases hkk : k = k'
      · subst hkk
        simp [hek]
      · simp [hkk]

theorem get?_insertIndex (n : Nat) (k : JSString) (v : α) (k' : JSString) : ∀ o : JSObj α,
    has o k = false →
    get? (insertIndex n k v o) k' = if k = k' then some v else get? o k'
  | [], _ => by
    by_cases h : k = k' <;> simp [h, insertIndex, get?]
  | e :: rest, h => by
    rw [has_cons_eq, Bool.or_eq_false_iff] at h
    have hek : e.1 ≠ k := by simpa using h.1
    have key : get? ((k, v) :: e :: rest) k' = if k = k' then some v else get? (e :: rest) k' := by
      rw [get?_cons_eq]
    unfold insertIndex
    split
    · split
      · rw [get?_cons_eq, get?_insertIndex n k v k' rest h.2, get?_cons_eq]
        by_cases hkk : k = k'
        · subst hkk; simp [hek]
        · simp [hkk]
      · exact key
    · exact key

theorem get?_append_new (k : JSString) (v : α) (k' : JSString) : ∀ o : JSObj α,
    has o k = false → get? (o ++ [(k, v)]) k' = if k = k' then some v else get? o k'
  | [], _ => by
    by_cases h : k = k' <;> simp [h, get?]
  | e :: rest, h => by
    rw [has_cons_eq, Bool.or_eq_false_iff] at h
    have hek : e.1 ≠ k := by simpa using h.1
    rw [List.cons_append, get?_cons_eq, get?_append_new k v k' rest h.2, get?_cons_eq]
    by_cases hkk : k = k'
    · subst hkk; simp [hek]
    · simp [hkk]

/-- The value read back after `define`. -/
theorem get?_define (o : JSObj α) (k : JSString) (v : α) (k' : JSString) :
    get? (o.define k v) k' = if k = k' then some v else get? o k' := by
  unfold define
  cases h : has o k with
  | true =>
    simp only [if_true]
    rw [get?_replace, h]
    simp
  | false =>
    simp only [Bool.false_eq_true, if_false]
    split
    · exact get?_insertIndex _ k v k' o h
    · exact get?_append_new k v k' o h

theorem keys_replace (k : JSString) (v : α) (o : JSObj α) :
    keys (o.map (fun e => if e.1 == k then (k, v) else e)) = keys o := by
  unfold keys
  rw [List.map_map]
  apply List.map_congr_left
  intro e _
  by_cases h : e.1 = k
  · simp [h]
  · simp [h]

theorem keys_define_nodup (o : JSObj α) (k : JSString) (v : α) (h : (keys o).Nodup) :
    (keys (o.define k v)).Nodup := by
  cases hh : has o k with
  | true =>
    unfold define
    rw [hh]
    simp only [if_true]
    rw [keys_replace]
    exact h
  | false =>
    have hp := (define_perm o k v hh).map (fun e => e.1)
    have hk : k ∉ keys o := (lacks_iff_not_mem_keys o k).1 hh
    unfold keys at hk h ⊢
    rw [hp.nodup_iff]
    simp only [List.map_cons, List.nodup_cons]
    exact ⟨hk, h⟩

theorem length_define_le (o : JSObj α) (k : JSString) (v : α) :
    (o.define k v).length ≤ o.length + 1 := by
  cases hh : has o k with
  | true =>
    unfold define
    rw [hh]
    simp
  | false =>
    have := (define_perm o k v hh).length_eq
    simp at this
    omega

theorem get?_assign (o : JSObj α) (k : JSString) (v : α) (k' : JSString)
    (hk' : k' ≠ "__proto__".toList) :
    get? (o.assign k v) k' = if k = k' then some v else get? o k' := by
  unfold assign
  by_cases hk : k = "__proto__".toList
  · rw [if_pos hk, if_neg (by rw [hk]; exact fun e => hk' e.symm)]
  · rw [if_neg hk, get?_define]

theorem keys_assign_nodup (o : JSObj α) (k : JSString) (v : α) (h : (keys o).Nodup) :
    (keys (o.assign k v)).Nodup := by
  unfold assign
  split
  · exact h
  · exact keys_define_nodup o k v h

theorem length_assign_le (o : JSObj α) (k : JSString) (v : α) :
    (o.assign k v).length ≤ o.length + 1 := by
  unfold assign
  split
  · omega
  · exact length_define_le o k v

theorem lacks_proto_assign (o : JSObj α) (k : JSString) (v : α)
    (h : has o "__proto__".toList = false) : has (o.assign k v) "__proto__".toList = false := by
  unfold assign
  by_cases hk : k = "__proto__".toList
  · rw [if_pos hk]; exact h
  · rw [if_neg hk]
    rw [lacks_iff_not_mem_keys] at h ⊢
    intro hm
    have hg : get? (o.define k v) "__proto__".toList = get? o "__proto__".toList := by
      rw [get?_define, if_neg hk]
    have hn : get? o "__proto__".toList = none := by
      unfold get?
      rw [List.find?_eq_none.2]
      · rfl
      · intro e he hb
        exact h (List.mem_map.2 ⟨e, he, by simpa using hb⟩)
    obtain ⟨e, he, hek⟩ := List.mem_map.1 hm
    have hfind : (List.find? (fun e => e.1 == "__proto__".toList) (o.define k v)).isSome = true := by
      rw [List.find?_isSome]
      exact ⟨e, he, by simpa using hek⟩
    rw [hn] at hg
    unfold get? at hg
    cases hf : List.find? (fun e => e.1 == "__proto__".toList) (o.define k v) with
    | none => rw [hf] at hfind; simp at hfind
    | some x => rw [hf] at hg; simp at hg

end JSObj

theorem getLast?_cons_eq {β : Type} (e : β) (l : List β) :
    (e :: l).getLast? = match l.getLast? with
      | some x => some x
      | none => some e := by
  cases l with
  | nil => rfl
  | cons a t =>
    rw [List.getLast?_cons_cons]
    cases h : (a :: t).getLast? with
    | none => simp at h
    | some x => rfl

theorem lastValue_cons (e : JSString × JSString) (es : List (JSString × JSString))
    (k : JSString) :
    lastValue (e :: es) k = match lastValue es k with
      | some v => some v
      | none => if e.1 = k then some e.2 else none := by
  unfold lastValue
  by_cases h : e.1 = k
  · have hb : (e.1 == k) = true := by simpa using h
    rw [List.filter_cons]
    simp only [hb, if_true]
    rw [getLast?_cons_eq, if_pos h]
    cases (List.filter (fun e => e.1 == k) es).getLast? <;> rfl
  · have hb : (e.1 == k) = false := by simpa using h
    rw [List.filter_cons]
    simp only [hb, Bool.false_eq_true, if_false]
    rw [if_neg h]
    cases (List.filter (fun e => e.1 == k) es).getLast? <;> rfl

theorem foldl_assign_get? (k : JSString) (hk : k ≠ "__proto__".toList) :
    ∀ (es : List (JSString × JSString)) (o : JSObj JSString),
    JSObj.get? (es.foldl (fun (o : JSObj JSString) e => o.assign e.1 e.2) o) k =
      match lastValue es k with
      | some v => some v
      | none => JSObj.get? o k
  | [], o => rfl
  | e :: es, o => by
    rw [List.foldl_cons, foldl_assign_get? k hk es, lastValue_cons, JSObj.get?_assign _ _ _ _ hk]
    cases lastValue es k with
    | some v => rfl
    | none => by_cases h : e.1 = k <;> simp [h]

theorem foldl_assign_nodup : ∀ (es : List (JSString × JSString)) (o : JSObj JSString),
    (JSObj.keys o).Nodup →
    (JSObj.keys (es.foldl (fun (o : JSObj JSString) e => o.assign e.1 e.2) o)).Nodup
  | [], _, h => h
  | e :: es, o, h => foldl_assign_nodup es _ (JSObj.keys_assign_nodup o e.1 e.2 h)

theorem foldl_assign_length : ∀ (es : List (JSString × JSString)) (o : JSObj JSString),
    (es.foldl (fun (o : JSObj JSString) e => o.assign e.1 e.2) o).length ≤ o.length + es.length
  | [], _ => by simp
  | e :: es, o => by
    have h1 := foldl_assign_length es (o.assign e.1 e.2)
    have h2 := JSObj.length_assign_le o e.1 e.2
    simp only [List.foldl_cons, List.length_cons]
    omega

theorem foldl_assign_lacks_proto : ∀ (es : List (JSString × JSString)) (o : JSObj JSString),
    JSObj.has o "__proto__".toList = false →
    JSObj.has (es.foldl (fun (o : JSObj JSString) e => o.assign e.1 e.2) o)
      "__proto__".toList = false
  | [], _, h => h
  | e :: es, o, h => foldl_assign_lacks_proto es _ (JSObj.lacks_proto_assign o e.1 e.2 h)

theorem foldl_parseKVPart (ps : List JSString) : ∀ (o : JSObj JSString),
    ps.foldl parseKVPart o =
      (ps.filterMap readEntry).foldl (fun (o : JSObj JSString) e => o.assign e.1 e.2) o := by
  induction ps with
  | nil => intro o; rfl
  | cons p t ih =>
    intro o
    rw [List.foldl_cons, ih, parseKVPart_eq_readEntry]
    cases h : readEntry p with
    | none => simp [List.filterMap_cons, h]
    | some e => simp [List.filterMap_cons, h]

theorem trim_of_blank (s : JSString) (h : isBlank s = true) : trim s = [] := by
  have := trim_pad s [] [] h rfl
  simpa using this

theorem kvEntries_of_blank (str : JSString) (h : isBlank str = true) : kvEntries str = [] := by
  unfold kvEntries
  rw [split_not_mem ',' str (not_mem_of_blank h (by decide))]
  simp only [List.map_cons, List.map_nil, trim_of_blank str h]
  rfl

/-- Claim C23, as amended. For every input and every key other than `__proto__`,
the map `parseKVList` returns holds the key at most once, and its value there
is the value of the last entry that is read as that key (the key is absent
when no entry is read as it); the key `__proto__` is never held. The number
of keys is at most the number of non-empty entries between commas, and an
empty or blank input gives the empty map. So `1:a,1:b` and `1:a,01:b` both
give the one entry `1 -> b`. -/
theorem parseKVList_last_wins (str : JSString) :
    (∀ k, k ≠ "__proto__".toList →
      JSObj.get? (parseKVList str) k = lastValue ((kvEntries str).filterMap readEntry) k) ∧
    (JSObj.keys (parseKVList str)).Nodup ∧
    "__proto__".toList ∉ JSObj.keys (parseKVList str) ∧
    (JSObj.keys (parseKVList str)).length ≤ (kvEntries str).length ∧
    (isBlank str = true → parseKVList str = []) ∧
    parseKVList "1:a,1:b".toList = [("1".toList, "b".toList)] ∧
    parseKVList "1:a,01:b".toList = [("1".toList, "b".toList)] := by
  have e : parseKVList str = ((kvEntries str).filterMap readEntry).foldl
      (fun (o : JSObj JSString) e => o.assign e.1 e.2) [] := by
    rw [parseKVList_eq_foldl, foldl_parseKVPart]
  refine ⟨?_, ?_, ?_, ?_, ?_, by decide, by decide⟩
  · intro k hk
    rw [e, foldl_assign_get? k hk]
    cases lastValue ((kvEntries str).filterMap readEntry) k <;> rfl
  · rw [e]
    exact foldl_assign_nodup _ [] (by simp [JSObj.keys])
  · rw [e, ← JSObj.lacks_iff_not_mem_keys]
    exact foldl_assign_lacks_proto _ [] rfl
  · rw [e]
    have h1 := foldl_assign_length ((kvEntries str).filterMap readEntry) []
    have h2 := List.length_filterMap_le readEntry (kvEntries str)
    unfold JSObj.keys
    rw [List.length_map]
    simp only [List.length_nil, Nat.zero_add] at h1
    omega
  · intro hb
    rw [parseKVList_eq_foldl, kvEntries_of_blank str hb]
    rfl

/-- Claim C23, counterexample. The two entries of `__proto__:a,__proto__:b` are both
read as the key `__proto__`, and the returned map is empty: it holds no entry
for that key. -/
theorem parseKVList_proto_twice :
    (kvEntries "__proto__:a,__proto__:b".toList).filterMap readEntry =
      [("__proto__".toList, "a".toList), ("__proto__".toList, "b".toList)] ∧
    parseKVList "__proto__:a,__proto__:b".toList = [] ∧
    JSObj.get? (parseKVList "__proto__:a,__proto__:b".toList) "__proto__".toList = none := by
  refine ⟨by decide, by decide, by decide⟩

/-! ## The round trip of the start rolls -/

theorem roundNat_cases (n : Nat) : roundNat n = .posInf ∨ ∃ m : Nat, roundNat n = .fin m := by
  by_cases h : n < 2 ^ 53
  · exact Or.inr ⟨n, roundNat_of_lt n h⟩
  · rcases roundNat_ge n (by omega) with h1 | ⟨m, _, h2⟩
    · exact Or.inl h1
    · exact Or.inr ⟨m, h2⟩

theorem digit_ne_underscore (c : Char) (h : isRadixDigit 10 c = true) : c ≠ '_' := by
  intro e
  rw [e] at h
  exact absurd h (by decide)

theorem posToString_head (x : Nat) : ∃ c t, posToString x = c :: t ∧ c ≠ '_' := by
  have hd := natToDecimal_all_digits (shortestDecimal x)
  obtain ⟨c, t, hc, hcd⟩ := natToDecimal_head (shortestDecimal x)
  unfold posToString
  dsimp only
  split
  · exact ⟨c, t, hc, digit_ne_underscore c hcd⟩
  · have hsub : ∀ d ∈ ((natToDecimal (shortestDecimal x)).reverse.dropWhile
        (· == '0')).reverse, isRadixDigit 10 d = true := by
      intro d hdm
      apply hd
      have := (List.dropWhile_suffix (· == '0')).subset (List.mem_reverse.1 hdm)
      exact List.mem_reverse.1 this
    split
    · exact ⟨c, t, hc, digit_ne_underscore c hcd⟩
    · rename_i d heq
      exact ⟨d, _, rfl, digit_ne_underscore d (hsub d (by rw [heq]; simp))⟩
    · rename_i d rest _ heq
      exact ⟨d, _, rfl, digit_ne_underscore d (hsub d (by rw [heq]; simp))⟩

theorem numberToString_ne_proto (x : JSNum) : numberToString x ≠ "__proto__".toList := by
  have key : ∃ c t, numberToString x = c :: t ∧ c ≠ '_' := by
    cases x with
    | nan => exact ⟨'N', _, rfl, by decide⟩
    | posInf => exact ⟨'I', _, rfl, by decide⟩
    | negInf => exact ⟨'-', _, rfl, by decide⟩
    | fin v =>
      show ∃ c t, (if v = 0 then "0".toList else if v < 0 then '-' :: posToString v.natAbs
        else posToString v.natAbs) = c :: t ∧ c ≠ '_'
      by_cases h0 : v = 0
      · rw [if_pos h0]; exact ⟨'0', _, rfl, by decide⟩
      · rw [if_neg h0]
        by_cases hneg : v < 0
        · rw [if_pos hneg]; exact ⟨'-', _, rfl, by decide⟩
        · rw [if_neg hneg]; exact posToString_head _
  obtain ⟨c, t, h, hc⟩ := key
  rw [h]
  intro e
  have e1 : c = '_' := by
    have := congrArg List.head? e
    simpa using this
  exact hc e1

theorem trim_natToDecimal (k : Nat) : trim (natToDecimal k) = natToDecimal k := by
  apply trim_eq_self
  · intro c hc
    exact not_ws_of_digit c (natToDecimal_all_digits k c (List.mem_of_mem_head? hc))
  · intro c hc
    exact not_ws_of_digit c (natToDecimal_all_digits k c (List.mem_of_mem_getLast? hc))

theorem not_mem_natToDecimal (k : Nat) (c : Char) (h : isRadixDigit 10 c = false) :
    c ∉ natToDecimal k := by
  intro hc
  rw [natToDecimal_all_digits k c hc] at h
  exact absurd h (by simp)

theorem propertyName_natToDecimal (k : Nat) :
    propertyName (natToDecimal k) = numberToString (parseInt (natToDecimal k) 10) := by
  unfold propertyName
  rw [parseInt_natToDecimal]
  rcases roundNat_cases k with h | ⟨m, h⟩ <;> rw [h] <;> rfl

/-- What the loop of `parseKVList` does with the trimmed entry `k:v` that
`buildPayload` writes for a start roll. -/
theorem parseKVPart_start_roll (out : JSObj JSString) (k : Nat) (v : JSString)
    (hv : notBlank v = true) (hcolon : ':' ∉ v) :
    trim (natToDecimal k ++ ':' :: v) ≠ [] ∧
    parseKVPart out (trim (natToDecimal k ++ ':' :: v)) =
      out.assign (numberToString (parseInt (natToDecimal k) 10)) (trim v) := by
  obtain ⟨a, b, ha, hb, e⟩ := trim_decompose v
  have hne : trim v ≠ [] := (notBlank_iff v).1 hv
  have htrim : trim (natToDecimal k ++ ':' :: v) =
      natToDecimal k ++ [] ++ ':' :: (a ++ trim v) := by
    have := trim_padded_entry [] (natToDecimal k) [] a (trim v) b ':' rfl hb
      (natToDecimal_ne_nil k) (trim_natToDecimal k) hne (trim_trim v)
    rw [← this]
    congr 1
    rw [List.nil_append, List.append_nil]
    congr 2
  constructor
  · rw [htrim]
    intro h0
    have := congrArg List.length h0
    simp at this
  · rw [htrim, parseKVPart_colon out (natToDecimal k) [] a (trim v) (natToDecimal_ne_nil k)
      (trim_natToDecimal k) (not_mem_natToDecimal k ':' (by decide)) rfl ha
      (fun h => hcolon (mem_of_mem_trim v ':' h)), trim_trim]
    have := propertyName_natToDecimal k
    unfold propertyName at this
    rw [this]

theorem foldl_assign_eq_define {ε : Type} (key val : ε → JSString) (es : List ε)
    (hk : ∀ e ∈ es, key e ≠ "__proto__".toList) : ∀ o : JSObj JSString,
    es.foldl (fun (o : JSObj JSString) e => o.assign (key e) (val e)) o =
      (es.map (fun e => (key e, val e))).foldl (fun (o : JSObj JSString) e => o.define e.1 e.2) o := by
  induction es with
  | nil => intro o; rfl
  | cons e t ih =>
    intro o
    rw [List.foldl_cons, List.map_cons, List.foldl_cons,
      ih (fun x hx => hk x (List.mem_cons_of_mem _ hx))]
    unfold JSObj.assign
    rw [if_neg (hk e (by simp))]

/-- For a start-roll object that is not empty and whose values hold neither a
comma nor a colon, `parseKVList` of the text `start_rolls_entries` is the
object `payload.start_rolls`. -/
theorem start_rolls_round_trip_of_ne_nil (s : FormState) (hne : s.batchStartRolls ≠ [])
    (hvals : ∀ e ∈ s.batchStartRolls, ',' ∉ e.2 ∧ ':' ∉ e.2) :
    (buildPayload s).start_rolls = some (parseKVList (startRollsEntries s)) := by
  have hlen : ¬ (s.batchStartRolls.keys.length = 0) := by
    unfold StartRolls.keys
    rw [List.length_map, List.length_eq_zero]
    exact hne
  show startRollsPayload s.batchStartRolls = _
  unfold startRollsPayload
  rw [if_neg hlen]
  congr 1
  unfold startRollsEntries JSObj.fromEntries
  have hmem : ∀ e ∈ (s.batchStartRolls.entries).filter (fun e => notBlank e.2),
      ∃ k : Nat, e.1 = natToDecimal k ∧ notBlank e.2 = true ∧ ',' ∉ e.2 ∧ ':' ∉ e.2 := by
    intro e he
    rw [List.mem_filter] at he
    obtain ⟨x, hx, rfl⟩ := List.mem_map.1 he.1
    exact ⟨x.1, rfl, he.2, hvals x hx⟩
  by_cases hes : (s.batchStartRolls.entries).filter (fun e => notBlank e.2) = []
  · rw [hes]
    rfl
  · rw [parseKVList_join (fun e : JSString × JSString => e.1 ++ ':' :: e.2)
      (fun e => numberToString (parseInt e.1 10)) (fun e => trim e.2) _ hes
      (by
        intro e he
        obtain ⟨k, hk, _, hc, _⟩ := hmem e he
        have := not_mem_natToDecimal k ',' (by decide)
        dsimp only
        rw [hk]
        simp [this, hc])
      (by
        intro e he
        obtain ⟨k, hk, hb, _, hc⟩ := hmem e he
        dsimp only
        rw [hk]
        exact (parseKVPart_start_roll [] k e.2 hb hc).1)
      (by
        intro e he out
        obtain ⟨k, hk, hb, _, hc⟩ := hmem e he
        dsimp only
        rw [hk]
        exact (parseKVPart_start_roll out k e.2 hb hc).2)]
    exact (foldl_assign_eq_define _ _ _ (fun e _ => numberToString_ne_proto _) []).symm

/-- Before the sync effect has run for the first time the start-roll object is
empty: the payload would then have no `start_rolls` member, while `parseKVList`
of the empty text is the empty object. No handler runs in that state. -/
theorem start_rolls_empty_object :
    initialState.batchStartRolls = [] ∧
    startRollsEntries initialState = [] ∧
    parseKVList (startRollsEntries initialState) = [] ∧
    (buildPayload initialState).start_rolls = none ∧
    (buildPayload initialState).start_rolls ≠
      some (parseKVList (startRollsEntries initialState)) := by
  refine ⟨rfl, rfl, rfl, rfl, by decide⟩

/-! ## What the page can hold -/

theorem clampNumBatches_range (text : JSString) :
    clampNumBatches text = .nan ∨
      ∃ n : Nat, 1 ≤ n ∧ n ≤ 50 ∧ clampNumBatches text = .fin n := by
  unfold clampNumBatches
  cases parseIntOrOne text with
  | nan => exact Or.inl rfl
  | posInf => exact Or.inr ⟨50, by decide, by decide, rfl⟩
  | negInf => exact Or.inr ⟨1, by decide, by decide, rfl⟩
  | fin v =>
    refine Or.inr ⟨(max 1 (min 50 v)).toNat, ?_, ?_, ?_⟩
    · omega
    · omega
    · show JSNum.fin (max 1 (min 50 v)) = _
      congr 1
      omega

theorem gt_nan (k : JSNum) : k.gt .nan = false := by
  cases k <;> rfl

theorem syncStartRolls_nan (m : StartRolls) : syncStartRolls .nan m = some m := by
  have hprune : ∀ (ks : List JSNum) (acc : StartRolls),
      ks.foldl (fun m k => if k.gt .nan then m.deleteNamed (numberToString k) else m) acc =
        acc := by
    intro ks
    induction ks with
    | nil => intro acc; rfl
    | cons k t ih =>
      intro acc
      rw [List.foldl_cons, gt_nan]
      exact ih acc
  show (syncFill 1 1 .nan m).map (syncPrune .nan) = some m
  have hfill : syncFill 1 1 .nan m = some m := rfl
  rw [hfill]
  show some (syncPrune .nan m) = some m
  unfold syncPrune
  rw [hprune]

theorem startRollInputs_of_bounds (n : Nat) (h : n ≤ 50) : startRollInputs (.fin n) = n := by
  show (if (n : Int).toNat ≤ 4294967295 then (n : Int).toNat else 0) = n
  rw [Int.toNat_ofNat, if_pos (by omega)]

theorem bounds_set (s : FormState) (h : WithinBounds s) (idx : Nat) (text : JSString)
    (h1 : 1 ≤ idx) (h2 : idx ≤ 50) : WithinBounds (onStartRollChange idx text s) := by
  refine ⟨h.numBatches, ?_, ?_⟩
  · show (s.batchStartRolls.set idx text).keys.Nodup
    cases hh : s.batchStartRolls.has idx with
    | true => rw [StartRolls.keys_set_of_has _ _ _ hh]; exact h.nodup
    | false => exact (StartRolls.set_new _ idx text hh).2.2 h.nodup
  · intro k hk
    have hk' : (s.batchStartRolls.set idx text).has k = true := (StartRolls.has_iff _ _).2 hk
    cases hh : s.batchStartRolls.has idx with
    | true =>
      have : k ∈ (s.batchStartRolls.set idx text).keys := hk
      rw [StartRolls.keys_set_of_has _ _ _ hh] at this
      exact h.keys k this
    | false =>
      rcases ((StartRolls.set_new _ idx text hh).1 k).1 hk' with e | e
      · rw [e]; exact ⟨h1, h2⟩
      · exact h.keys k ((StartRolls.has_iff _ _).1 e)

theorem bounds_handle (s s' : FormState) (e : Event) (h : WithinBounds s)
    (he : handle s e = some s') : WithinBounds s' := by
  cases e with
  | numBatches t =>
    cases he
    exact ⟨clampNumBatches_range t, h.nodup, h.keys⟩
  | reset =>
    cases he
    exact ⟨Or.inr ⟨3, by decide, by decide, rfl⟩, h.nodup, h.keys⟩
  | startRoll idx t =>
    have h2 : (if 1 ≤ idx ∧ idx ≤ startRollInputs s.numBatches then
        some (onStartRollChange idx t s) else none) = some s' := he
    by_cases hc : 1 ≤ idx ∧ idx ≤ startRollInputs s.numBatches
    · rw [if_pos hc] at h2
      cases h2
      apply bounds_set s h idx t hc.1
      rcases h.numBatches with hn | ⟨n, _, hn2, hn⟩
      · rw [hn] at hc
        have : startRollInputs .nan = 0 := rfl
        omega
      · rw [hn, startRollInputs_of_bounds n hn2] at hc
        omega
    · rw [if_neg hc] at h2; cases h2
  | rows t => cases he; exact ⟨h.numBatches, h.nodup, h.keys⟩
  | cols t => cases he; exact ⟨h.numBatches, h.nodup, h.keys⟩
  | blockWidth t => cases he; exact ⟨h.numBatches, h.nodup, h.keys⟩
  | brokenSeats t => cases he; exact ⟨h.numBatches, h.nodup, h.keys⟩
  | batchStudentCounts t => cases he; exact ⟨h.numBatches, h.nodup, h.keys⟩
  | batchColors t => cases he; exact ⟨h.numBatches, h.nodup, h.keys⟩
  | batchLabels t => cases he; exact ⟨h.numBatches, h.nodup, h.keys⟩
  | batchByColumn b => cases he; exact ⟨h.numBatches, h.nodup, h.keys⟩
  | enforceNoAdjacentBatches b => cases he; exact ⟨h.numBatches, h.nodup, h.keys⟩
  | useDemoDb b => cases he; exact ⟨h.numBatches, h.nodup, h.keys⟩

/-- The sync effect on a state within the bounds: it ends, and it leaves the
state within the bounds; for `numBatches = n` the names are then exactly
`1..n`, and for NaN the object is left as it is. -/
theorem bounds_runSync (s : FormState) (h : WithinBounds s) :
    ∃ s', runSync s = some s' ∧ WithinBounds s' ∧
      (s.numBatches = .nan → s'.batchStartRolls = s.batchStartRolls) ∧
      (∀ n : Nat, s.numBatches = .fin n → ∀ k, s'.batchStartRolls.has k = true ↔ (1 ≤ k ∧ k ≤ n)) := by
  rcases h.numBatches with hn | ⟨n, hn1, hn2, hn⟩
  · refine ⟨s, ?_, h, fun _ => rfl, ?_⟩
    · have e : syncStartRolls s.numBatches s.batchStartRolls = some s.batchStartRolls := by
        rw [hn]; exact syncStartRolls_nan _
      unfold runSync
      rw [e]
      rfl
    · intro n e
      rw [hn] at e
      cases e
  · obtain ⟨next, hs, hhas, _, _, hnd, _⟩ := syncStartRolls_of_bounds n s.batchStartRolls hn1
      (by omega) h.nodup (fun k hk => ⟨(h.keys k hk).1, by have := (h.keys k hk).2; omega⟩)
    refine ⟨{ s with batchStartRolls := next }, ?_, ⟨Or.inr ⟨n, hn1, hn2, hn⟩, hnd, ?_⟩, ?_, ?_⟩
    · have e : syncStartRolls s.numBatches s.batchStartRolls = some next := by
        rw [hn]; exact hs
      unfold runSync
      rw [e]
      rfl
    · intro k hk
      have := (hhas k).1 ((StartRolls.has_iff _ _).2 hk)
      exact ⟨this.1, by omega⟩
    · intro e
      rw [hn] at e
      cases e
    · intro n' e k
      rw [hn] at e
      have : (n : Int) = n' := by injection e
      have hnn : n = n' := by omega
      subst hnn
      exact hhas k

theorem bounds_step (s s' : FormState) (e : Event) (h : WithinBounds s)
    (he : step s e = some s') : WithinBounds s' := by
  unfold step at he
  cases hh : handle s e with
  | none => rw [hh] at he; cases he
  | some t =>
    rw [hh] at he
    dsimp only at he
    have ht := bounds_handle s t e h hh
    split at he
    · cases he; exact ht
    · obtain ⟨u, hu, hb, _⟩ := bounds_runSync t ht
      rw [hu] at he
      cases he
      exact hb

theorem bounds_initial : WithinBounds initialState :=
  ⟨Or.inr ⟨3, by decide, by decide, rfl⟩, by decide, by intro k hk; cases hk⟩

theorem bounds_of_reachable (s : FormState) (h : Reachable s) : WithinBounds s := by
  induction h with
  | init => exact bounds_initial
  | sync _ hr ih =>
    obtain ⟨u, hu, hb, _⟩ := bounds_runSync _ ih
    rw [hu] at hr
    cases hr
    exact hb
  | step e _ hr ih => exact bounds_step _ _ e ih hr

theorem serial_of_reachable (s : FormState) (h : Reachable s) :
    s.serialMode = "per_batch".toList ∧ s.serialWidth = some (.fin 0) ∧
    s.batchRollNumbers = [] := by
  induction h with
  | init => exact ⟨rfl, rfl, rfl⟩
  | sync _ hr ih =>
    have := runSync_serial _ _ hr
    exact ⟨this.1.trans ih.1, this.2.1.trans ih.2.1, this.2.2.trans ih.2.2⟩
  | step e _ hr ih =>
    have := step_serial _ _ e hr
    exact ⟨this.1.trans ih.1, this.2.1.trans ih.2.1, this.2.2.trans ih.2.2⟩

/-- Claim C1. For every form state, `buildPayload` copies `rows`, `cols`,
`numBatches`, `blockWidth`, `batchByColumn`, `enforceNoAdjacentBatches` and the
serial mode, and passes the three typed strings on unchanged. It gives
`serial_width` the form's serial width, or `0` when that width is unset, for
every form whose serial width is not NaN; and every state the page can reach
is such a form: there the serial width is `0`, and so is `serial_width`. -/
theorem buildPayload_copies_form (s : FormState) :
    (buildPayload s).rows = s.rows ∧ (buildPayload s).cols = s.cols ∧
    (buildPayload s).num_batches = s.numBatches ∧ (buildPayload s).block_width = s.blockWidth ∧
    (buildPayload s).batch_by_column = s.batchByColumn ∧
    (buildPayload s).enforce_no_adjacent_batches = s.enforceNoAdjacentBatches ∧
    (buildPayload s).broken_seats = s.brokenSeats ∧
    (buildPayload s).batch_student_counts = s.batchStudentCounts ∧
    (buildPayload s).batch_colors = s.batchColorsInput ∧
    (buildPayload s).serial_mode = s.serialMode ∧
    (s.serialWidth ≠ some .nan →
      (buildPayload s).serial_width =
        (match s.serialWidth with
         | none => JSNum.fin 0
         | some w => w)) ∧
    (Reachable s → s.serialWidth = some (.fin 0) ∧ (buildPayload s).serial_width = .fin 0) := by
  refine ⟨rfl, rfl, rfl, rfl, rfl, rfl, rfl, rfl, rfl, rfl, ?_, ?_⟩
  · intro hnan
    show serialWidthOrZero s.serialWidth = _
    cases h : s.serialWidth with
    | none => rfl
    | some w =>
      cases w with
      | nan => exact absurd h hnan
      | posInf => rfl
      | negInf => rfl
      | fin v =>
        by_cases hv : v = 0
        · subst hv; rfl
        · simp [serialWidthOrZero, JSNum.truthy, hv]
  · intro hr
    have hw := (serial_of_reachable s hr).2.1
    refine ⟨hw, ?_⟩
    show serialWidthOrZero s.serialWidth = _
    rw [hw]
    rfl

/-- Claim C8. The start-roll object is kept synced to `numBatches`. The effect
runs on the state a handler leaves, `s`, from a state `r` the page can reach
(at mount it runs on the initial state, which the reset handler leaves too).
When `numBatches` is an integer `n` there, `n` is from 1 to 50, the names of
the prior object are from 1 to 50, and the effect ends with an object whose
names are exactly `1..n`: a name that was there and is at most `n` keeps its
value, an added name holds the empty string, the names above `n` are gone;
and editing the input of a batch `idx` in `1..n` leaves the names as they
are. -/
theorem syncStartRolls_spec (r s : FormState) (e : Event) (n : Nat) (hr : Reachable r)
    (he : handle r e = some s) (hn : s.numBatches = .fin n) :
    1 ≤ n ∧ n ≤ 50 ∧ (∀ k ∈ s.batchStartRolls.keys, 1 ≤ k ∧ k ≤ 50) ∧
    ∃ next, syncStartRolls s.numBatches s.batchStartRolls = some next ∧
      runSync s = some { s with batchStartRolls := next } ∧
      (∀ k, next.has k = true ↔ (1 ≤ k ∧ k ≤ n)) ∧
      (∀ k, k ≤ n → s.batchStartRolls.has k = true → next.get? k = s.batchStartRolls.get? k) ∧
      (∀ k, 1 ≤ k → k ≤ n → s.batchStartRolls.has k = false → next.get? k = some []) ∧
      (∀ k, n < k → next.has k = false) ∧
      next.keys.Nodup ∧
      (∀ idx text, 1 ≤ idx → idx ≤ n → (next.set idx text).keys = next.keys) := by
  have hb := bounds_handle r s e (bounds_of_reachable r hr) he
  have hn' : 1 ≤ n ∧ n ≤ 50 := by
    rcases hb.numBatches with h | ⟨m, h1, h2, h⟩
    · rw [h] at hn; cases hn
    · rw [h] at hn
      have : (m : Int) = n := by injection hn
      omega
  obtain ⟨next, hs, hhas, hkeep, hnew, hnd, hedit⟩ :=
    syncStartRolls_of_bounds n s.batchStartRolls hn'.1 (by omega) hb.nodup
      (fun k hk => ⟨(hb.keys k hk).1, by have := (hb.keys k hk).2; omega⟩)
  have e1 : syncStartRolls s.numBatches s.batchStartRolls = some next := by
    rw [hn]; exact hs
  refine ⟨hn'.1, hn'.2, hb.keys, next, e1, ?_, hhas, hkeep, hnew, ?_, hnd, hedit⟩
  · unfold runSync
    rw [e1]
    rfl
  · intro k hk
    cases h : next.has k with
    | false => rfl
    | true =>
      have := (hhas k).1 h
      omega

/-- Claim C8, witness. Three batches with a start roll typed for the third, then
Number of Batches set to 2. -/
theorem syncStartRolls_spec_witness :
    1 ≤ 2 ∧ 2 ≤ 50 ∧
    (∀ k ∈ StartRolls.keys [(1, []), (2, []), (3, ['y'])], 1 ≤ k ∧ k ≤ 50) ∧
    ∃ next, syncStartRolls (.fin (2 : Nat)) [(1, []), (2, []), (3, ['y'])] = some next ∧
      runSync (onNumBatchesChange "2".toList
          { initialState with batchStartRolls := [(1, []), (2, []), (3, ['y'])] }) =
        some { onNumBatchesChange "2".toList
          { initialState with batchStartRolls := [(1, []), (2, []), (3, ['y'])] } with
          batchStartRolls := next } ∧
      (∀ k, next.has k = true ↔ (1 ≤ k ∧ k ≤ 2)) ∧
      (∀ k, k ≤ 2 → StartRolls.has [(1, []), (2, []), (3, ['y'])] k = true →
        next.get? k = StartRolls.get? [(1, []), (2, []), (3, ['y'])] k) ∧
      (∀ k, 1 ≤ k → k ≤ 2 → StartRolls.has [(1, []), (2, []), (3, ['y'])] k = false →
        next.get? k = some []) ∧
      (∀ k, 2 < k → next.has k = false) ∧
      next.keys.Nodup ∧
      (∀ idx text, 1 ≤ idx → idx ≤ 2 → (next.set idx text).keys = next.keys) :=
  syncStartRolls_spec { initialState with batchStartRolls := [(1, []), (2, []), (3, ['y'])] }
    (onNumBatchesChange "2".toList
      { initialState with batchStartRolls := [(1, []), (2, []), (3, ['y'])] })
    (.numBatches "2".toList) 2
    (Reachable.step (.startRoll 3 ['y']) (Reachable.sync Reachable.init rfl) rfl) rfl rfl

/-! ## The states in which a handler runs -/

theorem mounted_reachable (s : FormState) (h : Mounted s) : Reachable s := by
  induction h with
  | mount hm => exact Reachable.sync Reachable.init hm
  | step e _ hs ih => exact Reachable.step e ih hs

theorem has_set_of_has (m : StartRolls) (k j : Nat) (v : JSString) (h : m.has j = true) :
    (m.set k v).has j = true := by
  cases hh : m.has k with
  | true =>
    rw [StartRolls.has_iff, StartRolls.keys_set_of_has _ _ _ hh, ← StartRolls.has_iff]
    exact h
  | false => exact ((StartRolls.set_new m k v hh).1 j).2 (Or.inr h)

theorem handle_has_one (s s' : FormState) (e : Event) (h : s.batchStartRolls.has 1 = true)
    (he : handle s e = some s') : s'.batchStartRolls.has 1 = true := by
  cases e with
  | startRoll idx t =>
    have h2 : (if 1 ≤ idx ∧ idx ≤ startRollInputs s.numBatches then
        some (onStartRollChange idx t s) else none) = some s' := he
    by_cases hc : 1 ≤ idx ∧ idx ≤ startRollInputs s.numBatches
    · rw [if_pos hc] at h2
      cases h2
      exact has_set_of_has _ idx 1 t h
    · rw [if_neg hc] at h2; cases h2
  | _ => cases he; exact h

/-- A state in which a handler runs has the start roll of batch 1: the object
is never empty there. -/
theorem mounted_has_one (s : FormState) (h : Mounted s) : s.batchStartRolls.has 1 = true := by
  induction h with
  | mount hm =>
    obtain ⟨u, hu, _, _, hk⟩ := bounds_runSync initialState bounds_initial
    rw [hu] at hm
    cases hm
    exact (hk 3 rfl 1).2 ⟨by decide, by decide⟩
  | step e hprev hs ih =>
    rename_i r s'
    unfold step at hs
    cases hh : handle r e with
    | none => rw [hh] at hs; cases hs
    | some t =>
      rw [hh] at hs
      dsimp only at hs
      have ht := handle_has_one r t e ih hh
      have hb := bounds_handle r t e (bounds_of_reachable r (mounted_reachable r hprev)) hh
      split at hs
      · cases hs; exact ht
      · obtain ⟨u, hu, _, hnan, hk⟩ := bounds_runSync t hb
        rw [hu] at hs
        cases hs
        rcases hb.numBatches with hn | ⟨n, hn1, _, hn⟩
        · rw [hnan hn]; exact ht
        · exact (hk n hn 1).2 ⟨le_refl 1, hn1⟩

theorem ne_nil_of_has (m : StartRolls) (k : Nat) (h : m.has k = true) : m ≠ [] := by
  intro e
  rw [e] at h
  cases h

/-- Claim C24. Round trip of the `batchIndex:ROLLSTRING` format: for every
start-roll object whose values hold neither a comma nor a colon, `parseKVList`
of the text `start_rolls_entries` (the non-blank entries as `k:v`, joined by
commas) is the object `payload.start_rolls`, as soon as the object is not
empty; and in every state in which `buildPayload` can run the object is not
empty and its names are positive integers, so the round trip holds there. -/
theorem start_rolls_round_trip (s : FormState)
    (hvals : ∀ e ∈ s.batchStartRolls, ',' ∉ e.2 ∧ ':' ∉ e.2) :
    (s.batchStartRolls ≠ [] →
      (buildPayload s).start_rolls = some (parseKVList (startRollsEntries s))) ∧
    (Mounted s →
      s.batchStartRolls ≠ [] ∧ (∀ k ∈ s.batchStartRolls.keys, 1 ≤ k) ∧
      (buildPayload s).start_rolls = some (parseKVList (startRollsEntries s))) := by
  refine ⟨fun hne => start_rolls_round_trip_of_ne_nil s hne hvals, ?_⟩
  intro hm
  have hne := ne_nil_of_has _ 1 (mounted_has_one s hm)
  exact ⟨hne, fun k hk => ((bounds_of_reachable s (mounted_reachable s hm)).keys k hk).1,
    start_rolls_round_trip_of_ne_nil s hne hvals⟩

/-- Claim C24, witness. The page after it was mounted and start rolls were typed
for the three batches, the second blank, the third with white space around it
and an equals sign in it. -/
theorem start_rolls_round_trip_witness :
    ({ initialState with
        batchStartRolls := [(1, "BT 1".toList), (2, " ".toList), (3, " X=3 ".toList)] } :
      FormState).batchStartRolls ≠ [] ∧
    (∀ k ∈ StartRolls.keys [(1, "BT 1".toList), (2, " ".toList), (3, " X=3 ".toList)], 1 ≤ k) ∧
    (buildPayload { initialState with
      batchStartRolls := [(1, "BT 1".toList), (2, " ".toList), (3, " X=3 ".toList)] }).start_rolls =
      some (parseKVList (startRollsEntries { initialState with
        batchStartRolls := [(1, "BT 1".toList), (2, " ".toList), (3, " X=3 ".toList)] })) :=
  (start_rolls_round_trip { initialState with
      batchStartRolls := [(1, "BT 1".toList), (2, " ".toList), (3, " X=3 ".toList)] }
    (by decide)).2
    (Mounted.step (.startRoll 3 " X=3 ".toList)
      (Mounted.step (.startRoll 2 " ".toList)
        (Mounted.step (.startRoll 1 "BT 1".toList) (Mounted.mount rfl) rfl) rfl) rfl)

/-! ## The chart the page shows -/

theorem isReactChild_of_isPrimitive (v : Json) (h : v.isPrimitive = true) :
    v.isReactChild = true := by
  cases v with
  | arr items => cases h
  | obj members => cases h
  | null => rfl
  | bool b => rfl
  | num x => rfl
  | str s => rfl

theorem field_isPrimitive (members : List (JSString × Json)) (name : JSString) (x : Json)
    (hm : members.all (fun m => m.2.isPrimitive) = true)
    (hf : (Json.obj members).field name = some x) : x.isPrimitive = true := by
  have hf2 : (members.find? (fun m => m.1 == name)).map (·.2) = some x := hf
  cases hfind : members.find? (fun m => m.1 == name) with
  | none => rw [hfind] at hf2; cases hf2
  | some m =>
    rw [hfind] at hf2
    have e : m.2 = x := Option.some.inj hf2
    rw [← e]
    exact List.all_eq_true.1 hm m (List.mem_of_find?_eq_some hfind)

theorem isReactChild?_field (members : List (JSString × Json)) (name : JSString)
    (hm : members.all (fun m => m.2.isPrimitive) = true) :
    isReactChild? ((Json.obj members).field name) = true := by
  cases hf : (Json.obj members).field name with
  | none => rfl
  | some x => exact isReactChild_of_isPrimitive x (field_isPrimitive members name x hm hf)

theorem isPrimitive_orElse (members : List (JSString × Json)) (name : JSString) (b : Json)
    (hm : members.all (fun m => m.2.isPrimitive) = true) (hb : b.isPrimitive = true) :
    (orElse ((Json.obj members).field name) b).isPrimitive = true := by
  unfold orElse
  cases hf : (Json.obj members).field name with
  | none => exact hb
  | some x =>
    dsimp only
    split
    · exact field_isPrimitive members name x hm hf
    · exact hb

/-- Every cell `renderSeat` builds for a cell of the grid is one React renders. -/
theorem renders_of_isSeat (seat : Json) (r c : Nat) (h : isSeat seat = true) :
    (renderSeat seat r c).renders = true := by
  cases seat with
  | null => rfl
  | bool b => cases h
  | num x => cases h
  | str s => cases h
  | arr items => cases h
  | obj members =>
    have hm : members.all (fun m => m.2.isPrimitive) = true := h
    have ht : (Json.obj members).truthy = true := rfl
    unfold renderSeat
    simp only [ht, Bool.not_true, Bool.false_eq_true, if_false]
    split
    · exact isReactChild?_field members _ hm
    · split
      · show (isReactChild? _ && isReactChild? _) = true
        rw [isReactChild?_field members _ hm, isReactChild?_field members _ hm]
        rfl
      · have hlabel : ∀ b : Json, b.isPrimitive = true →
            (orElse ((Json.obj members).field "batch_label".toList) b).isReactChild = true :=
          fun b hb => isReactChild_of_isPrimitive _ (isPrimitive_orElse members _ b hm hb)
        have hstr : ∀ t : JSString, (Json.str t).isPrimitive = true := fun _ => rfl
        have hr : (orElse ((Json.obj members).field "roll_number".toList)
            (.str [])).isReactChild = true :=
          isReactChild_of_isPrimitive _ (isPrimitive_orElse members _ _ hm rfl)
        have hs : (orElse ((Json.obj members).field "paper_set".toList)
            (.str [])).isReactChild = true :=
          isReactChild_of_isPrimitive _ (isPrimitive_orElse members _ _ hm rfl)
        have key : ∀ a b c d : Bool, a = true → b = true → c = true → d = true →
            (a && b && c && d) = true := by
          intro a b c d ha hb hc hd
          rw [ha, hb, hc, hd]
          rfl
        refine key _ _ _ _ ?_ hr ?_ (isReactChild?_field members _ hm)
        · apply hlabel
          split
          · split <;> rfl
          · rfl
        · split
          · exact hs
          · rfl

theorem chartRows_of_isSeating : ∀ (rows : List Json),
    rows.all (fun row =>
      match row with
      | .arr cells => cells.all isSeat
      | _ => false) = true →
    ∃ grid : List (List Json), chartRows (some (.arr rows)) = some grid ∧
      ∀ row ∈ grid, ∀ cell ∈ row, isSeat cell = true
  | [], _ => ⟨[], rfl, by intro row h; cases h⟩
  | row :: rest, h => by
    rw [List.all_cons, Bool.and_eq_true] at h
    obtain ⟨grid, hg, hcells⟩ := chartRows_of_isSeating rest h.2
    cases row with
    | arr cells =>
      have hc : cells.all isSeat = true := h.1
      refine ⟨cells :: grid, ?_, ?_⟩
      · unfold chartRows at hg ⊢
        simp only [List.foldr_cons] at hg ⊢
        rw [hg]
      · intro r hr cell hcell
        rcases List.mem_cons.1 hr with e | e
        · rw [e] at hcell
          exact List.all_eq_true.1 hc cell hcell
        · exact hcells r e cell hcell
    | null => cases h.1
    | bool b => cases h.1
    | num x => cases h.1
    | str s => cases h.1
    | obj members => cases h.1

theorem renderGrid_renders (grid : List (List Json))
    (h : ∀ row ∈ grid, ∀ cell ∈ row, isSeat cell = true) :
    (renderGrid grid).all (fun row => row.all SeatCell.renders) = true := by
  unfold renderGrid
  rw [List.all_eq_true]
  intro cells hcells
  obtain ⟨row, hrow, rfl⟩ := List.mem_map.1 hcells
  rw [List.all_eq_true]
  intro cell hcell
  obtain ⟨x, hx, rfl⟩ := List.mem_map.1 hcell
  exact renders_of_isSeat _ _ _
    (h row.2 (List.snd_mem_of_mem_enum hrow) x.2 (List.snd_mem_of_mem_enum hx))

/-- Claim C20. For every stored response that has a grid of seats, and whose
`is_valid`, where there is one, is a boolean, the page shows the chart with a
notice above it: `All constraints satisfied` exactly when the response has a
`validation` object whose `is_valid` is `true`, and `Violations detected` in
every other case, as when the response has no `validation` member. -/
theorem chart_notice_iff (p : PageState)
    (hseating : isSeating (p.webData.field "seating".toList) = true)
    (htyped : ∀ v x, p.webData.field "validation".toList = some v →
      v.field "is_valid".toList = some x → ∃ b, x = .bool b) :
    ∃ view, renderChartSection p = some (.chart view) ∧
      view.notice = chartNotice p.webData ∧
      (view.notice = .allSatisfied ↔
        ∃ v, p.webData.field "validation".toList = some v ∧
          v.field "is_valid".toList = some (.bool true)) ∧
      (view.notice = .violations ↔
        ¬ ∃ v, p.webData.field "validation".toList = some v ∧
          v.field "is_valid".toList = some (.bool true)) ∧
      (p.webData.field "validation".toList = none → view.notice = .violations) := by
  obtain ⟨rows, hrows⟩ : ∃ rows, p.webData.field "seating".toList = some (.arr rows) := by
    cases hf : p.webData.field "seating".toList with
    | none => rw [hf] at hseating; cases hseating
    | some v =>
      cases v with
      | arr rows => exact ⟨rows, rfl⟩
      | null => rw [hf] at hseating; cases hseating
      | bool b => rw [hf] at hseating; cases hseating
      | num x => rw [hf] at hseating; cases hseating
      | str s => rw [hf] at hseating; cases hseating
      | obj members => rw [hf] at hseating; cases hseating
  rw [hrows] at hseating
  obtain ⟨grid, hgrid, hcells⟩ := chartRows_of_isSeating rows hseating
  have htruthy : p.webData.truthy = true := truthy_of_field _ _ _ hrows
  have hn := chartNotice_of_validation p.webData htyped
  have hrender : ∃ view, renderChartSection p = some (.chart view) ∧
      view.notice = chartNotice p.webData := by
    unfold renderChartSection
    simp only [htruthy, Bool.not_true, Bool.false_eq_true, if_false]
    rw [hrows, hgrid]
    dsimp only
    rw [if_pos (renderGrid_renders grid hcells)]
    exact ⟨_, rfl, rfl⟩
  obtain ⟨view, hv, hnotice⟩ := hrender
  refine ⟨view, hv, hnotice, ?_, ?_, ?_⟩
  · rw [hnotice]; exact hn.1
  · rw [hnotice]; exact hn.2.1
  · intro h; rw [hnotice]; exact hn.2.2.1 h

/-- Claim C20, witness. A stored grid of two cells, a seat and an empty place,
with a validation that says `is_valid: false`: the page shows the chart under
the notice `Violations detected`. -/
theorem chart_notice_iff_witness :
    ∃ view, renderChartSection { initialPage with webData := .obj [
        ("seating".toList, .arr [.arr [.obj [("batch".toList, .num (.fin 1)),
          ("roll_number".toList, .str "R1".toList)], .null]]),
        ("validation".toList, .obj [("is_valid".toList, .bool false)])] } =
        some (.chart view) ∧
      view.notice = .violations :=
  match chart_notice_iff { initialPage with webData := .obj [
        ("seating".toList, .arr [.arr [.obj [("batch".toList, .num (.fin 1)),
          ("roll_number".toList, .str "R1".toList)], .null]]),
        ("validation".toList, .obj [("is_valid".toList, .bool false)])] }
    rfl
    (by
      intro v x hv hx
      have e : v = .obj [("is_valid".toList, .bool false)] := (Option.some.inj hv).symm
      subst e
      exact ⟨false, (Option.some.inj hx).symm⟩) with
  | ⟨view, hv, _, _, hviolations, _⟩ =>
    ⟨view, hv, hviolations.2 (by
      rintro ⟨v, hv, hx⟩
      have e : v = .obj [("is_valid".toList, .bool false)] := (Option.some.inj hv).symm
      subst e
      have h2 : Json.bool false = Json.bool true := Option.some.inj hx
      exact absurd (Json.bool.inj h2) (by decide))⟩

end Allocation
